import Mathlib

set_option maxHeartbeats 1000000

attribute [local semireducible] Rat.add Rat.mul Rat.sub Rat.inv

deriving instance DecidableEq for Except

/-!
Verification of the vectorbt portfolio execution core (`vectorbt/portfolio/nb.py`).

Doubles are modelled as exact rationals extended with `NaN` and signed
infinities; arithmetic mirrors IEEE-754 behaviour on those special values
(no rounding is modelled — the code's explicit tolerance machinery is).
-/

/-- Extended float value: an exact rational, `NaN`, or a signed infinity. -/
inductive EF where
  | nan : EF
  | pinf : EF
  | ninf : EF
  | fin : ℚ → EF
  deriving DecidableEq, Repr

namespace EF

/-- `np.isnan`. -/
def isNaN : EF → Bool
  | nan => true
  | _ => false

/-- `np.isinf`. -/
def isInf : EF → Bool
  | pinf => true
  | ninf => true
  | _ => false

/-- `np.isfinite`. -/
def isFinite : EF → Bool
  | fin _ => true
  | _ => false

/-- IEEE negation. -/
def neg : EF → EF
  | nan => nan
  | pinf => ninf
  | ninf => pinf
  | fin q => fin (-q)

/-- IEEE addition (`inf + (-inf) = NaN`). -/
def add : EF → EF → EF
  | nan, _ => nan
  | _, nan => nan
  | pinf, ninf => nan
  | ninf, pinf => nan
  | pinf, _ => pinf
  | _, pinf => pinf
  | ninf, _ => ninf
  | _, ninf => ninf
  | fin a, fin b => fin (a + b)

/-- IEEE multiplication (`inf * 0 = NaN`). -/
def mul : EF → EF → EF
  | nan, _ => nan
  | _, nan => nan
  | pinf, pinf => pinf
  | pinf, ninf => ninf
  | ninf, pinf => ninf
  | ninf, ninf => pinf
  | pinf, fin q => if 0 < q then pinf else if q < 0 then ninf else nan
  | ninf, fin q => if 0 < q then ninf else if q < 0 then pinf else nan
  | fin q, pinf => if 0 < q then pinf else if q < 0 then ninf else nan
  | fin q, ninf => if 0 < q then ninf else if q < 0 then pinf else nan
  | fin a, fin b => fin (a * b)

/-- IEEE division; division of a nonzero finite value by zero gives a signed
infinity (zero is treated as `+0`), `0/0 = NaN`, `inf/inf = NaN`. -/
def div : EF → EF → EF
  | nan, _ => nan
  | _, nan => nan
  | pinf, pinf => nan
  | pinf, ninf => nan
  | ninf, pinf => nan
  | ninf, ninf => nan
  | fin _, pinf => fin 0
  | fin _, ninf => fin 0
  | pinf, fin q => if 0 < q then pinf else if q < 0 then ninf else pinf
  | ninf, fin q => if 0 < q then ninf else if q < 0 then pinf else ninf
  | fin a, fin b =>
    if b = 0 then (if a = 0 then nan else if 0 < a then pinf else ninf)
    else fin (a / b)

instance : Neg EF := ⟨EF.neg⟩

instance : Add EF := ⟨EF.add⟩

instance : Mul EF := ⟨EF.mul⟩

instance : Div EF := ⟨EF.div⟩

instance : Sub EF := ⟨fun a b => EF.add a (EF.neg b)⟩

instance (n : Nat) : OfNat EF n := ⟨EF.fin (OfNat.ofNat n)⟩

/-- IEEE strict less-than: any comparison involving `NaN` is false. -/
def ltb : EF → EF → Bool
  | nan, _ => false
  | _, nan => false
  | pinf, _ => false
  | ninf, ninf => false
  | ninf, _ => true
  | fin _, pinf => true
  | fin _, ninf => false
  | fin a, fin b => decide (a < b)

/-- IEEE less-or-equal: any comparison involving `NaN` is false. -/
def leb : EF → EF → Bool
  | nan, _ => false
  | _, nan => false
  | ninf, _ => true
  | _, ninf => false
  | _, pinf => true
  | pinf, _ => false
  | fin a, fin b => decide (a ≤ b)

/-- IEEE equality: `NaN == x` is always false. -/
def eqb : EF → EF → Bool
  | nan, _ => false
  | _, nan => false
  | pinf, pinf => true
  | ninf, ninf => true
  | fin a, fin b => decide (a = b)
  | _, _ => false

/-- Absolute value. -/
def abs : EF → EF
  | nan => nan
  | pinf => pinf
  | ninf => pinf
  | fin q => fin |q|

/-- `np.sign`. -/
def sign : EF → EF
  | nan => nan
  | pinf => fin 1
  | ninf => fin (-1)
  | fin q => if 0 < q then fin 1 else if q < 0 then fin (-1) else fin 0

/-- Python's builtin `min` on two floats: `min(a, b) = b if b < a else a`. -/
def pymin (a b : EF) : EF := if ltb b a then b else a

/-- Python's builtin `max` on two floats: `max(a, b) = b if a < b else b ... a`. -/
def pymax (a b : EF) : EF := if ltb a b then b else a

/-- Python float floor division `a // b` (`floor` of the exact quotient;
`inf // x = NaN` as in CPython; only used by the code with a finite positive
divisor). -/
def fdiv : EF → EF → EF
  | nan, _ => nan
  | _, nan => nan
  | pinf, _ => nan
  | ninf, _ => nan
  | fin q, pinf => if q < 0 then fin (-1) else fin 0
  | fin q, ninf => if 0 < q then fin (-1) else fin 0
  | fin a, fin b => if b = 0 then nan else fin ((⌊a / b⌋ : ℤ) : ℚ)

end EF

/-- Relative tolerance used by `vectorbt.utils.math_` (`1e-9`). -/
def relTolQ : ℚ := 1 / 10 ^ 9

/-- Absolute tolerance used by `vectorbt.utils.math_` (`1e-12`). -/
def absTolQ : ℚ := 1 / 10 ^ 12

/-- Modelled from the spec: `vectorbt.utils.math_.is_close_nb`
(`is_close(a,b) = |a-b| <= max(rel_tol*max(|a|,|b|), abs_tol)`; a `NaN` or
infinite operand is never close, mirroring its explicit NaN/inf guards). -/
def is_close_nb (a b : EF) : Bool :=
  match a, b with
  | EF.fin x, EF.fin y => decide (|x - y| ≤ max (relTolQ * max |x| |y|) absTolQ)
  | _, _ => false

/-- Modelled from the spec: `vectorbt.utils.math_.is_close_or_less_nb`
(`is_close(a,b) or a < b`). -/
def is_close_or_less_nb (a b : EF) : Bool :=
  is_close_nb a b || a.ltb b

/-- Modelled from the spec: `vectorbt.utils.math_.is_less_nb`
(`not is_close(a,b) and a < b`). -/
def is_less_nb (a b : EF) : Bool :=
  !is_close_nb a b && a.ltb b

/-- Modelled from the spec: `vectorbt.utils.math_.add_nb`
(`a + b`, snapped to exactly `0` when the sum is within tolerance of `0`). -/
def add_nb (a b : EF) : EF :=
  let result := a + b
  if is_close_nb result 0 then 0 else result

/-- Rational-level zero-snap: what `add_nb` does to the exact sum. -/
def snapQ (q : ℚ) : ℚ := if |q| ≤ absTolQ then 0 else q

theorem is_close_fin_zero (x : ℚ) : is_close_nb (EF.fin x) 0 = decide (|x| ≤ absTolQ) := by
  show decide (|x - 0| ≤ max (relTolQ * max |x| |(0 : ℚ)|) absTolQ) = decide (|x| ≤ absTolQ)
  have hm : max |x| |(0 : ℚ)| = |x| := by simp
  rw [sub_zero, hm]
  rcases le_or_lt (relTolQ * |x|) absTolQ with h | h
  · rw [max_eq_right h]
  · rw [max_eq_left h.le]
    have hrel1 : relTolQ < 1 := by norm_num [relTolQ]
    have hrel0 : (0 : ℚ) < relTolQ := by norm_num [relTolQ]
    have habs0 : (0 : ℚ) < absTolQ := by norm_num [absTolQ]
    have hx : 0 < |x| := by nlinarith [abs_nonneg x]
    have h1 : ¬ |x| ≤ relTolQ * |x| := by nlinarith
    have h2 : ¬ |x| ≤ absTolQ := by nlinarith
    simp [h1, h2]

theorem add_nb_fin (a b : ℚ) : add_nb (EF.fin a) (EF.fin b) = EF.fin (snapQ (a + b)) := by
  show (if is_close_nb (EF.fin (a + b)) 0 then (0 : EF) else EF.fin (a + b)) = _
  rw [is_close_fin_zero, snapQ]
  by_cases h : |a + b| ≤ absTolQ
  · rw [if_pos (by simpa using h)]
    simp [h]
    rfl
  · rw [if_neg (by simpa using h)]
    simp [h]

theorem snapQ_dev (q : ℚ) : |snapQ q - q| ≤ absTolQ := by
  rw [snapQ]
  by_cases h : |q| ≤ absTolQ
  · rw [if_pos h]
    simpa using h
  · rw [if_neg h, sub_self, abs_zero]
    norm_num [absTolQ]

theorem snapQ_nonneg {q : ℚ} (h : 0 ≤ q) : 0 ≤ snapQ q := by
  rw [snapQ]; split <;> simp [h]

theorem snapQ_nonpos {q : ℚ} (h : q ≤ 0) : snapQ q ≤ 0 := by
  rw [snapQ]; split <;> simp [h]

theorem snapQ_pos_of (q : ℚ) (h : absTolQ < q) : snapQ q = q := by
  rw [snapQ, if_neg]
  intro habs
  have := abs_nonneg q
  have hq : q ≤ |q| := le_abs_self q
  linarith

theorem snapQ_eq_zero_iff (q : ℚ) : snapQ q = 0 ↔ |q| ≤ absTolQ := by
  rw [snapQ]
  constructor
  · intro h
    by_contra hc
    rw [if_neg hc] at h
    subst h
    exact hc (by norm_num [absTolQ])
  · intro h
    rw [if_pos h]

/-- `np.float !=` (IEEE: `NaN != x` is true). -/
def EF.neb (a b : EF) : Bool := !EF.eqb a b

namespace Direction

def LongOnly : Int := 0

def ShortOnly : Int := 1

def Both : Int := 2

end Direction

namespace SizeType

def Amount : Int := 0

def Value : Int := 1

def Percent : Int := 2

def TargetAmount : Int := 3

def TargetValue : Int := 4

def TargetPercent : Int := 5

end SizeType

namespace OrderStatus

def Filled : Int := 0

def Ignored : Int := 1

def Rejected : Int := 2

end OrderStatus

namespace OrderStatusInfo

def SizeNaN : Int := 0

def PriceNaN : Int := 1

def ValPriceNaN : Int := 2

def ValueNaN : Int := 3

def ValueZeroNeg : Int := 4

def SizeZero : Int := 5

def NoCashShort : Int := 6

def NoCashLong : Int := 7

def NoOpenPosition : Int := 8

def MaxSizeExceeded : Int := 9

def RandomEvent : Int := 10

def CantCoverFees : Int := 11

def MinSizeNotReached : Int := 12

def PartialFill : Int := 13

end OrderStatusInfo

namespace OrderSide

def Buy : Int := 0

def Sell : Int := 1

end OrderSide

namespace PriceAreaVioMode

def Ignore : Int := 0

def Cap : Int := 1

def Error : Int := 2

end PriceAreaVioMode

namespace TradeDirection

def Long : Int := 0

def Short : Int := 1

end TradeDirection

/-- `vectorbt.portfolio.enums.PriceArea`: the OHLC tuple of the current bar. -/
structure PriceArea where
  open_ : EF
  high : EF
  low : EF
  close : EF
  deriving DecidableEq, Repr

/-- `NoPriceArea`: all fields NaN. -/
def NoPriceArea : PriceArea := ⟨EF.nan, EF.nan, EF.nan, EF.nan⟩

/-- `vectorbt.portfolio.enums.ExecuteOrderState`. -/
structure ExecuteOrderState where
  cash : EF
  position : EF
  debt : EF
  free_cash : EF
  deriving DecidableEq, Repr

/-- `vectorbt.portfolio.enums.ProcessOrderState`. -/
structure ProcessOrderState where
  cash : EF
  position : EF
  debt : EF
  free_cash : EF
  val_price : EF
  value : EF
  deriving DecidableEq, Repr

/-- `vectorbt.portfolio.enums.Order` (the order request). -/
structure Order where
  size : EF
  price : EF
  size_type : Int
  direction : Int
  fees : EF
  fixed_fees : EF
  slippage : EF
  min_size : EF
  max_size : EF
  size_granularity : EF
  reject_prob : EF
  price_area_vio_mode : Int
  lock_cash : Bool
  allowPartial : Bool
  raise_reject : Bool
  log : Bool
  deriving DecidableEq, Repr

/-- `vectorbt.portfolio.enums.OrderResult`. -/
structure OrderResult where
  size : EF
  price : EF
  fees : EF
  side : Int
  status : Int
  status_info : Int
  deriving DecidableEq, Repr

/-- `order_not_filled_nb`: result for an order that has not been filled. -/
def order_not_filled_nb (status : Int) (status_info : Int) : OrderResult :=
  ⟨EF.nan, EF.nan, EF.nan, -1, status, status_info⟩

/-- The high-side cap of `check_adj_price_nb` (lines 98-102, Cap mode). -/
def cap_high (p : EF) (price_area : PriceArea) (price_area_vio_mode : Int) : EF :=
  if price_area.high.ltb p && price_area_vio_mode == PriceAreaVioMode.Cap then
    price_area.high else p

/-- The low-side cap of `check_adj_price_nb` (lines 103-107, Cap mode). -/
def cap_low (p : EF) (price_area : PriceArea) (price_area_vio_mode : Int) : EF :=
  if p.ltb price_area.low && price_area_vio_mode == PriceAreaVioMode.Cap then
    price_area.low else p

/-- The closing-price cap of `check_adj_price_nb` (lines 108-112, Cap mode). -/
def cap_close (p : EF) (price_area : PriceArea) (is_closing_price : Bool)
    (price_area_vio_mode : Int) : EF :=
  if is_closing_price && p.neb price_area.close &&
      price_area_vio_mode == PriceAreaVioMode.Cap then
    price_area.close else p

/-- `check_adj_price_nb`: check/cap the adjusted price against the price area. -/
def check_adj_price_nb (adj_price : EF) (price_area : PriceArea)
    (is_closing_price : Bool) (price_area_vio_mode : Int) : Except String EF :=
  if price_area_vio_mode == PriceAreaVioMode.Ignore then .ok adj_price
  else if price_area.high.ltb adj_price && price_area_vio_mode == PriceAreaVioMode.Error then
    .error "Adjusted order price goes above the highest price"
  else
    let p1 := cap_high adj_price price_area price_area_vio_mode
    if p1.ltb price_area.low && price_area_vio_mode == PriceAreaVioMode.Error then
      .error "Adjusted order price goes below than the lowest price"
    else
      let p2 := cap_low p1 price_area price_area_vio_mode
      if is_closing_price && p2.neb price_area.close &&
          price_area_vio_mode == PriceAreaVioMode.Error then
        .error "Adjusted order price goes beyond the closing price"
      else
        .ok (cap_close p2 price_area is_closing_price price_area_vio_mode)

/-- Cap of the computed size to `max_size` (buy_nb line 185 / sell_nb line 345;
applied after the `allow_partial` rejection check on the same comparison). -/
def apply_max_size (s max_size : EF) : EF := if max_size.ltb s then max_size else s

/-- Granularity flooring `s // size_granularity * size_granularity`
(buy_nb lines 188-189 / sell_nb lines 355-356; NaN granularity is a no-op). -/
def apply_granularity (s size_granularity : EF) : EF :=
  if size_granularity.isNaN then s else s.fdiv size_granularity * size_granularity

/-- Percent application `size_limit = percent * size_limit` (sell_nb lines
337-339; NaN percent is a no-op). -/
def apply_percent (s percent : EF) : EF :=
  if percent.isNaN then s else percent * s

/-- buy_nb lines 139-164: the cash limit — lock-cash/short-cover handling,
cap to the current cash, percent application. -/
def buy_nb_cash_limit (exec_state : ExecuteOrderState) (adj_price fees fixed_fees : EF)
    (lock_cash : Bool) (percent : EF) : EF :=
  let cash_limit_0 :=
    if lock_cash then
      if EF.leb 0 exec_state.position then
        exec_state.free_cash
      else
        let cover_req_cash := exec_state.position.abs * adj_price * (1 + fees) + fixed_fees
        let cover_free_cash :=
          add_nb (exec_state.free_cash + 2 * exec_state.debt) (-cover_req_cash)
        if EF.ltb 0 cover_free_cash then
          exec_state.free_cash + 2 * exec_state.debt
        else if cover_free_cash.ltb 0 then
          let avg_entry_price := exec_state.debt / exec_state.position.abs
          let max_short_size := (exec_state.free_cash - fixed_fees) /
            (adj_price * (1 + fees) - 2 * avg_entry_price)
          max_short_size * adj_price * (1 + fees) + fixed_fees
        else
          exec_state.cash
    else exec_state.cash
  let cash_limit_1 := EF.pymin cash_limit_0 exec_state.cash
  if percent.isNaN then cash_limit_1
  else EF.pymin cash_limit_1 (percent * cash_limit_1)

/-- buy_nb lines 176-179: the direction-dependent requested size
(cover size capped at `-position` for ShortOnly). -/
def buy_nb_adj_size_0 (position size : EF) (direction : Int) : EF :=
  if direction == Direction.ShortOnly then EF.pymin (-position) size else size

/-- buy_nb lines 192-198: fees required to buy `adj_size`
(`req_cash * fees + fixed_fees`, infinite for an infinite size). -/
def buy_nb_req_fees (adj_size adj_price fees fixed_fees : EF) : EF :=
  if adj_size.isInf then EF.pinf else adj_size * adj_price * fees + fixed_fees

/-- buy_nb lines 192-198: total cash required to buy `adj_size`
(`req_cash + req_fees`, infinite for an infinite size). -/
def buy_nb_total_req_cash (adj_size adj_price fees fixed_fees : EF) : EF :=
  if adj_size.isInf then EF.pinf
  else adj_size * adj_price + (adj_size * adj_price * fees + fixed_fees)

/-- buy_nb lines 238-271: the state update and result of a filled buy —
cash decreases by the required cash, position grows by the final size, debt
is reduced by the covered short value, free cash is adjusted with the debt
relief. -/
def buy_nb_fill (exec_state : ExecuteOrderState)
    (adj_price final_size fees_paid final_req_cash : EF) :
    ExecuteOrderState × OrderResult :=
  let new_cash := add_nb exec_state.cash (-final_req_cash)
  let new_position := add_nb exec_state.position final_size
  let nd_nfc :=
    if exec_state.position.ltb 0 then
      let short_size := if new_position.ltb 0 then final_size
        else exec_state.position.abs
      let avg_entry_price := exec_state.debt / exec_state.position.abs
      let debt_diff := short_size * avg_entry_price
      (add_nb exec_state.debt (-debt_diff),
       add_nb (exec_state.free_cash + 2 * debt_diff) (-final_req_cash))
    else
      (exec_state.debt, add_nb exec_state.free_cash (-final_req_cash))
  (⟨new_cash, new_position, nd_nfc.1, nd_nfc.2⟩,
   ⟨final_size, adj_price, fees_paid, OrderSide.Buy, OrderStatus.Filled, -1⟩)

/-- buy_nb lines 227-271: the shared tail after the final size is known —
SizeZero/MinSizeNotReached/PartialFill checks, then the fill: update cash,
position, debt (reduced by the covered short value) and free cash. -/
def buy_nb_finish (exec_state : ExecuteOrderState) (size adj_price min_size : EF)
    (allowPartial : Bool) (adj_size final_size fees_paid final_req_cash : EF) :
    Except String (ExecuteOrderState × OrderResult) :=
  if is_close_nb adj_size 0 then
    .ok (exec_state, order_not_filled_nb OrderStatus.Ignored OrderStatusInfo.SizeZero)
  else if is_less_nb final_size min_size then
    .ok (exec_state, order_not_filled_nb OrderStatus.Rejected OrderStatusInfo.MinSizeNotReached)
  else if size.isFinite && is_less_nb final_size size && !allowPartial then
    .ok (exec_state, order_not_filled_nb OrderStatus.Rejected OrderStatusInfo.PartialFill)
  else
    .ok (buy_nb_fill exec_state adj_price final_size fees_paid final_req_cash)

/-- `buy_nb`: buy or/and cover. The source's sequentially-mutated locals are
the helper functions above; the shared tail after the size computation is
`buy_nb_finish adj_size final_size fees_paid final_req_cash`. -/
def buy_nb (exec_state : ExecuteOrderState) (size price : EF) (direction : Int)
    (fees fixed_fees slippage min_size max_size size_granularity : EF)
    (price_area_vio_mode : Int) (lock_cash allowPartial : Bool) (percent : EF)
    (price_area : PriceArea) (is_closing_price : Bool) :
    Except String (ExecuteOrderState × OrderResult) :=
  match check_adj_price_nb (price * (1 + slippage)) price_area is_closing_price
      price_area_vio_mode with
  | .error e => .error e
  | .ok adj_price =>
    let cash_limit := buy_nb_cash_limit exec_state adj_price fees fixed_fees
      lock_cash percent
    if (direction == Direction.LongOnly || direction == Direction.Both) &&
        cash_limit.eqb 0 then
      .ok (exec_state, order_not_filled_nb OrderStatus.Rejected OrderStatusInfo.NoCashLong)
    else if (direction == Direction.LongOnly || direction == Direction.Both) &&
        size.isInf && cash_limit.isInf then
      .error "Attempt to go in long direction infinitely"
    else if !(direction == Direction.LongOnly || direction == Direction.Both) &&
        exec_state.position.eqb 0 then
      .ok (exec_state, order_not_filled_nb OrderStatus.Rejected OrderStatusInfo.NoOpenPosition)
    else
      let adj_size_0 := buy_nb_adj_size_0 exec_state.position size direction
      if max_size.ltb adj_size_0 && !allowPartial then
        .ok (exec_state, order_not_filled_nb OrderStatus.Rejected OrderStatusInfo.MaxSizeExceeded)
      else
        let adj_size := apply_granularity (apply_max_size adj_size_0 max_size)
          size_granularity
        if is_close_or_less_nb (buy_nb_total_req_cash adj_size adj_price fees fixed_fees)
            cash_limit then
          buy_nb_finish exec_state size adj_price min_size allowPartial adj_size
            adj_size (buy_nb_req_fees adj_size adj_price fees fixed_fees)
            (buy_nb_total_req_cash adj_size adj_price fees fixed_fees)
        else
          let max_req_cash := add_nb cash_limit (-fixed_fees) / (1 + fees)
          if max_req_cash.leb 0 then
            .ok (exec_state,
              order_not_filled_nb OrderStatus.Rejected OrderStatusInfo.CantCoverFees)
          else
            let max_acq_size := max_req_cash / adj_price
            if !size_granularity.isNaN then
              let final_size := max_acq_size.fdiv size_granularity * size_granularity
              buy_nb_finish exec_state size adj_price min_size allowPartial adj_size
                final_size (final_size * adj_price * fees + fixed_fees)
                (final_size * adj_price + (final_size * adj_price * fees + fixed_fees))
            else
              buy_nb_finish exec_state size adj_price min_size allowPartial adj_size
                max_acq_size (cash_limit - max_req_cash) cash_limit

/-- sell_nb lines 380-413: the state update and result of a filled sell —
cash grows by the net proceeds, position shrinks by the sold size, debt grows
by the newly shorted value, free cash is adjusted by the debt-aware delta. -/
def sell_nb_fill (exec_state : ExecuteOrderState)
    (adj_price size_limit fees_paid final_acq_cash : EF) :
    ExecuteOrderState × OrderResult :=
  let new_cash := exec_state.cash + final_acq_cash
  let new_position := add_nb exec_state.position (-size_limit)
  let nd_nfc :=
    if new_position.ltb 0 then
      let short_size := if exec_state.position.ltb 0 then size_limit
        else new_position.abs
      let short_value := short_size * adj_price
      let free_cash_diff := add_nb final_acq_cash (-(2 * short_value))
      (exec_state.debt + short_value,
       add_nb exec_state.free_cash free_cash_diff)
    else
      (exec_state.debt, exec_state.free_cash + final_acq_cash)
  (⟨new_cash, new_position, nd_nfc.1, nd_nfc.2⟩,
   ⟨size_limit, adj_price, fees_paid, OrderSide.Sell, OrderStatus.Filled, -1⟩)

/-- sell_nb lines 337-413: the shared tail once the pre-percent size limit and
the current percent are known — percent application, max-size cap, infinite
short / no-open-position checks, granularity, SizeZero/MinSize/Partial checks,
CantCoverFees on negative net proceeds, then the fill: update cash, position,
debt (grown by the newly shorted value) and free cash. -/
def sell_nb_finish (exec_state : ExecuteOrderState) (size : EF) (direction : Int)
    (fees fixed_fees min_size max_size size_granularity : EF) (allowPartial : Bool)
    (adj_price : EF) (size_limit_0 percent_1 : EF) :
    Except String (ExecuteOrderState × OrderResult) :=
  let size_limit_1 := apply_percent size_limit_0 percent_1
  if max_size.ltb size_limit_1 && !allowPartial then
    .ok (exec_state, order_not_filled_nb OrderStatus.Rejected OrderStatusInfo.MaxSizeExceeded)
  else
    let size_limit_2 := apply_max_size size_limit_1 max_size
    if (direction == Direction.ShortOnly || direction == Direction.Both) &&
        size_limit_2.isInf then
      .error "Attempt to go in short direction infinitely"
    else if !(direction == Direction.ShortOnly || direction == Direction.Both) &&
        exec_state.position.eqb 0 then
      .ok (exec_state, order_not_filled_nb OrderStatus.Rejected OrderStatusInfo.NoOpenPosition)
    else
      let size_limit := apply_granularity size_limit_2 size_granularity
      if is_close_nb size_limit 0 then
        .ok (exec_state, order_not_filled_nb OrderStatus.Ignored OrderStatusInfo.SizeZero)
      else if is_less_nb size_limit min_size then
        .ok (exec_state,
          order_not_filled_nb OrderStatus.Rejected OrderStatusInfo.MinSizeNotReached)
      else if size.isFinite && is_less_nb size_limit size && !allowPartial then
        .ok (exec_state, order_not_filled_nb OrderStatus.Rejected OrderStatusInfo.PartialFill)
      else
        let acq_cash := size_limit * adj_price
        let fees_paid := acq_cash * fees + fixed_fees
        let final_acq_cash := add_nb acq_cash (-fees_paid)
        if final_acq_cash.ltb 0 then
          .ok (exec_state,
            order_not_filled_nb OrderStatus.Rejected OrderStatusInfo.CantCoverFees)
        else
          .ok (sell_nb_fill exec_state adj_price size_limit fees_paid final_acq_cash)

/-- sell_nb lines 321-333: given the maximum sellable size, the lock-cash
percent handling (upper-limited sizes, consuming `percent`), or the
unlimited `size_limit = max_size_limit` for the infinite-size case. -/
def sell_nb_after_max (exec_state : ExecuteOrderState) (size : EF) (direction : Int)
    (fees fixed_fees min_size max_size size_granularity : EF)
    (lock_cash allowPartial : Bool) (percent : EF) (adj_price : EF)
    (max_size_limit : EF) : Except String (ExecuteOrderState × OrderResult) :=
  if lock_cash then
    if size.isInf && !percent.isNaN then
      sell_nb_finish exec_state size direction fees fixed_fees min_size max_size
        size_granularity allowPartial adj_price
        (EF.pymin (percent * max_size_limit) max_size_limit) EF.nan
    else if !percent.isNaN then
      sell_nb_finish exec_state size direction fees fixed_fees min_size max_size
        size_granularity allowPartial adj_price
        (EF.pymin (percent * size) max_size_limit) EF.nan
    else
      sell_nb_finish exec_state size direction fees fixed_fees min_size max_size
        size_granularity allowPartial adj_price
        (EF.pymin size max_size_limit) percent
  else
    sell_nb_finish exec_state size direction fees fixed_fees min_size max_size
      size_granularity allowPartial adj_price max_size_limit percent

/-- `sell_nb`: sell or/and short sell. The source's sequentially-mutated
locals are the helper functions above; the shared tail from the percent
application onwards is `sell_nb_finish size_limit_0 percent_1`. -/
def sell_nb (exec_state : ExecuteOrderState) (size price : EF) (direction : Int)
    (fees fixed_fees slippage min_size max_size size_granularity : EF)
    (price_area_vio_mode : Int) (lock_cash allowPartial : Bool) (percent : EF)
    (price_area : PriceArea) (is_closing_price : Bool) :
    Except String (ExecuteOrderState × OrderResult) :=
  match check_adj_price_nb (price * (1 - slippage)) price_area is_closing_price
      price_area_vio_mode with
  | .error e => .error e
  | .ok adj_price =>
    if direction == Direction.LongOnly then
      sell_nb_finish exec_state size direction fees fixed_fees min_size max_size
        size_granularity allowPartial adj_price
        (EF.pymin exec_state.position size) percent
    else if lock_cash || (size.isInf && !percent.isNaN) then
      let long_size := EF.pymax exec_state.position 0
      let long_cash := long_size * adj_price * (1 - fees)
      let total_free_cash := add_nb exec_state.free_cash long_cash
      if total_free_cash.leb 0 then
        if exec_state.position.leb 0 then
          .ok (exec_state,
            order_not_filled_nb OrderStatus.Rejected OrderStatusInfo.NoCashShort)
        else
          sell_nb_after_max exec_state size direction fees fixed_fees min_size
            max_size size_granularity lock_cash allowPartial percent adj_price long_size
      else
        let max_short_size := add_nb total_free_cash (-fixed_fees) /
          (adj_price * (1 + fees))
        let max_size_limit := add_nb long_size max_short_size
        if max_size_limit.leb 0 then
          .ok (exec_state,
            order_not_filled_nb OrderStatus.Rejected OrderStatusInfo.CantCoverFees)
        else
          sell_nb_after_max exec_state size direction fees fixed_fees min_size
            max_size size_granularity lock_cash allowPartial percent adj_price
            max_size_limit
    else
      sell_nb_finish exec_state size direction fees fixed_fees min_size max_size
        size_granularity allowPartial adj_price size percent

/-- Zero-snap applied by `execute_order_nb` to each incoming state field
("numerical stability" block): values within tolerance of `0` become `0`. -/
def snapZero (x : EF) : EF := if is_close_nb x 0 then 0 else x

/-- Outcome of the size-type normalisation block of `execute_order_nb`
(lines 521-568): either a not-filled result, or the final `(size, percent)`
routed to `buy_nb`/`sell_nb`. -/
inductive SizeResolution where
  | skip (result : OrderResult) : SizeResolution
  | trade (size percent : EF) : SizeResolution
  deriving DecidableEq, Repr

/-- The tail of the size-type normalisation (lines 552-568): the conversion of
an infinitely negative `Amount` under ShortOnly/Both to a full-percent sell,
and the final `Percent` extraction (`size = sign(s)*inf`, `percent = |s|`). -/
def resolve_size_tail (s4 : EF) (t4 direction : Int) : Except String SizeResolution :=
  if t4 == SizeType.Amount &&
      (direction == Direction.ShortOnly || direction == Direction.Both) &&
      s4.ltb 0 && s4.isInf then
    .ok (.trade (EF.sign (EF.fin (-1)) * EF.pinf) (EF.fin (-1)).abs)
  else if t4 == SizeType.Percent then
    .ok (.trade (EF.sign s4 * EF.pinf) s4.abs)
  else
    .ok (.trade s4 EF.nan)

/-- The `TargetAmount → Amount` step of the size-type normalisation
(lines 548-551): subtract the current position. -/
def resolve_size_target (s3 : EF) (t3 direction : Int) (position : EF) :
    Except String SizeResolution :=
  resolve_size_tail (if t3 == SizeType.TargetAmount then s3 - position else s3)
    (if t3 == SizeType.TargetAmount then SizeType.Amount else t3) direction

/-- The `Value/TargetValue → Amount/TargetAmount` step of the size-type
normalisation (lines 535-547): validate `val_price` and divide by it. -/
def resolve_size_value (s2 : EF) (t2 direction : Int) (position val_price : EF) :
    Except String SizeResolution :=
  if (t2 == SizeType.Value || t2 == SizeType.TargetValue) &&
      (val_price.isInf || val_price.leb 0) then
    .error "val_price_now must be finite and greater than 0"
  else if (t2 == SizeType.Value || t2 == SizeType.TargetValue) && val_price.isNaN then
    .ok (.skip (order_not_filled_nb OrderStatus.Ignored OrderStatusInfo.ValPriceNaN))
  else
    resolve_size_target
      (if t2 == SizeType.Value || t2 == SizeType.TargetValue then s2 / val_price else s2)
      (if t2 == SizeType.Value then SizeType.Amount
       else if t2 == SizeType.TargetValue then SizeType.TargetAmount else t2)
      direction position

/-- The size-type normalisation block of `execute_order_nb` (lines 521-568):
`ShortOnly` sign flip, `TargetPercent → TargetValue → TargetAmount → Amount`,
`Value → Amount`, the infinite-negative-`Amount` to `Percent` conversion, and
the final `Percent → Amount` step that extracts `percent`; the sequential
type/size rewrites are the layered helpers above. -/
def resolve_size_nb (size0 : EF) (size_type0 direction : Int)
    (position value val_price : EF) : Except String SizeResolution :=
  let s1 := if direction == Direction.ShortOnly then -size0 else size0
  if size_type0 == SizeType.TargetPercent && value.isNaN then
    .ok (.skip (order_not_filled_nb OrderStatus.Ignored OrderStatusInfo.ValueNaN))
  else if size_type0 == SizeType.TargetPercent && value.leb 0 then
    .ok (.skip (order_not_filled_nb OrderStatus.Rejected OrderStatusInfo.ValueZeroNeg))
  else
    resolve_size_value (if size_type0 == SizeType.TargetPercent then s1 * value else s1)
      (if size_type0 == SizeType.TargetPercent then SizeType.TargetValue else size_type0)
      direction position val_price

/-- Price resolution of `execute_order_nb` (lines 469-477): `+inf` means
"use close", `-inf` means "use open", finite prices are used verbatim. -/
def resolve_order_price (price : EF) (price_area : PriceArea) : EF :=
  if price.isInf then
    (if EF.ltb 0 price then price_area.close else price_area.open_)
  else price

/-- The random-rejection tail of `execute_order_nb` (lines 609-613): with
probability `reject_prob` the traded outcome is discarded and the snapped
input state returned with a `RandomEvent` rejection. -/
def execute_order_random_tail (exec_state new_exec_state : ExecuteOrderState)
    (order_result : OrderResult) (reject_prob rand : EF) :
    Except String (ExecuteOrderState × OrderResult) :=
  if EF.ltb 0 reject_prob && rand.ltb reject_prob then
    .ok (exec_state, order_not_filled_nb OrderStatus.Rejected OrderStatusInfo.RandomEvent)
  else
    .ok (new_exec_state, order_result)

/-- Price-area validation of `execute_order_nb` (lines 459-467): the message
of the first violated check, if any (each field must be NaN, or finite and
positive). -/
def check_price_area (price_area : PriceArea) : Option String :=
  if price_area.open_.isInf || price_area.open_.leb 0 then
    some "price_area.open must be either NaN, or finite and greater than 0"
  else if price_area.high.isInf || price_area.high.leb 0 then
    some "price_area.high must be either NaN, or finite and greater than 0"
  else if price_area.low.isInf || price_area.low.leb 0 then
    some "price_area.low must be either NaN, or finite and greater than 0"
  else if price_area.close.isInf || price_area.close.leb 0 then
    some "price_area.close must be either NaN, or finite and greater than 0"
  else none

/-- State and order validation of `execute_order_nb` (lines 485-519), applied
to the snapped state fields and the resolved order price: the message of the
first violated check, if any. -/
def execute_order_checks (cash position debt free_cash order_price : EF)
    (order : Order) : Option String :=
  if cash.isNaN || cash.ltb 0 then
    some "state.cash cannot be NaN and must be greater than 0"
  else if !position.isFinite then
    some "state.position must be finite"
  else if !debt.isFinite || debt.ltb 0 then
    some "state.debt must be finite and 0 or greater"
  else if free_cash.isNaN then
    some "state.free_cash cannot be NaN"
  else if !order_price.isFinite || order_price.leb 0 then
    some "order.price must be finite and greater than 0"
  else if decide (order.size_type < 0) || decide (6 ≤ order.size_type) then
    some "order.size_type is invalid"
  else if decide (order.direction < 0) || decide (3 ≤ order.direction) then
    some "order.direction is invalid"
  else if order.direction == Direction.LongOnly && position.ltb 0 then
    some "state.position is negative but order.direction is Direction.LongOnly"
  else if order.direction == Direction.ShortOnly && EF.ltb 0 position then
    some "state.position is positive but order.direction is Direction.ShortOnly"
  else if !order.fees.isFinite then
    some "order.fees must be finite"
  else if !order.fixed_fees.isFinite then
    some "order.fixed_fees must be finite"
  else if !order.slippage.isFinite || order.slippage.ltb 0 then
    some "order.slippage must be finite and 0 or greater"
  else if !order.min_size.isFinite || order.min_size.ltb 0 then
    some "order.min_size must be finite and 0 or greater"
  else if order.max_size.isNaN || order.max_size.leb 0 then
    some "order.max_size must be greater than 0"
  else if order.size_granularity.isInf || order.size_granularity.leb 0 then
    some "order.size_granularity must be either NaN, or finite and greater than 0"
  else if !order.reject_prob.isFinite || order.reject_prob.ltb 0 ||
      (EF.ltb 1 order.reject_prob) then
    some "order.reject_prob must be between 0 and 1"
  else none

/-- Size normalisation, buy/sell dispatch and random-rejection tail of
`execute_order_nb` (lines 521-613). -/
def execute_order_core (exec_state : ExecuteOrderState) (order : Order)
    (order_price : EF) (is_closing_price : Bool) (price_area : PriceArea)
    (value val_price rand : EF) : Except String (ExecuteOrderState × OrderResult) :=
  match resolve_size_nb order.size order.size_type order.direction
      exec_state.position value val_price with
  | .error e => .error e
  | .ok (.skip r) => .ok (exec_state, r)
  | .ok (.trade order_size percent) =>
    if EF.ltb 0 order_size then
      match buy_nb exec_state order_size order_price order.direction order.fees
          order.fixed_fees order.slippage order.min_size order.max_size
          order.size_granularity order.price_area_vio_mode order.lock_cash
          order.allowPartial percent price_area is_closing_price with
      | .error e => .error e
      | .ok (new_exec_state, order_result) =>
        execute_order_random_tail exec_state new_exec_state order_result
          order.reject_prob rand
    else
      match sell_nb exec_state (-order_size) order_price order.direction order.fees
          order.fixed_fees order.slippage order.min_size order.max_size
          order.size_granularity order.price_area_vio_mode order.lock_cash
          order.allowPartial percent price_area is_closing_price with
      | .error e => .error e
      | .ok (new_exec_state, order_result) =>
        execute_order_random_tail exec_state new_exec_state order_result
          order.reject_prob rand

/-- `execute_order_nb`: execute an order given the current state — the
zero-snap of the state, price-area checks, price resolution, the NaN-size
and NaN-price ignores, the fatal validation checks, then the core. The extra
argument `rand` models the `np.random.uniform(0, 1)` draw consumed when
`reject_prob > 0`. -/
def execute_order_nb (state : ProcessOrderState) (order : Order)
    (price_area : PriceArea) (rand : EF) :
    Except String (ExecuteOrderState × OrderResult) :=
  let cash := snapZero state.cash
  let position := snapZero state.position
  let debt := snapZero state.debt
  let free_cash := snapZero state.free_cash
  let val_price := snapZero state.val_price
  let value := snapZero state.value
  let exec_state : ExecuteOrderState := ⟨cash, position, debt, free_cash⟩
  match check_price_area price_area with
  | some e => .error e
  | none =>
    let order_price := resolve_order_price order.price price_area
    let is_closing_price := order.price.isInf && EF.ltb 0 order.price
    if order.size.isNaN then
      .ok (exec_state, order_not_filled_nb OrderStatus.Ignored OrderStatusInfo.SizeNaN)
    else if order_price.isNaN then
      .ok (exec_state, order_not_filled_nb OrderStatus.Ignored OrderStatusInfo.PriceNaN)
    else
      match execute_order_checks cash position debt free_cash order_price order with
      | some e => .error e
      | none =>
        execute_order_core exec_state order order_price is_closing_price price_area
          value val_price rand

/-- `update_value_nb`: update valuation price and value after a fill. -/
def update_value_nb (cash_before cash_now position_before position_now
    val_price_before price value_before : EF) : EF × EF :=
  let val_price_now := price
  let cash_flow := cash_now - cash_before
  let asset_value_before := if position_before.neb 0 then position_before * val_price_before
    else 0
  let asset_value_now := if position_now.neb 0 then position_now * val_price_now else 0
  let asset_value_diff := asset_value_now - asset_value_before
  (val_price_now, value_before + cash_flow + asset_value_diff)

/-- The stable message raised by `raise_rejected_order_nb` for a given
status-info code (the final bare `raise RejectedOrderError` is the empty
string). -/
def rejected_order_msg (status_info : Int) : String :=
  if status_info == OrderStatusInfo.SizeNaN then "Size is NaN"
  else if status_info == OrderStatusInfo.PriceNaN then "Price is NaN"
  else if status_info == OrderStatusInfo.ValPriceNaN then "Asset valuation price is NaN"
  else if status_info == OrderStatusInfo.ValueNaN then "Asset/group value is NaN"
  else if status_info == OrderStatusInfo.ValueZeroNeg then "Asset/group value is zero or negative"
  else if status_info == OrderStatusInfo.SizeZero then "Size is zero"
  else if status_info == OrderStatusInfo.NoCashShort then "Not enough cash to short"
  else if status_info == OrderStatusInfo.NoCashLong then "Not enough cash to long"
  else if status_info == OrderStatusInfo.NoOpenPosition then "No open position to reduce/close"
  else if status_info == OrderStatusInfo.MaxSizeExceeded then "Size is greater than maximum allowed"
  else if status_info == OrderStatusInfo.RandomEvent then "Random event happened"
  else if status_info == OrderStatusInfo.CantCoverFees then "Not enough cash to cover fees"
  else if status_info == OrderStatusInfo.MinSizeNotReached then "Final size is less than minimum allowed"
  else if status_info == OrderStatusInfo.PartialFill then "Final size is less than requested"
  else ""

/-- `process_order_nb`: execute an order, optionally raise on rejection,
update valuation, and advance the per-column order/log record cursors.
`max_orders`/`max_logs` model `order_records.shape[0]`/`log_records.shape[0]`;
`last_oidx_col`/`last_lidx_col` model `last_oidx[col]`/`last_lidx[col]`
(the index of the last written record, `-1` when empty). Returns the order
result, the new state and the two new cursors. -/
def process_order_nb (state : ProcessOrderState) (update_value : Bool) (order : Order)
    (price_area : PriceArea) (rand : EF) (max_orders : Nat) (last_oidx_col : Int)
    (max_logs : Nat) (last_lidx_col : Int) :
    Except String (OrderResult × ProcessOrderState × Int × Int) :=
  match execute_order_nb state order price_area rand with
  | .error e => .error e
  | .ok (exec_state, order_result) =>
    if order_result.status == OrderStatus.Rejected && order.raise_reject then
      .error (rejected_order_msg order_result.status_info)
    else
      let is_filled := order_result.status == OrderStatus.Filled
      let vv := if is_filled && update_value then
        update_value_nb state.cash exec_state.cash state.position exec_state.position
          state.val_price order_result.price state.value
        else (state.val_price, state.value)
      if is_filled && decide (0 < max_orders) &&
          decide ((max_orders : Int) - 1 ≤ last_oidx_col) then
        .error "order_records index out of range. Set a higher max_orders."
      else
        let new_oidx := if is_filled && decide (0 < max_orders) then last_oidx_col + 1
          else last_oidx_col
        let new_state : ProcessOrderState :=
          ⟨exec_state.cash, exec_state.position, exec_state.debt, exec_state.free_cash,
           vv.1, vv.2⟩
        if order.log && decide (0 < max_logs) &&
            decide ((max_logs : Int) - 1 ≤ last_lidx_col) then
          .error "log_records index out of range. Set a higher max_logs."
        else
          let new_lidx := if order.log && decide (0 < max_logs) then last_lidx_col + 1
            else last_lidx_col
          .ok (order_result, new_state, new_oidx, new_lidx)

/-- `get_stop_price_nb`: stop-hit fill price over the OHLC bar
(if hit before open, returns open). -/
def get_stop_price_nb (position_now stop_price stop open_ low high : EF)
    (hit_below : Bool) : Except String EF :=
  if stop.ltb 0 then
    .error "Stop value must be 0 or greater"
  else if (EF.ltb 0 position_now && hit_below) || (position_now.ltb 0 && !hit_below) then
    let sp := stop_price * (1 - stop)
    if open_.leb sp then .ok open_
    else if low.leb sp && sp.leb high then .ok sp
    else .ok EF.nan
  else if (position_now.ltb 0 && hit_below) || (EF.ltb 0 position_now && !hit_below) then
    let sp := stop_price * (1 + stop)
    if sp.leb open_ then .ok open_
    else if low.leb sp && sp.leb high then .ok sp
    else .ok EF.nan
  else
    .ok EF.nan

/-- `get_trade_stats_nb`: PnL and return of a trade record. -/
def get_trade_stats_nb (size entry_price entry_fees exit_price exit_fees : EF)
    (direction : Int) : EF × EF :=
  let entry_val := size * entry_price
  let exit_val := size * exit_price
  let val_diff_0 := add_nb exit_val (-entry_val)
  let val_diff := if val_diff_0.neb 0 && direction == TradeDirection.Short then
    val_diff_0 * (-1) else val_diff_0
  let pnl := val_diff - entry_fees - exit_fees
  let ret := pnl / entry_val
  (pnl, ret)

theorem EF.ltb_asymm {a b : EF} (h : EF.ltb a b = true) : EF.ltb b a = false := by
  cases a <;> cases b <;> simp_all [EF.ltb]
  linarith

/-- C5: `get_stop_price_nb` raises whenever `stop < 0`; for a long position
with `hit_below` the stop price is `ref_price*(1-stop)` and the result is
`open` when `open <= stop price`, the stop price itself when
`low <= stop price <= high`, and NaN otherwise; for a short position it is
symmetric with `ref_price*(1+stop)`, returning `open` when
`stop price <= open`. -/
theorem C5_get_stop_price (position_now stop_price stop open_ low high : EF)
    (hit_below : Bool) :
    (stop.ltb 0 = true →
      get_stop_price_nb position_now stop_price stop open_ low high hit_below =
        .error "Stop value must be 0 or greater") ∧
    (stop.ltb 0 = false → EF.ltb 0 position_now = true → hit_below = true →
      ((open_.leb (stop_price * (1 - stop)) = true →
        get_stop_price_nb position_now stop_price stop open_ low high hit_below =
          .ok open_) ∧
      (open_.leb (stop_price * (1 - stop)) = false →
        low.leb (stop_price * (1 - stop)) = true →
        (stop_price * (1 - stop)).leb high = true →
        get_stop_price_nb position_now stop_price stop open_ low high hit_below =
          .ok (stop_price * (1 - stop))) ∧
      (open_.leb (stop_price * (1 - stop)) = false →
        ¬(low.leb (stop_price * (1 - stop)) = true ∧
          (stop_price * (1 - stop)).leb high = true) →
        get_stop_price_nb position_now stop_price stop open_ low high hit_below =
          .ok EF.nan))) ∧
    (stop.ltb 0 = false → position_now.ltb 0 = true → hit_below = true →
      (((stop_price * (1 + stop)).leb open_ = true →
        get_stop_price_nb position_now stop_price stop open_ low high hit_below =
          .ok open_) ∧
      ((stop_price * (1 + stop)).leb open_ = false →
        low.leb (stop_price * (1 + stop)) = true →
        (stop_price * (1 + stop)).leb high = true →
        get_stop_price_nb position_now stop_price stop open_ low high hit_below =
          .ok (stop_price * (1 + stop))) ∧
      ((stop_price * (1 + stop)).leb open_ = false →
        ¬(low.leb (stop_price * (1 + stop)) = true ∧
          (stop_price * (1 + stop)).leb high = true) →
        get_stop_price_nb position_now stop_price stop open_ low high hit_below =
          .ok EF.nan))) := by
  unfold get_stop_price_nb
  refine ⟨fun h => by simp [h], fun h hpos hb => ?_, fun h hneg hb => ?_⟩
  · have hdir : (EF.ltb 0 position_now = true ∧ hit_below = true) ∨
        (position_now.ltb 0 = true ∧ hit_below = false) := Or.inl ⟨hpos, hb⟩
    refine ⟨fun h1 => ?_, fun h1 h2 h3 => ?_, fun h1 h2 => ?_⟩
    · simp [h, hpos, hb, h1]
    · simp [h, hpos, hb, h1, h2, h3]
    · rcases Bool.eq_false_or_eq_true (low.leb (stop_price * (1 - stop))) with hl | hl
      · rcases Bool.eq_false_or_eq_true ((stop_price * (1 - stop)).leb high) with hh | hh
        · exact absurd ⟨hl, hh⟩ h2
        · simp [h, hpos, hb, h1, hl, hh]
      · simp [h, hpos, hb, h1, hl]
  · have hppos : EF.ltb 0 position_now = false := EF.ltb_asymm hneg
    refine ⟨fun h1 => ?_, fun h1 h2 h3 => ?_, fun h1 h2 => ?_⟩
    · simp [h, hneg, hb, hppos, h1]
    · simp [h, hneg, hb, hppos, h1, h2, h3]
    · rcases Bool.eq_false_or_eq_true (low.leb (stop_price * (1 + stop))) with hl | hl
      · rcases Bool.eq_false_or_eq_true ((stop_price * (1 + stop)).leb high) with hh | hh
        · exact absurd ⟨hl, hh⟩ h2
        · simp [h, hneg, hb, hppos, h1, hl, hh]
      · simp [h, hneg, hb, hppos, h1, hl]

/-- Witness for C5 at concrete inputs: a long position with `ref = 10`,
`stop = 0.1`, bar `open = 9.5`, `low = 8`, `high = 10` fills at the stop
price `9`; a short position with the same stop fills at `11`; `stop = -1`
raises. -/
theorem C5_get_stop_price_witness :
    get_stop_price_nb 1 10 (EF.fin (1 / 10)) (EF.fin (19 / 2)) 8 10 true =
      .ok (10 * (1 - EF.fin (1 / 10))) ∧
    get_stop_price_nb (EF.fin (-1)) 10 (EF.fin (1 / 10)) (EF.fin (19 / 2)) 8 12 true =
      .ok (10 * (1 + EF.fin (1 / 10))) ∧
    get_stop_price_nb 1 10 (EF.fin (-1)) (EF.fin (19 / 2)) 8 10 true =
      .error "Stop value must be 0 or greater" := by
  refine ⟨?_, ?_, ?_⟩
  · exact ((C5_get_stop_price 1 10 (EF.fin (1 / 10)) (EF.fin (19 / 2)) 8 10 true).2.1
      (by decide) (by decide) rfl).2.1 (by decide) (by decide) (by decide)
  · exact ((C5_get_stop_price (EF.fin (-1)) 10 (EF.fin (1 / 10)) (EF.fin (19 / 2)) 8 12
      true).2.2 (by decide) (by decide) rfl).2.1 (by decide) (by decide) (by decide)
  · exact (C5_get_stop_price 1 10 (EF.fin (-1)) (EF.fin (19 / 2)) 8 10 true).1 (by decide)

@[simp] theorem EF.add_fin (a b : ℚ) : EF.fin a + EF.fin b = EF.fin (a + b) := rfl

@[simp] theorem EF.neg_fin (a : ℚ) : -EF.fin a = EF.fin (-a) := rfl

@[simp] theorem EF.mul_fin (a b : ℚ) : EF.fin a * EF.fin b = EF.fin (a * b) := rfl

@[simp] theorem EF.sub_fin (a b : ℚ) : EF.fin a - EF.fin b = EF.fin (a - b) := by
  show EF.fin (a + -b) = EF.fin (a - b)
  rw [← sub_eq_add_neg]

@[simp] theorem EF.ltb_fin (a b : ℚ) : EF.ltb (EF.fin a) (EF.fin b) = decide (a < b) := rfl

@[simp] theorem EF.leb_fin (a b : ℚ) : EF.leb (EF.fin a) (EF.fin b) = decide (a ≤ b) := rfl

@[simp] theorem EF.eqb_fin (a b : ℚ) : EF.eqb (EF.fin a) (EF.fin b) = decide (a = b) := rfl

theorem EF.zero_def : (0 : EF) = EF.fin 0 := rfl

theorem EF.neg_one_def : (-1 : EF) = EF.fin (-1) := rfl

theorem EF.one_def : (1 : EF) = EF.fin 1 := rfl

/-- C6 counterexample: for `size = 1`, `entry_price = 1`,
`exit_price = 1 + 1e-13`, zero fees and a Long direction,
`get_trade_stats_nb` returns `pnl = 0` (the value difference is snapped to
zero by `add_nb`), while the claimed formula gives `1e-13`. -/
theorem C6_counterexample :
    (get_trade_stats_nb 1 1 0 (EF.fin (1 + 1 / 10 ^ 13)) 0 TradeDirection.Long).1 ≠
      (EF.fin (1 + 1 / 10 ^ 13) - 1) * 1 * 1 - 0 - 0 := by
  decide

/-- Evaluation of `get_trade_stats_nb` on finite inputs, at the rational
level: the value difference is the `add_nb`-snapped `size*exit - size*entry`,
negated for Short when nonzero. -/
theorem get_trade_stats_fin (size ep ef xp xf : ℚ) (direction : Int) :
    get_trade_stats_nb (EF.fin size) (EF.fin ep) (EF.fin ef) (EF.fin xp) (EF.fin xf)
      direction =
      (EF.fin ((if snapQ (size * xp - size * ep) ≠ 0 ∧ direction = TradeDirection.Short
          then -snapQ (size * xp - size * ep) else snapQ (size * xp - size * ep)) -
          ef - xf),
       EF.fin ((if snapQ (size * xp - size * ep) ≠ 0 ∧ direction = TradeDirection.Short
          then -snapQ (size * xp - size * ep) else snapQ (size * xp - size * ep)) -
          ef - xf) / EF.fin (size * ep)) := by
  unfold get_trade_stats_nb
  simp only [EF.mul_fin, EF.neg_fin, add_nb_fin]
  have hd : size * xp + -(size * ep) = size * xp - size * ep := by ring
  rw [hd]
  by_cases h0 : snapQ (size * xp - size * ep) = 0 <;>
    by_cases hdir : direction = TradeDirection.Short <;>
      simp [EF.neb, EF.zero_def, EF.neg_one_def, h0, hdir, EF.sub_fin, mul_neg_one]

/-- C6 amended: for finite arguments and a Long or Short direction,
`get_trade_stats_nb` returns a `pnl` within `abs_tol` of
`(exit_price - entry_price) * size * dir_sign - entry_fees - exit_fees`
(`dir_sign = +1` for Long, `-1` for Short; equality can fail only by the
`add_nb` zero-snap of the value difference), and
`return = pnl / (entry_price * size)` exactly. -/
theorem C6_trade_stats (size entry_price entry_fees exit_price exit_fees : ℚ)
    (direction : Int)
    (hdir : direction = TradeDirection.Long ∨ direction = TradeDirection.Short) :
    ∃ p : ℚ,
      get_trade_stats_nb (EF.fin size) (EF.fin entry_price) (EF.fin entry_fees)
        (EF.fin exit_price) (EF.fin exit_fees) direction =
        (EF.fin p, EF.fin p / (EF.fin entry_price * EF.fin size)) ∧
      |p - ((exit_price - entry_price) * size *
        (if direction = TradeDirection.Long then 1 else -1) -
        entry_fees - exit_fees)| ≤ absTolQ := by
  have hcomm : EF.fin entry_price * EF.fin size = EF.fin (size * entry_price) := by
    rw [EF.mul_fin, mul_comm]
  rw [hcomm]
  rcases hdir with hdir | hdir
  · subst hdir
    have hns : ¬((TradeDirection.Long : Int) = TradeDirection.Short) := by decide
    refine ⟨snapQ (size * exit_price - size * entry_price) - entry_fees - exit_fees,
      ?_, ?_⟩
    · rw [get_trade_stats_fin]
      simp [hns]
    · rw [if_pos rfl]
      have key : snapQ (size * exit_price - size * entry_price) - entry_fees -
          exit_fees - ((exit_price - entry_price) * size * 1 - entry_fees -
          exit_fees) = snapQ (size * exit_price - size * entry_price) -
          (size * exit_price - size * entry_price) := by ring
      rw [key]
      exact snapQ_dev _
  · subst hdir
    have hnl : ¬((TradeDirection.Short : Int) = TradeDirection.Long) := by decide
    rw [if_neg hnl]
    by_cases h0 : snapQ (size * exit_price - size * entry_price) = 0
    · refine ⟨snapQ (size * exit_price - size * entry_price) - entry_fees - exit_fees,
        ?_, ?_⟩
      · rw [get_trade_stats_fin]
        simp [h0]
      · have habs : |size * exit_price - size * entry_price| ≤ absTolQ :=
          (snapQ_eq_zero_iff _).mp h0
        have key : snapQ (size * exit_price - size * entry_price) - entry_fees -
            exit_fees - ((exit_price - entry_price) * size * (-1) - entry_fees -
            exit_fees) = snapQ (size * exit_price - size * entry_price) +
            (size * exit_price - size * entry_price) := by ring
        rw [key, h0, zero_add]
        exact habs
    · refine ⟨-snapQ (size * exit_price - size * entry_price) - entry_fees - exit_fees,
        ?_, ?_⟩
      · rw [get_trade_stats_fin]
        simp [h0]
      · have key : -snapQ (size * exit_price - size * entry_price) - entry_fees -
            exit_fees - ((exit_price - entry_price) * size * (-1) - entry_fees -
            exit_fees) = -(snapQ (size * exit_price - size * entry_price) -
            (size * exit_price - size * entry_price)) := by ring
        rw [key, abs_neg]
        exact snapQ_dev _

/-- Witness for C6 at concrete inputs (a Long trade of size 2 entered at 3,
exited at 5, with fees 1/2 and 1/4). -/
theorem C6_trade_stats_witness :
    ∃ p : ℚ,
      get_trade_stats_nb (EF.fin 2) (EF.fin 3) (EF.fin (1 / 2)) (EF.fin 5)
        (EF.fin (1 / 4)) TradeDirection.Long =
        (EF.fin p, EF.fin p / (EF.fin 3 * EF.fin 2)) ∧
      |p - ((5 - 3) * 2 * (if (TradeDirection.Long : Int) = TradeDirection.Long
        then 1 else -1) - 1 / 2 - 1 / 4)| ≤ absTolQ :=
  C6_trade_stats 2 3 (1 / 2) 5 (1 / 4) TradeDirection.Long (Or.inl rfl)

/-- C7 counterexample: an `Amount` order of size `+inf` under direction Both
is NOT converted to a `Percent` order — it reaches the buy branch as an
infinite `Amount` with `percent = NaN` (only `-inf` converts). -/
theorem C7_counterexample :
    resolve_size_nb EF.pinf SizeType.Amount Direction.Both 0 0 1 =
      .ok (.trade EF.pinf EF.nan) ∧ EF.nan ≠ EF.fin 1 ∧ EF.nan ≠ EF.fin (-1) := by
  refine ⟨rfl, ?_, ?_⟩ <;> intro h <;> cases h

/-- C7 amended: in the size-type normalisation, only an `Amount` order whose
signed size after the ShortOnly sign flip is `-inf` (`size = -inf` under Both,
`size = +inf` under ShortOnly) is converted to `Percent` with `percent = 1`
(its size becoming `-inf`, hence routed to `sell_nb`); the opposite infinity
is left as an infinite `Amount` with `percent = NaN` (routed to `buy_nb`). -/
theorem C7_resolve_size (position value val_price : EF) :
    resolve_size_nb EF.ninf SizeType.Amount Direction.Both position value val_price =
      .ok (.trade EF.ninf (EF.fin 1)) ∧
    resolve_size_nb EF.pinf SizeType.Amount Direction.Both position value val_price =
      .ok (.trade EF.pinf EF.nan) ∧
    resolve_size_nb EF.pinf SizeType.Amount Direction.ShortOnly position value val_price =
      .ok (.trade EF.ninf (EF.fin 1)) ∧
    resolve_size_nb EF.ninf SizeType.Amount Direction.ShortOnly position value val_price =
      .ok (.trade EF.pinf EF.nan) := by
  refine ⟨rfl, rfl, rfl, rfl⟩

theorem buy_nb_finish_not_filled (exec_state : ExecuteOrderState)
    (size adj_price min_size : EF) (allowPartial : Bool)
    (adj_size final_size fees_paid final_req_cash : EF)
    (st : ExecuteOrderState) (res : OrderResult)
    (h : buy_nb_finish exec_state size adj_price min_size allowPartial adj_size
      final_size fees_paid final_req_cash = .ok (st, res))
    (hnf : res.status ≠ OrderStatus.Filled) : st = exec_state := by
  unfold buy_nb_finish at h
  repeat' split at h
  all_goals (cases h <;> simp_all [OrderStatus.Filled, buy_nb_fill])

theorem sell_nb_finish_not_filled (exec_state : ExecuteOrderState) (size : EF)
    (direction : Int) (fees fixed_fees min_size max_size size_granularity : EF)
    (allowPartial : Bool) (adj_price : EF) (size_limit_0 percent_1 : EF)
    (st : ExecuteOrderState) (res : OrderResult)
    (h : sell_nb_finish exec_state size direction fees fixed_fees min_size max_size
      size_granularity allowPartial adj_price size_limit_0 percent_1 = .ok (st, res))
    (hnf : res.status ≠ OrderStatus.Filled) : st = exec_state := by
  unfold sell_nb_finish at h
  dsimp only at h
  repeat' split at h
  all_goals (cases h <;> simp_all [OrderStatus.Filled, sell_nb_fill])

theorem sell_nb_after_max_not_filled (exec_state : ExecuteOrderState) (size : EF)
    (direction : Int) (fees fixed_fees min_size max_size size_granularity : EF)
    (lock_cash allowPartial : Bool) (percent adj_price max_size_limit : EF)
    (st : ExecuteOrderState) (res : OrderResult)
    (h : sell_nb_after_max exec_state size direction fees fixed_fees min_size max_size
      size_granularity lock_cash allowPartial percent adj_price max_size_limit =
      .ok (st, res))
    (hnf : res.status ≠ OrderStatus.Filled) : st = exec_state := by
  unfold sell_nb_after_max at h
  repeat' split at h
  all_goals (exact sell_nb_finish_not_filled _ _ _ _ _ _ _ _ _ _ _ _ _ _ h hnf)

theorem buy_nb_not_filled (exec_state : ExecuteOrderState) (size price : EF)
    (direction : Int) (fees fixed_fees slippage min_size max_size size_granularity : EF)
    (price_area_vio_mode : Int) (lock_cash allowPartial : Bool) (percent : EF)
    (price_area : PriceArea) (is_closing_price : Bool)
    (st : ExecuteOrderState) (res : OrderResult)
    (h : buy_nb exec_state size price direction fees fixed_fees slippage min_size
      max_size size_granularity price_area_vio_mode lock_cash allowPartial percent
      price_area is_closing_price = .ok (st, res))
    (hnf : res.status ≠ OrderStatus.Filled) : st = exec_state := by
  unfold buy_nb at h
  cases hc : check_adj_price_nb (price * (1 + slippage)) price_area is_closing_price
      price_area_vio_mode with
  | error e =>
    rw [hc] at h
    cases h
  | ok adj_price =>
    rw [hc] at h
    dsimp only at h
    repeat' split at h
    all_goals
      first
      | (exact buy_nb_finish_not_filled _ _ _ _ _ _ _ _ _ _ _ h hnf)
      | (cases h <;> simp_all [OrderStatus.Filled])

theorem sell_nb_not_filled (exec_state : ExecuteOrderState) (size price : EF)
    (direction : Int) (fees fixed_fees slippage min_size max_size size_granularity : EF)
    (price_area_vio_mode : Int) (lock_cash allowPartial : Bool) (percent : EF)
    (price_area : PriceArea) (is_closing_price : Bool)
    (st : ExecuteOrderState) (res : OrderResult)
    (h : sell_nb exec_state size price direction fees fixed_fees slippage min_size
      max_size size_granularity price_area_vio_mode lock_cash allowPartial percent
      price_area is_closing_price = .ok (st, res))
    (hnf : res.status ≠ OrderStatus.Filled) : st = exec_state := by
  unfold sell_nb at h
  cases hc : check_adj_price_nb (price * (1 - slippage)) price_area is_closing_price
      price_area_vio_mode with
  | error e =>
    rw [hc] at h
    cases h
  | ok adj_price =>
    rw [hc] at h
    dsimp only at h
    repeat' split at h
    all_goals
      first
      | (exact sell_nb_finish_not_filled _ _ _ _ _ _ _ _ _ _ _ _ _ _ h hnf)
      | (exact sell_nb_after_max_not_filled _ _ _ _ _ _ _ _ _ _ _ _ _ _ _ h hnf)
      | (cases h <;> simp_all [OrderStatus.Filled])


theorem execute_order_core_not_filled (exec_state : ExecuteOrderState) (order : Order)
    (order_price : EF) (is_closing_price : Bool) (price_area : PriceArea)
    (value val_price rand : EF) (st : ExecuteOrderState) (res : OrderResult)
    (h : execute_order_core exec_state order order_price is_closing_price price_area
      value val_price rand = .ok (st, res))
    (hnf : res.status ≠ OrderStatus.Filled) : st = exec_state := by
  unfold execute_order_core at h
  repeat' split at h
  all_goals
    first
    | (cases h <;> rfl)
    | (unfold execute_order_random_tail at h
       split at h
       · cases h
         rfl
       · cases h
         first
         | exact buy_nb_not_filled _ _ _ _ _ _ _ _ _ _ _ _ _ _ _ _ _ _
             (by assumption) hnf
         | exact sell_nb_not_filled _ _ _ _ _ _ _ _ _ _ _ _ _ _ _ _ _ _
             (by assumption) hnf)

/-- C3: whenever `execute_order_nb` returns without raising and the result
status is not Filled (every Ignored and Rejected outcome, including the
random rejection), the returned `ExecuteOrderState` is exactly the input
state's cash, position, debt and free cash after the zero-snap — a non-fill
leaves the state unchanged. -/
theorem C3_not_filled (state : ProcessOrderState) (order : Order)
    (price_area : PriceArea) (rand : EF) (st : ExecuteOrderState) (res : OrderResult)
    (h : execute_order_nb state order price_area rand = .ok (st, res))
    (hnf : res.status ≠ OrderStatus.Filled) :
    st = ⟨snapZero state.cash, snapZero state.position, snapZero state.debt,
      snapZero state.free_cash⟩ := by
  unfold execute_order_nb at h
  dsimp only at h
  repeat' split at h
  all_goals
    first
    | (cases h <;> rfl)
    | exact execute_order_core_not_filled _ _ _ _ _ _ _ _ _ _ h hnf

/-- Witness for C3 at a concrete input: an order with NaN size on a live
state is Ignored and returns the state unchanged. -/
theorem C3_not_filled_witness :
    (⟨100, 2, 0, 100⟩ : ExecuteOrderState) =
      ⟨snapZero 100, snapZero 2, snapZero 0, snapZero 100⟩ :=
  C3_not_filled ⟨100, 2, 0, 100, 1, 102⟩
    ⟨EF.nan, 1, SizeType.Amount, Direction.Both, 0, 0, 0, 0, EF.pinf, EF.nan, 0,
     PriceAreaVioMode.Ignore, false, true, false, false⟩ NoPriceArea (EF.fin (1 / 2))
    ⟨100, 2, 0, 100⟩ (order_not_filled_nb OrderStatus.Ignored OrderStatusInfo.SizeNaN)
    (by decide) (by decide)

/-- Whether an `Except` result is an error (a raised exception). -/
def isErrE {α : Type} : Except String α → Bool
  | .error _ => true
  | .ok _ => false

/-- C4 counterexample: a pre-trade state with negative cash does NOT raise
when the order's size is NaN: the NaN-size Ignore precedes the state
validation, so `execute_order_nb` returns normally with the invalid state. -/
theorem C4_counterexample :
    execute_order_nb ⟨EF.fin (-1), 0, 0, 0, 1, 1⟩
      ⟨EF.nan, 1, SizeType.Amount, Direction.Both, 0, 0, 0, 0, EF.pinf, EF.nan, 0,
       PriceAreaVioMode.Ignore, false, true, false, false⟩ NoPriceArea (EF.fin (1 / 2)) =
      .ok (⟨EF.fin (-1), 0, 0, 0⟩,
        order_not_filled_nb OrderStatus.Ignored OrderStatusInfo.SizeNaN) := by
  decide

theorem execute_order_checks_c1 (cash position debt free_cash order_price : EF)
    (order : Order) (h1 : (cash.isNaN || cash.ltb 0) = true) :
    execute_order_checks cash position debt free_cash order_price order =
      some "state.cash cannot be NaN and must be greater than 0" := by
  unfold execute_order_checks
  rw [if_pos h1]

theorem execute_order_checks_c2 (cash position debt free_cash order_price : EF)
    (order : Order) (h1 : (cash.isNaN || cash.ltb 0) = false)
    (h2 : (!position.isFinite) = true) :
    execute_order_checks cash position debt free_cash order_price order =
      some "state.position must be finite" := by
  unfold execute_order_checks
  rw [if_neg (by simp [h1]), if_pos h2]

theorem execute_order_checks_c3 (cash position debt free_cash order_price : EF)
    (order : Order) (h1 : (cash.isNaN || cash.ltb 0) = false)
    (h2 : (!position.isFinite) = false)
    (h3 : (!debt.isFinite || debt.ltb 0) = true) :
    execute_order_checks cash position debt free_cash order_price order =
      some "state.debt must be finite and 0 or greater" := by
  unfold execute_order_checks
  rw [if_neg (by simp [h1]), if_neg (by simp [h2]), if_pos h3]

theorem execute_order_checks_c4 (cash position debt free_cash order_price : EF)
    (order : Order) (h1 : (cash.isNaN || cash.ltb 0) = false)
    (h2 : (!position.isFinite) = false)
    (h3 : (!debt.isFinite || debt.ltb 0) = false)
    (h4 : free_cash.isNaN = true) :
    execute_order_checks cash position debt free_cash order_price order =
      some "state.free_cash cannot be NaN" := by
  unfold execute_order_checks
  rw [if_neg (by simp [h1]), if_neg (by simp [h2]), if_neg (by simp [h3]), if_pos h4]

/-- C4 amended: `execute_order_nb` raises for every pre-trade state violating
the validation rules — cash NaN or negative, position non-finite, debt
non-finite or negative, or free_cash NaN, each judged after the zero-snap —
provided the price area is valid, the order size is not NaN and the resolved
order price is not NaN (a NaN size or resolved price is Ignored before the
state checks, so the claim's "regardless of the order" fails there). -/
theorem C4_validation (state : ProcessOrderState) (order : Order)
    (price_area : PriceArea) (rand : EF)
    (ha : check_price_area price_area = none)
    (hs : order.size.isNaN = false)
    (hp : (resolve_order_price order.price price_area).isNaN = false)
    (hviol : ((snapZero state.cash).isNaN || (snapZero state.cash).ltb 0 ||
      !(snapZero state.position).isFinite ||
      (!(snapZero state.debt).isFinite || (snapZero state.debt).ltb 0) ||
      (snapZero state.free_cash).isNaN) = true) :
    isErrE (execute_order_nb state order price_area rand) = true := by
  unfold execute_order_nb
  dsimp only
  rw [ha]
  simp only [hs, hp, Bool.false_eq_true, if_false]
  by_cases h1 : ((snapZero state.cash).isNaN || (snapZero state.cash).ltb 0) = true
  · rw [execute_order_checks_c1 _ _ _ _ _ _ h1]
    rfl
  · rw [Bool.not_eq_true] at h1
    by_cases h2 : (!(snapZero state.position).isFinite) = true
    · rw [execute_order_checks_c2 _ _ _ _ _ _ h1 h2]
      rfl
    · rw [Bool.not_eq_true] at h2
      by_cases h3 : (!(snapZero state.debt).isFinite || (snapZero state.debt).ltb 0) = true
      · rw [execute_order_checks_c3 _ _ _ _ _ _ h1 h2 h3]
        rfl
      · rw [Bool.not_eq_true] at h3
        by_cases h4 : (snapZero state.free_cash).isNaN = true
        · rw [execute_order_checks_c4 _ _ _ _ _ _ h1 h2 h3 h4]
          rfl
        · rw [Bool.not_eq_true] at h4
          rw [h1, h2, h3, h4] at hviol
          simp at hviol

/-- Witness for C4 at a concrete input: negative cash with an ordinary order
raises. -/
theorem C4_validation_witness :
    isErrE (execute_order_nb ⟨EF.fin (-1), 0, 0, 0, 1, 1⟩
      ⟨1, 1, SizeType.Amount, Direction.Both, 0, 0, 0, 0, EF.pinf, EF.nan, 0,
       PriceAreaVioMode.Ignore, false, true, false, false⟩ NoPriceArea
      (EF.fin (1 / 2))) = true :=
  C4_validation ⟨EF.fin (-1), 0, 0, 0, 1, 1⟩
    ⟨1, 1, SizeType.Amount, Direction.Both, 0, 0, 0, 0, EF.pinf, EF.nan, 0,
     PriceAreaVioMode.Ignore, false, true, false, false⟩ NoPriceArea (EF.fin (1 / 2))
    (by decide) (by decide) (by decide) (by decide)

/-- C9 counterexample: with `max_orders = 0` (`order_records.shape[0] = 0`)
a filled order does not raise — record writing is simply skipped — although
the buffer (capacity 0) already holds `max_orders` records. -/
theorem C9_counterexample :
    isErrE (process_order_nb ⟨100, 0, 0, 100, 1, 100⟩ false
      ⟨1, 1, SizeType.Amount, Direction.Both, 0, 0, 0, 0, EF.pinf, EF.nan, 0,
       PriceAreaVioMode.Ignore, false, true, false, false⟩ NoPriceArea (EF.fin (1 / 2))
      0 (-1) 0 (-1)) = false := by
  decide

/-- C9 amended: for every POSITIVE buffer capacity, a filled order arriving
when the column's order-record cursor shows `max_orders` records already
written raises the stable message asking for a higher `max_orders`; and a
logged order arriving when the log cursor shows `max_logs` records already
written (and the order-record write itself does not overflow) raises the
stable message asking for a higher `max_logs`. With capacity 0 recording is
disabled and nothing raises. -/
theorem C9_record_caps (state : ProcessOrderState) (order : Order)
    (price_area : PriceArea) (rand : EF) (max_orders : Nat) (last_oidx_col : Int)
    (max_logs : Nat) (last_lidx_col : Int) (es : ExecuteOrderState) (res : OrderResult)
    (h : execute_order_nb state order price_area rand = .ok (es, res)) :
    (res.status = OrderStatus.Filled → 0 < max_orders →
      (max_orders : Int) - 1 ≤ last_oidx_col →
      process_order_nb state false order price_area rand max_orders last_oidx_col
        max_logs last_lidx_col =
        .error "order_records index out of range. Set a higher max_orders.") ∧
    ((res.status == OrderStatus.Rejected && order.raise_reject) = false →
      (res.status == OrderStatus.Filled && decide (0 < max_orders) &&
        decide ((max_orders : Int) - 1 ≤ last_oidx_col)) = false →
      order.log = true → 0 < max_logs → (max_logs : Int) - 1 ≤ last_lidx_col →
      process_order_nb state false order price_area rand max_orders last_oidx_col
        max_logs last_lidx_col =
        .error "log_records index out of range. Set a higher max_logs.") := by
  constructor
  · intro hf hmo hcur
    unfold process_order_nb
    rw [h]
    dsimp only
    have hnr : (res.status == OrderStatus.Rejected && order.raise_reject) = false := by
      rw [hf]
      simp [OrderStatus.Filled, OrderStatus.Rejected]
    rw [if_neg (by rw [hnr]; exact Bool.false_ne_true)]
    rw [if_pos (by simp [hf, hmo, hcur])]
  · intro hnr horder hlog hml hlcur
    unfold process_order_nb
    rw [h]
    dsimp only
    rw [if_neg (by rw [hnr]; exact Bool.false_ne_true),
      if_neg (by rw [horder]; exact Bool.false_ne_true),
      if_pos (by simp [hlog, hml, hlcur])]

/-- Witness for C9 at concrete inputs: a filled buy with `max_orders = 1` and
one record already written raises the max_orders message; an ignored logged
order with `max_logs = 1` and one log already written raises the max_logs
message. -/
theorem C9_record_caps_witness :
    process_order_nb ⟨100, 0, 0, 100, 1, 100⟩ false
      ⟨1, 1, SizeType.Amount, Direction.Both, 0, 0, 0, 0, EF.pinf, EF.nan, 0,
       PriceAreaVioMode.Ignore, false, true, false, false⟩ NoPriceArea (EF.fin (1 / 2))
      1 0 0 (-1) =
      .error "order_records index out of range. Set a higher max_orders." ∧
    process_order_nb ⟨100, 0, 0, 100, 1, 100⟩ false
      ⟨EF.nan, 1, SizeType.Amount, Direction.Both, 0, 0, 0, 0, EF.pinf, EF.nan, 0,
       PriceAreaVioMode.Ignore, false, true, false, true⟩ NoPriceArea (EF.fin (1 / 2))
      1 (-1) 1 0 =
      .error "log_records index out of range. Set a higher max_logs." := by
  constructor
  · exact (C9_record_caps ⟨100, 0, 0, 100, 1, 100⟩
      ⟨1, 1, SizeType.Amount, Direction.Both, 0, 0, 0, 0, EF.pinf, EF.nan, 0,
       PriceAreaVioMode.Ignore, false, true, false, false⟩ NoPriceArea (EF.fin (1 / 2))
      1 0 0 (-1) ⟨99, 1, 0, 99⟩ ⟨1, 1, 0, OrderSide.Buy, OrderStatus.Filled, -1⟩
      (by decide)).1 rfl (by decide) (by decide)
  · exact (C9_record_caps ⟨100, 0, 0, 100, 1, 100⟩
      ⟨EF.nan, 1, SizeType.Amount, Direction.Both, 0, 0, 0, 0, EF.pinf, EF.nan, 0,
       PriceAreaVioMode.Ignore, false, true, false, true⟩ NoPriceArea (EF.fin (1 / 2))
      1 (-1) 1 0 ⟨100, 0, 0, 100⟩
      (order_not_filled_nb OrderStatus.Ignored OrderStatusInfo.SizeNaN)
      (by decide)).2 (by decide) (by decide) rfl (by decide) (by decide)

theorem snapZero_fin (q : ℚ) : snapZero (EF.fin q) = EF.fin (snapQ q) := by
  unfold snapZero snapQ
  rw [is_close_fin_zero]
  by_cases h : |q| ≤ absTolQ
  · rw [if_pos (by simpa using h), if_pos h]
    rfl
  · rw [if_neg (by simpa using h), if_neg h]

theorem buy_nb_finish_filled (exec_state : ExecuteOrderState)
    (size adj_price min_size : EF) (allowPartial : Bool)
    (adj_size final_size fees_paid final_req_cash : EF)
    (st : ExecuteOrderState) (res : OrderResult)
    (h : buy_nb_finish exec_state size adj_price min_size allowPartial adj_size
      final_size fees_paid final_req_cash = .ok (st, res))
    (hf : res.status = OrderStatus.Filled) :
    (st, res) = buy_nb_fill exec_state adj_price final_size fees_paid final_req_cash ∧
    is_close_nb adj_size 0 = false ∧ is_less_nb final_size min_size = false := by
  unfold buy_nb_finish at h
  repeat' split at h
  all_goals cases h
  all_goals
    first
    | (refine ⟨rfl, ?_, ?_⟩ <;> simp_all)
    | (exfalso
       simp_all [order_not_filled_nb, OrderStatus.Filled, OrderStatus.Ignored,
         OrderStatus.Rejected])

/-- The size limit computed by `sell_nb_finish` (sell_nb lines 337-356):
percent application, max-size cap, granularity flooring. -/
def sell_nb_size_limit (size_limit_0 percent_1 max_size size_granularity : EF) : EF :=
  apply_granularity (apply_max_size (apply_percent size_limit_0 percent_1) max_size)
    size_granularity

theorem sell_nb_finish_filled (exec_state : ExecuteOrderState) (size : EF)
    (direction : Int) (fees fixed_fees min_size max_size size_granularity : EF)
    (allowPartial : Bool) (adj_price : EF) (size_limit_0 percent_1 : EF)
    (st : ExecuteOrderState) (res : OrderResult)
    (h : sell_nb_finish exec_state size direction fees fixed_fees min_size max_size
      size_granularity allowPartial adj_price size_limit_0 percent_1 = .ok (st, res))
    (hf : res.status = OrderStatus.Filled) :
    (st, res) = sell_nb_fill exec_state adj_price
      (sell_nb_size_limit size_limit_0 percent_1 max_size size_granularity)
      (sell_nb_size_limit size_limit_0 percent_1 max_size size_granularity * adj_price *
        fees + fixed_fees)
      (add_nb (sell_nb_size_limit size_limit_0 percent_1 max_size size_granularity *
        adj_price)
        (-(sell_nb_size_limit size_limit_0 percent_1 max_size size_granularity *
          adj_price * fees + fixed_fees))) ∧
    is_close_nb (sell_nb_size_limit size_limit_0 percent_1 max_size size_granularity)
      0 = false ∧
    is_less_nb (sell_nb_size_limit size_limit_0 percent_1 max_size size_granularity)
      min_size = false ∧
    (add_nb (sell_nb_size_limit size_limit_0 percent_1 max_size size_granularity *
      adj_price)
      (-(sell_nb_size_limit size_limit_0 percent_1 max_size size_granularity *
        adj_price * fees + fixed_fees))).ltb 0 = false := by
  unfold sell_nb_finish at h
  dsimp only at h
  repeat' split at h
  all_goals cases h
  all_goals
    first
    | (refine ⟨rfl, ?_, ?_, ?_⟩ <;> simp_all [sell_nb_size_limit])
    | (exfalso
       simp_all [order_not_filled_nb, OrderStatus.Filled, OrderStatus.Ignored,
         OrderStatus.Rejected])

theorem sell_nb_after_max_filled (exec_state : ExecuteOrderState) (size : EF)
    (direction : Int) (fees fixed_fees min_size max_size size_granularity : EF)
    (lock_cash allowPartial : Bool) (percent adj_price max_size_limit : EF)
    (st : ExecuteOrderState) (res : OrderResult)
    (h : sell_nb_after_max exec_state size direction fees fixed_fees min_size max_size
      size_granularity lock_cash allowPartial percent adj_price max_size_limit =
      .ok (st, res))
    (hf : res.status = OrderStatus.Filled) :
    ∃ size_limit_0 percent_1,
      sell_nb_finish exec_state size direction fees fixed_fees min_size max_size
        size_granularity allowPartial adj_price size_limit_0 percent_1 =
        .ok (st, res) := by
  unfold sell_nb_after_max at h
  repeat' split at h
  all_goals exact ⟨_, _, h⟩

theorem EF.ok_field (x : EF) (h : (x.isInf || x.leb 0) = false) :
    x = EF.nan ∨ ∃ q : ℚ, x = EF.fin q ∧ 0 < q := by
  cases x with
  | nan => exact Or.inl rfl
  | pinf => simp [EF.isInf] at h
  | ninf => simp [EF.isInf] at h
  | fin q =>
    refine Or.inr ⟨q, rfl, ?_⟩
    rw [EF.zero_def] at h
    simp only [EF.isInf, Bool.false_or, EF.leb_fin, decide_eq_false_iff_not] at h
    exact lt_of_not_le h

theorem check_price_area_none_inv (price_area : PriceArea)
    (ha : check_price_area price_area = none) :
    (price_area.open_.isInf || price_area.open_.leb 0) = false ∧
    (price_area.high.isInf || price_area.high.leb 0) = false ∧
    (price_area.low.isInf || price_area.low.leb 0) = false ∧
    (price_area.close.isInf || price_area.close.leb 0) = false := by
  unfold check_price_area at ha
  repeat' split at ha
  all_goals (refine ⟨?_, ?_, ?_, ?_⟩ <;> simp_all)

theorem cap_high_fin (p : EF) (price_area : PriceArea) (mode : Int) (pq : ℚ)
    (hp : p = EF.fin pq)
    (hh : (price_area.high.isInf || price_area.high.leb 0) = false) :
    ∃ q : ℚ, cap_high p price_area mode = EF.fin q ∧ (0 < pq → 0 < q) ∧
      (0 ≤ pq → 0 ≤ q) := by
  unfold cap_high
  split
  · rename_i hcond
    rcases EF.ok_field price_area.high hh with hnan | ⟨hq, hfin, hqpos⟩
    · rw [hnan, hp] at hcond
      simp [EF.ltb] at hcond
    · exact ⟨hq, hfin, fun _ => hqpos, fun _ => le_of_lt hqpos⟩
  · exact ⟨pq, hp, id, id⟩

theorem cap_low_fin (p : EF) (price_area : PriceArea) (mode : Int) (pq : ℚ)
    (hp : p = EF.fin pq)
    (hl : (price_area.low.isInf || price_area.low.leb 0) = false) :
    ∃ q : ℚ, cap_low p price_area mode = EF.fin q ∧ (0 < pq → 0 < q) ∧
      (0 ≤ pq → 0 ≤ q) := by
  unfold cap_low
  split
  · rename_i hcond
    rcases EF.ok_field price_area.low hl with hnan | ⟨hq, hfin, hqpos⟩
    · rw [hnan, hp] at hcond
      simp [EF.ltb] at hcond
    · exact ⟨hq, hfin, fun _ => hqpos, fun _ => le_of_lt hqpos⟩
  · exact ⟨pq, hp, id, id⟩

theorem cap_close_fin (p : EF) (price_area : PriceArea) (is_closing_price : Bool)
    (mode : Int) (pq : ℚ) (hp : p = EF.fin pq)
    (hc : (price_area.close.isInf || price_area.close.leb 0) = false)
    (hcl : is_closing_price = true → price_area.close.isNaN = false) :
    ∃ q : ℚ, cap_close p price_area is_closing_price mode = EF.fin q ∧
      (0 < pq → 0 < q) ∧ (0 ≤ pq → 0 ≤ q) := by
  unfold cap_close
  split
  · rename_i hcond
    rcases EF.ok_field price_area.close hc with hnan | ⟨hq, hfin, hqpos⟩
    · have hic : is_closing_price = true := by
        cases is_closing_price
        · simp at hcond
        · rfl
      have := hcl hic
      rw [hnan] at this
      simp [EF.isNaN] at this
    · exact ⟨hq, hfin, fun _ => hqpos, fun _ => le_of_lt hqpos⟩
  · exact ⟨pq, hp, id, id⟩

theorem check_adj_price_fin (x : EF) (price_area : PriceArea)
    (is_closing_price : Bool) (mode : Int) (y : EF) (xq : ℚ)
    (ha : check_price_area price_area = none)
    (hx : x = EF.fin xq)
    (hcl : is_closing_price = true → price_area.close.isNaN = false)
    (h : check_adj_price_nb x price_area is_closing_price mode = .ok y) :
    ∃ yq : ℚ, y = EF.fin yq ∧ (0 < xq → 0 < yq) ∧ (0 ≤ xq → 0 ≤ yq) := by
  obtain ⟨_, hh, hl, hc⟩ := check_price_area_none_inv price_area ha
  unfold check_adj_price_nb at h
  dsimp only at h
  split at h
  · cases h
    exact ⟨xq, hx, id, id⟩
  · split at h
    · cases h
    · obtain ⟨q1, hq1, hq1pos, hq1nn⟩ := cap_high_fin x price_area mode xq hx hh
      rw [hq1] at h
      split at h
      · cases h
      · obtain ⟨q2, hq2, hq2pos, hq2nn⟩ :=
          cap_low_fin (EF.fin q1) price_area mode q1 rfl hl
        rw [hq2] at h
        split at h
        · cases h
        · obtain ⟨q3, hq3, hq3pos, hq3nn⟩ :=
            cap_close_fin (EF.fin q2) price_area is_closing_price mode q2 rfl hc hcl
          rw [hq3] at h
          cases h
          exact ⟨q3, rfl, fun hx0 => hq3pos (hq2pos (hq1pos hx0)),
            fun hx0 => hq3nn (hq2nn (hq1nn hx0))⟩

theorem EF.fin_of_isFinite (x : EF) (h : x.isFinite = true) : ∃ q : ℚ, x = EF.fin q := by
  cases x with
  | nan => simp [EF.isFinite] at h
  | pinf => simp [EF.isFinite] at h
  | ninf => simp [EF.isFinite] at h
  | fin q => exact ⟨q, rfl⟩

theorem EF.fin_pos_of_check (x : EF) (h : (!x.isFinite || x.leb 0) = false) :
    ∃ q : ℚ, x = EF.fin q ∧ 0 < q := by
  rw [Bool.or_eq_false_iff] at h
  obtain ⟨q, hq⟩ := EF.fin_of_isFinite x (by simpa using h.1)
  refine ⟨q, hq, ?_⟩
  rw [hq, EF.zero_def] at h
  have := h.2
  simp only [EF.leb_fin, decide_eq_false_iff_not] at this
  exact lt_of_not_le this

theorem EF.fin_nonneg_of_check (x : EF) (h : (!x.isFinite || x.ltb 0) = false) :
    ∃ q : ℚ, x = EF.fin q ∧ 0 ≤ q := by
  rw [Bool.or_eq_false_iff] at h
  obtain ⟨q, hq⟩ := EF.fin_of_isFinite x (by simpa using h.1)
  refine ⟨q, hq, ?_⟩
  rw [hq, EF.zero_def] at h
  have := h.2
  simp only [EF.ltb_fin, decide_eq_false_iff_not] at this
  exact le_of_not_lt this

theorem EF.div_isFinite_inv (a : EF) (y : ℚ) (h : (a / EF.fin y).isFinite = true) :
    ∃ aq : ℚ, a = EF.fin aq ∧ y ≠ 0 := by
  cases a with
  | nan => simp [HDiv.hDiv, Div.div, EF.div, EF.isFinite] at h
  | pinf =>
    exfalso
    rcases lt_trichotomy y 0 with h0 | h0 | h0
    · simp [HDiv.hDiv, Div.div, EF.div, EF.isFinite, h0, not_lt.mpr (le_of_lt h0)] at h
    · simp [HDiv.hDiv, Div.div, EF.div, EF.isFinite, h0] at h
    · simp [HDiv.hDiv, Div.div, EF.div, EF.isFinite, h0] at h
  | ninf =>
    exfalso
    rcases lt_trichotomy y 0 with h0 | h0 | h0
    · simp [HDiv.hDiv, Div.div, EF.div, EF.isFinite, h0, not_lt.mpr (le_of_lt h0)] at h
    · simp [HDiv.hDiv, Div.div, EF.div, EF.isFinite, h0] at h
    · simp [HDiv.hDiv, Div.div, EF.div, EF.isFinite, h0] at h
  | fin a =>
    refine ⟨a, rfl, ?_⟩
    intro hy
    subst hy
    by_cases ha : a = 0
    · simp [HDiv.hDiv, Div.div, EF.div, EF.isFinite, ha] at h
    · by_cases ha2 : 0 < a
      · simp [HDiv.hDiv, Div.div, EF.div, EF.isFinite, ha, ha2] at h
      · simp [HDiv.hDiv, Div.div, EF.div, EF.isFinite, ha, ha2] at h

theorem EF.div_fin (a b : ℚ) (hb : b ≠ 0) : EF.fin a / EF.fin b = EF.fin (a / b) := by
  show EF.div (EF.fin a) (EF.fin b) = EF.fin (a / b)
  simp [EF.div, hb]

theorem add_nb_fin_inv (a : EF) (x : ℚ) (h : (add_nb a (EF.fin x)).isFinite = true) :
    ∃ aq : ℚ, a = EF.fin aq := by
  cases a with
  | nan => simp [add_nb, HAdd.hAdd, Add.add, EF.add, is_close_nb, EF.isFinite] at h
  | pinf => simp [add_nb, HAdd.hAdd, Add.add, EF.add, is_close_nb, EF.isFinite] at h
  | ninf => simp [add_nb, HAdd.hAdd, Add.add, EF.add, is_close_nb, EF.isFinite] at h
  | fin a => exact ⟨a, rfl⟩

theorem res_not_filled_of_ok (e : ExecuteOrderState) (s i : Int)
    (st : ExecuteOrderState) (res : OrderResult)
    (h : (Except.ok (e, order_not_filled_nb s i) :
      Except String (ExecuteOrderState × OrderResult)) = .ok (st, res))
    (hs : s ≠ OrderStatus.Filled) : res.status ≠ OrderStatus.Filled := by
  injection h with h1
  have h2 : res = order_not_filled_nb s i := ((Prod.mk.injEq _ _ _ _).mp h1).2.symm
  rw [h2]
  simpa [order_not_filled_nb] using hs

theorem resolve_size_tail_not_skip (s4 : EF) (t4 direction : Int) (r : OrderResult)
    (h : resolve_size_tail s4 t4 direction = .ok (.skip r)) : False := by
  unfold resolve_size_tail at h
  repeat' split at h
  all_goals simp_all

theorem resolve_size_target_not_skip (s3 : EF) (t3 direction : Int) (position : EF)
    (r : OrderResult)
    (h : resolve_size_target s3 t3 direction position = .ok (.skip r)) : False := by
  unfold resolve_size_target at h
  exact resolve_size_tail_not_skip _ _ _ _ h

theorem resolve_size_value_skip (s2 : EF) (t2 direction : Int)
    (position val_price : EF) (r : OrderResult)
    (h : resolve_size_value s2 t2 direction position val_price = .ok (.skip r)) :
    r.status ≠ OrderStatus.Filled := by
  unfold resolve_size_value at h
  repeat' split at h
  all_goals
    first
    | exact absurd h (fun hh => resolve_size_target_not_skip _ _ _ _ _ hh)
    | cases h
  all_goals
    simp [order_not_filled_nb, OrderStatus.Filled, OrderStatus.Ignored,
      OrderStatus.Rejected]

theorem resolve_size_skip_not_filled (size0 : EF) (size_type0 direction : Int)
    (position value val_price : EF) (r : OrderResult)
    (h : resolve_size_nb size0 size_type0 direction position value val_price =
      .ok (.skip r)) : r.status ≠ OrderStatus.Filled := by
  unfold resolve_size_nb at h
  dsimp only at h
  repeat' split at h
  all_goals
    first
    | exact resolve_size_value_skip _ _ _ _ _ _ h
    | cases h
  all_goals
    simp [order_not_filled_nb, OrderStatus.Filled, OrderStatus.Ignored,
      OrderStatus.Rejected]

theorem execute_order_checks_none_inv (cash position debt free_cash order_price : EF)
    (order : Order)
    (h : execute_order_checks cash position debt free_cash order_price order = none) :
    (cash.isNaN || cash.ltb 0) = false ∧
    (!position.isFinite) = false ∧
    (!debt.isFinite || debt.ltb 0) = false ∧
    free_cash.isNaN = false ∧
    (!order_price.isFinite || order_price.leb 0) = false ∧
    (order.direction == Direction.LongOnly && position.ltb 0) = false ∧
    (order.direction == Direction.ShortOnly && EF.ltb 0 position) = false ∧
    (!order.fees.isFinite) = false ∧
    (!order.fixed_fees.isFinite) = false ∧
    (!order.slippage.isFinite || order.slippage.ltb 0) = false ∧
    (!order.min_size.isFinite || order.min_size.ltb 0) = false ∧
    (order.max_size.isNaN || order.max_size.leb 0) = false ∧
    (order.size_granularity.isInf || order.size_granularity.leb 0) = false := by
  unfold execute_order_checks at h
  by_cases c1 : (cash.isNaN || cash.ltb 0) = true
  · rw [if_pos c1] at h
    cases h
  rw [if_neg c1] at h
  by_cases c2 : (!position.isFinite) = true
  · rw [if_pos c2] at h
    cases h
  rw [if_neg c2] at h
  by_cases c3 : (!debt.isFinite || debt.ltb 0) = true
  · rw [if_pos c3] at h
    cases h
  rw [if_neg c3] at h
  by_cases c4 : free_cash.isNaN = true
  · rw [if_pos c4] at h
    cases h
  rw [if_neg c4] at h
  by_cases c5 : (!order_price.isFinite || order_price.leb 0) = true
  · rw [if_pos c5] at h
    cases h
  rw [if_neg c5] at h
  by_cases c6 : (decide (order.size_type < 0) || decide (6 ≤ order.size_type)) = true
  · rw [if_pos c6] at h
    cases h
  rw [if_neg c6] at h
  by_cases c7 : (decide (order.direction < 0) || decide (3 ≤ order.direction)) = true
  · rw [if_pos c7] at h
    cases h
  rw [if_neg c7] at h
  by_cases c8 : (order.direction == Direction.LongOnly && position.ltb 0) = true
  · rw [if_pos c8] at h
    cases h
  rw [if_neg c8] at h
  by_cases c9 : (order.direction == Direction.ShortOnly && EF.ltb 0 position) = true
  · rw [if_pos c9] at h
    cases h
  rw [if_neg c9] at h
  by_cases c10 : (!order.fees.isFinite) = true
  · rw [if_pos c10] at h
    cases h
  rw [if_neg c10] at h
  by_cases c11 : (!order.fixed_fees.isFinite) = true
  · rw [if_pos c11] at h
    cases h
  rw [if_neg c11] at h
  by_cases c12 : (!order.slippage.isFinite || order.slippage.ltb 0) = true
  · rw [if_pos c12] at h
    cases h
  rw [if_neg c12] at h
  by_cases c13 : (!order.min_size.isFinite || order.min_size.ltb 0) = true
  · rw [if_pos c13] at h
    cases h
  rw [if_neg c13] at h
  by_cases c14 : (order.max_size.isNaN || order.max_size.leb 0) = true
  · rw [if_pos c14] at h
    cases h
  rw [if_neg c14] at h
  by_cases c15 : (order.size_granularity.isInf || order.size_granularity.leb 0) = true
  · rw [if_pos c15] at h
    cases h
  rw [if_neg c15] at h
  by_cases c16 : (!order.reject_prob.isFinite || order.reject_prob.ltb 0 ||
      (EF.ltb 1 order.reject_prob)) = true
  · rw [if_pos c16] at h
    cases h
  rw [if_neg c16] at h
  refine ⟨?_, ?_, ?_, ?_, ?_, ?_, ?_, ?_, ?_, ?_, ?_, ?_, ?_⟩ <;>
    (rw [Bool.eq_false_iff]
     assumption)

theorem buy_nb_req_fees_fin (a p f x : ℚ) :
    buy_nb_req_fees (EF.fin a) (EF.fin p) (EF.fin f) (EF.fin x) =
      EF.fin (a * p * f + x) := by
  simp [buy_nb_req_fees, EF.isInf]

theorem buy_nb_total_req_cash_fin (a p f x : ℚ) :
    buy_nb_total_req_cash (EF.fin a) (EF.fin p) (EF.fin f) (EF.fin x) =
      EF.fin (a * p + (a * p * f + x)) := by
  simp [buy_nb_total_req_cash, EF.isInf]

theorem pair_eq_fill_buy (st : ExecuteOrderState) (res : OrderResult)
    (e : ExecuteOrderState) (adj fs fp rq : EF)
    (hpair : (st, res) = buy_nb_fill e adj fs fp rq) :
    st.cash = add_nb e.cash (-rq) ∧
    res = ⟨fs, adj, fp, OrderSide.Buy, OrderStatus.Filled, -1⟩ := by
  unfold buy_nb_fill at hpair
  dsimp only at hpair
  injection hpair with h1 h2
  exact ⟨by rw [h1], h2⟩

theorem pair_eq_fill_sell (st : ExecuteOrderState) (res : OrderResult)
    (e : ExecuteOrderState) (adj l fp a : EF)
    (hpair : (st, res) = sell_nb_fill e adj l fp a) :
    st.cash = e.cash + a ∧
    res = ⟨l, adj, fp, OrderSide.Sell, OrderStatus.Filled, -1⟩ := by
  unfold sell_nb_fill at hpair
  dsimp only at hpair
  injection hpair with h1 h2
  exact ⟨by rw [h1], h2⟩

theorem buy_nb_fill_cash_identity (e : ExecuteOrderState) (pq : ℚ) (fs fp rq : EF)
    (st : ExecuteOrderState) (res : OrderResult) (cq : ℚ)
    (hpair : (st, res) = buy_nb_fill e (EF.fin pq) fs fp rq)
    (hcq : e.cash = EF.fin cq)
    (hs : res.size.isFinite = true)
    (hfp : ∀ sq : ℚ, fs = EF.fin sq → ∃ fqq : ℚ, fp = EF.fin fqq)
    (hrq : ∀ (sq fqq : ℚ), fs = EF.fin sq → fp = EF.fin fqq →
      rq = EF.fin (sq * pq + fqq)) :
    ∃ c1 sq fq : ℚ, st.cash = EF.fin c1 ∧ res.size = EF.fin sq ∧
      res.price = EF.fin pq ∧ res.fees = EF.fin fq ∧ res.side = OrderSide.Buy ∧
      |c1 - (cq - (sq * pq + fq))| ≤ absTolQ := by
  obtain ⟨hstc, hres⟩ := pair_eq_fill_buy st res e (EF.fin pq) fs fp rq hpair
  subst hres
  obtain ⟨sq, hfs⟩ := EF.fin_of_isFinite fs (by simpa using hs)
  obtain ⟨fqq, hfpq⟩ := hfp sq hfs
  have hrqq := hrq sq fqq hfs hfpq
  refine ⟨snapQ (cq + -(sq * pq + fqq)), sq, fqq, ?_, ?_, rfl, ?_, rfl, ?_⟩
  · rw [hstc, hcq, hrqq, EF.neg_fin, add_nb_fin]
  · exact hfs
  · exact hfpq
  · have he : cq - (sq * pq + fqq) = cq + -(sq * pq + fqq) := by ring
    rw [he]
    exact snapQ_dev _

theorem EF.div_eq_fin_inv (a : EF) (y r : ℚ) (h : a / EF.fin y = EF.fin r) :
    ∃ aq : ℚ, a = EF.fin aq ∧ y ≠ 0 :=
  EF.div_isFinite_inv a y (by rw [h]; rfl)

theorem add_nb_eq_fin_inv (a : EF) (x r : ℚ) (h : add_nb a (EF.fin x) = EF.fin r) :
    ∃ aq : ℚ, a = EF.fin aq :=
  add_nb_fin_inv a x (by rw [h]; rfl)

theorem buy_nb_filled_cash (exec_state : ExecuteOrderState) (size price : EF)
    (direction : Int) (fees fixed_fees slippage min_size max_size size_granularity : EF)
    (mode : Int) (lock_cash allowPartial : Bool) (percent : EF)
    (price_area : PriceArea) (is_closing_price : Bool)
    (st : ExecuteOrderState) (res : OrderResult) (cq feq fxq : ℚ)
    (h : buy_nb exec_state size price direction fees fixed_fees slippage min_size
      max_size size_granularity mode lock_cash allowPartial percent price_area
      is_closing_price = .ok (st, res))
    (hf : res.status = OrderStatus.Filled)
    (hcq : exec_state.cash = EF.fin cq)
    (hs : res.size.isFinite = true)
    (hfe : fees = EF.fin feq) (hfx : fixed_fees = EF.fin fxq)
    (hadj : ∀ y : EF, check_adj_price_nb (price * (1 + slippage)) price_area
      is_closing_price mode = .ok y → ∃ q : ℚ, y = EF.fin q ∧ 0 < q) :
    ∃ c1 sq pq fq : ℚ, st.cash = EF.fin c1 ∧ res.size = EF.fin sq ∧
      res.price = EF.fin pq ∧ res.fees = EF.fin fq ∧ res.side = OrderSide.Buy ∧
      |c1 - (cq - (sq * pq + fq))| ≤ absTolQ := by
  subst hfe
  subst hfx
  unfold buy_nb at h
  split at h
  · cases h
  · rename_i adj_price heq
    obtain ⟨pq, hpq, hppos⟩ := hadj adj_price heq
    subst hpq
    dsimp only at h
    split at h
    · exact absurd hf (res_not_filled_of_ok _ _ _ _ _ h (by decide))
    · split at h
      · cases h
      · split at h
        · exact absurd hf (res_not_filled_of_ok _ _ _ _ _ h (by decide))
        · split at h
          · exact absurd hf (res_not_filled_of_ok _ _ _ _ _ h (by decide))
          · split at h
            · obtain ⟨hpair, -, -⟩ :=
                buy_nb_finish_filled _ _ _ _ _ _ _ _ _ _ _ h hf
              obtain ⟨c1, sq, fq, h1, h2, h3, h4, h5, h6⟩ :=
                buy_nb_fill_cash_identity _ _ _ _ _ _ _ _ hpair hcq hs
                  (fun sq hfs => by
                    rw [hfs, buy_nb_req_fees_fin]
                    exact ⟨_, rfl⟩)
                  (fun sq fqq hfs hfpq => by
                    rw [hfs, buy_nb_req_fees_fin] at hfpq
                    injection hfpq with hq
                    rw [hfs, buy_nb_total_req_cash_fin, ← hq])
              exact ⟨c1, sq, pq, fq, h1, h2, h3, h4, h5, h6⟩
            · split at h
              · exact absurd hf (res_not_filled_of_ok _ _ _ _ _ h (by decide))
              · split at h
                · obtain ⟨hpair, -, -⟩ :=
                    buy_nb_finish_filled _ _ _ _ _ _ _ _ _ _ _ h hf
                  obtain ⟨c1, sq, fq, h1, h2, h3, h4, h5, h6⟩ :=
                    buy_nb_fill_cash_identity _ _ _ _ _ _ _ _ hpair hcq hs
                      (fun sq hfs => ⟨sq * pq * feq + fxq, by rw [hfs]; simp⟩)
                      (fun sq fqq hfs hfpq => by
                        rw [hfs] at hfpq ⊢
                        simp only [EF.mul_fin, EF.add_fin] at hfpq ⊢
                        injection hfpq with hq
                        rw [← hq])
                  exact ⟨c1, sq, pq, fq, h1, h2, h3, h4, h5, h6⟩
                · obtain ⟨hpair, -, -⟩ :=
                    buy_nb_finish_filled _ _ _ _ _ _ _ _ _ _ _ h hf
                  obtain ⟨c1, sq, fq, h1, h2, h3, h4, h5, h6⟩ :=
                    buy_nb_fill_cash_identity _ _ _ _ _ _ _ _ hpair hcq hs
                      (fun sq hfs => by
                        rw [show (1 : EF) + EF.fin feq = EF.fin (1 + feq) from rfl]
                          at hfs
                        obtain ⟨mq, hMR, -⟩ := EF.div_eq_fin_inv _ _ _ hfs
                        obtain ⟨xq, hX, hYne⟩ := EF.div_eq_fin_inv _ _ _ hMR
                        rw [EF.neg_fin] at hX
                        obtain ⟨clq, hCL⟩ := add_nb_eq_fin_inv _ _ _ hX
                        refine ⟨clq - mq, ?_⟩
                        rw [show (1 : EF) + EF.fin feq = EF.fin (1 + feq) from rfl,
                          hMR, hCL]
                        simp)
                      (fun sq fqq hfs hfpq => by
                        rw [show (1 : EF) + EF.fin feq = EF.fin (1 + feq) from rfl]
                          at hfs hfpq
                        obtain ⟨mq, hMR, -⟩ := EF.div_eq_fin_inv _ _ _ hfs
                        obtain ⟨xq, hX, hYne⟩ := EF.div_eq_fin_inv _ _ _ hMR
                        rw [EF.neg_fin] at hX
                        obtain ⟨clq, hCL⟩ := add_nb_eq_fin_inv _ _ _ hX
                        rw [hMR, EF.div_fin mq pq (ne_of_gt hppos)] at hfs
                        injection hfs with hsq
                        rw [hMR, hCL, EF.sub_fin] at hfpq
                        injection hfpq with hfq
                        rw [hCL]
                        exact congrArg EF.fin (by
                          rw [← hsq, ← hfq, div_mul_cancel₀ _ (ne_of_gt hppos)]
                          ring))
                  exact ⟨c1, sq, pq, fq, h1, h2, h3, h4, h5, h6⟩

theorem sell_nb_finish_filled_cash (exec_state : ExecuteOrderState) (size : EF)
    (direction : Int) (fees fixed_fees min_size max_size size_granularity : EF)
    (allowPartial : Bool) (pq : ℚ) (size_limit_0 percent_1 : EF)
    (st : ExecuteOrderState) (res : OrderResult) (cq feq fxq : ℚ)
    (h : sell_nb_finish exec_state size direction fees fixed_fees min_size max_size
      size_granularity allowPartial (EF.fin pq) size_limit_0 percent_1 = .ok (st, res))
    (hf : res.status = OrderStatus.Filled)
    (hcq : exec_state.cash = EF.fin cq)
    (hs : res.size.isFinite = true)
    (hfe : fees = EF.fin feq) (hfx : fixed_fees = EF.fin fxq) :
    ∃ c1 sq fq : ℚ, st.cash = EF.fin c1 ∧ res.size = EF.fin sq ∧
      res.price = EF.fin pq ∧ res.fees = EF.fin fq ∧ res.side = OrderSide.Sell ∧
      |c1 - (cq + sq * pq - fq)| ≤ absTolQ := by
  subst hfe
  subst hfx
  obtain ⟨hpair, -, -, -⟩ := sell_nb_finish_filled _ _ _ _ _ _ _ _ _ _ _ _ _ _ h hf
  obtain ⟨hstc, hres⟩ := pair_eq_fill_sell _ _ _ _ _ _ _ hpair
  subst hres
  obtain ⟨lq, hL⟩ := EF.fin_of_isFinite
    (sell_nb_size_limit size_limit_0 percent_1 max_size size_granularity)
    (by simpa using hs)
  refine ⟨cq + snapQ (lq * pq + -(lq * pq * feq + fxq)), lq, lq * pq * feq + fxq,
    ?_, ?_, rfl, ?_, rfl, ?_⟩
  · rw [hstc, hcq, hL]
    simp only [EF.mul_fin, EF.add_fin, EF.neg_fin, add_nb_fin]
  · exact hL
  · rw [hL]
    simp
  · have he : cq + lq * pq - (lq * pq * feq + fxq) =
        cq + (lq * pq + -(lq * pq * feq + fxq)) := by ring
    rw [he]
    have hdev := snapQ_dev (lq * pq + -(lq * pq * feq + fxq))
    have he2 : cq + snapQ (lq * pq + -(lq * pq * feq + fxq)) -
        (cq + (lq * pq + -(lq * pq * feq + fxq))) =
        snapQ (lq * pq + -(lq * pq * feq + fxq)) -
        (lq * pq + -(lq * pq * feq + fxq)) := by ring
    rw [he2]
    exact hdev

theorem sell_nb_filled_cash (exec_state : ExecuteOrderState) (size price : EF)
    (direction : Int) (fees fixed_fees slippage min_size max_size size_granularity : EF)
    (mode : Int) (lock_cash allowPartial : Bool) (percent : EF)
    (price_area : PriceArea) (is_closing_price : Bool)
    (st : ExecuteOrderState) (res : OrderResult) (cq feq fxq : ℚ)
    (h : sell_nb exec_state size price direction fees fixed_fees slippage min_size
      max_size size_granularity mode lock_cash allowPartial percent price_area
      is_closing_price = .ok (st, res))
    (hf : res.status = OrderStatus.Filled)
    (hcq : exec_state.cash = EF.fin cq)
    (hs : res.size.isFinite = true)
    (hfe : fees = EF.fin feq) (hfx : fixed_fees = EF.fin fxq)
    (hadj : ∀ y : EF, check_adj_price_nb (price * (1 - slippage)) price_area
      is_closing_price mode = .ok y → ∃ q : ℚ, y = EF.fin q) :
    ∃ c1 sq pq fq : ℚ, st.cash = EF.fin c1 ∧ res.size = EF.fin sq ∧
      res.price = EF.fin pq ∧ res.fees = EF.fin fq ∧ res.side = OrderSide.Sell ∧
      |c1 - (cq + sq * pq - fq)| ≤ absTolQ := by
  unfold sell_nb at h
  split at h
  · cases h
  · rename_i adj_price heq
    obtain ⟨pq, hpq⟩ := hadj adj_price heq
    subst hpq
    dsimp only at h
    split at h
    · obtain ⟨c1, sq, fq, h1, h2, h3, h4, h5, h6⟩ :=
        sell_nb_finish_filled_cash _ _ _ _ _ _ _ _ _ _ _ _ _ _ _ _ _ h hf hcq hs
          hfe hfx
      exact ⟨c1, sq, pq, fq, h1, h2, h3, h4, h5, h6⟩
    · split at h
      · split at h
        · split at h
          · exact absurd hf (res_not_filled_of_ok _ _ _ _ _ h (by decide))
          · obtain ⟨l0, p1, hfin⟩ :=
              sell_nb_after_max_filled _ _ _ _ _ _ _ _ _ _ _ _ _ _ _ h hf
            obtain ⟨c1, sq, fq, h1, h2, h3, h4, h5, h6⟩ :=
              sell_nb_finish_filled_cash _ _ _ _ _ _ _ _ _ _ _ _ _ _ _ _ _ hfin hf
                hcq hs hfe hfx
            exact ⟨c1, sq, pq, fq, h1, h2, h3, h4, h5, h6⟩
        · split at h
          · exact absurd hf (res_not_filled_of_ok _ _ _ _ _ h (by decide))
          · obtain ⟨l0, p1, hfin⟩ :=
              sell_nb_after_max_filled _ _ _ _ _ _ _ _ _ _ _ _ _ _ _ h hf
            obtain ⟨c1, sq, fq, h1, h2, h3, h4, h5, h6⟩ :=
              sell_nb_finish_filled_cash _ _ _ _ _ _ _ _ _ _ _ _ _ _ _ _ _ hfin hf
                hcq hs hfe hfx
            exact ⟨c1, sq, pq, fq, h1, h2, h3, h4, h5, h6⟩
      · obtain ⟨c1, sq, fq, h1, h2, h3, h4, h5, h6⟩ :=
          sell_nb_finish_filled_cash _ _ _ _ _ _ _ _ _ _ _ _ _ _ _ _ _ h hf hcq hs
            hfe hfx
        exact ⟨c1, sq, pq, fq, h1, h2, h3, h4, h5, h6⟩

/-- C1 counterexample: `execute_order_nb` can return a Filled result whose
reported size is `+inf` and whose fees are NaN, with the post-trade cash NaN
although the pre-trade cash was the finite `100` (a `-inf` Percent order under
LongOnly): no arithmetic identity between pre- and post-trade cash and the
reported size/price/fees can hold, so the claimed cash identity fails without
finiteness assumptions. -/
theorem C1_counterexample :
    execute_order_nb ⟨100, 1, 0, 100, 1, 101⟩
      ⟨EF.ninf, 2, SizeType.Percent, Direction.LongOnly, 0, 0, 0, 0, EF.pinf,
       EF.nan, 0, PriceAreaVioMode.Ignore, false, true, false, false⟩
      NoPriceArea 0 =
      .ok (⟨EF.nan, EF.ninf, EF.pinf, EF.nan⟩,
        ⟨EF.pinf, 2, EF.nan, OrderSide.Sell, OrderStatus.Filled, -1⟩) ∧
    (100 : EF).isFinite = true ∧ EF.nan.isFinite = false ∧
    EF.pinf.isFinite = false := by
  refine ⟨by decide, rfl, rfl, rfl⟩

/-- C1 amended: for every pre-trade state accepted by `execute_order_nb` whose
cash is finite and every order whose result has status Filled with a finite
reported size, the post-trade cash equals the pre-trade cash minus
side·size·price minus fees of the returned OrderResult (side `+1` for Buy,
`-1` for Sell), within `2·abs_tol` (one zero-snap of the incoming cash plus
one `add_nb` zero-snap in the fill). -/
theorem C1_cash_identity (state : ProcessOrderState) (order : Order)
    (price_area : PriceArea) (rand : EF) (st : ExecuteOrderState) (res : OrderResult)
    (h : execute_order_nb state order price_area rand = .ok (st, res))
    (hf : res.status = OrderStatus.Filled)
    (hc : state.cash.isFinite = true)
    (hs : res.size.isFinite = true) :
    ∃ c0 c1 sq pq fq : ℚ,
      state.cash = EF.fin c0 ∧ st.cash = EF.fin c1 ∧ res.size = EF.fin sq ∧
      res.price = EF.fin pq ∧ res.fees = EF.fin fq ∧
      ((res.side = OrderSide.Buy ∧ |c1 - (c0 - (sq * pq + fq))| ≤ 2 * absTolQ) ∨
       (res.side = OrderSide.Sell ∧ |c1 - (c0 + sq * pq - fq)| ≤ 2 * absTolQ)) := by
  obtain ⟨c0, hc0⟩ := EF.fin_of_isFinite state.cash hc
  unfold execute_order_nb at h
  dsimp only at h
  split at h
  · cases h
  · rename_i hpa
    split at h
    · exact absurd hf (res_not_filled_of_ok _ _ _ _ _ h (by decide))
    · split at h
      · exact absurd hf (res_not_filled_of_ok _ _ _ _ _ h (by decide))
      · split at h
        · cases h
        · rename_i hchk
          obtain ⟨k1, k2, k3, k4, k5, k6, k7, k8, k9, k10, k11, k12, k13⟩ :=
            execute_order_checks_none_inv _ _ _ _ _ _ hchk
          obtain ⟨opq, hop, hoppos⟩ := EF.fin_pos_of_check _ k5
          obtain ⟨feq, hfe⟩ := EF.fin_of_isFinite order.fees (by simpa using k8)
          obtain ⟨fxq, hfx⟩ := EF.fin_of_isFinite order.fixed_fees (by simpa using k9)
          obtain ⟨slq, hsl, hslnn⟩ := EF.fin_nonneg_of_check _ k10
          have hexec : (⟨snapZero state.cash, snapZero state.position,
              snapZero state.debt, snapZero state.free_cash⟩ :
              ExecuteOrderState).cash = EF.fin (snapQ c0) := by
            show snapZero state.cash = EF.fin (snapQ c0)
            rw [hc0, snapZero_fin]
          have hcl : (order.price.isInf && EF.ltb 0 order.price) = true →
              price_area.close.isNaN = false := by
            intro hic
            rw [Bool.and_eq_true] at hic
            have h1 : resolve_order_price order.price price_area =
                price_area.close := by
              unfold resolve_order_price
              rw [if_pos hic.1, if_pos hic.2]
            rw [h1] at hop
            rw [hop]
            rfl
          unfold execute_order_core at h
          split at h
          · cases h
          · rename_i r hskip
            injection h with h1
            have h2 : res = r := ((Prod.mk.injEq _ _ _ _).mp h1).2.symm
            exact absurd (h2 ▸ hf) (resolve_size_skip_not_filled _ _ _ _ _ _ _ hskip)
          · rename_i order_size percent hres_eq
            split at h
            · split at h
              · cases h
              · rename_i new_exec_state order_result hbuy
                unfold execute_order_random_tail at h
                split at h
                · exact absurd hf (res_not_filled_of_ok _ _ _ _ _ h (by decide))
                · injection h with h1
                  obtain ⟨hst_eq, hres_eq2⟩ := (Prod.mk.injEq _ _ _ _).mp h1
                  subst hst_eq
                  subst hres_eq2
                  have hadjb : ∀ y : EF, check_adj_price_nb
                      (resolve_order_price order.price price_area *
                        (1 + order.slippage))
                      price_area (order.price.isInf && EF.ltb 0 order.price)
                      order.price_area_vio_mode = .ok y →
                      ∃ q : ℚ, y = EF.fin q ∧ 0 < q := by
                    intro y hy
                    have hx : resolve_order_price order.price price_area *
                        (1 + order.slippage) = EF.fin (opq * (1 + slq)) := by
                      rw [hop, hsl]
                      rfl
                    obtain ⟨yq, hyq, himp, -⟩ := check_adj_price_fin _ price_area _ _ y
                      (opq * (1 + slq)) hpa hx hcl hy
                    exact ⟨yq, hyq, himp (by nlinarith)⟩
                  obtain ⟨c1, sq, pq, fq, h1', h2', h3', h4', h5', h6'⟩ :=
                    buy_nb_filled_cash _ _ _ _ _ _ _ _ _ _ _ _ _ _ _ _ _ _ _ _ _
                      hbuy hf hexec hs hfe hfx hadjb
                  refine ⟨c0, c1, sq, pq, fq, hc0, h1', h2', h3', h4',
                    Or.inl ⟨h5', ?_⟩⟩
                  have hdev := snapQ_dev c0
                  have habs : |c1 - (c0 - (sq * pq + fq))| ≤
                      |c1 - (snapQ c0 - (sq * pq + fq))| + |snapQ c0 - c0| := by
                    have he : c1 - (c0 - (sq * pq + fq)) =
                        (c1 - (snapQ c0 - (sq * pq + fq))) + (snapQ c0 - c0) := by
                      ring
                    rw [he]
                    exact abs_add _ _
                  linarith
            · split at h
              · cases h
              · rename_i new_exec_state order_result hsell
                unfold execute_order_random_tail at h
                split at h
                · exact absurd hf (res_not_filled_of_ok _ _ _ _ _ h (by decide))
                · injection h with h1
                  obtain ⟨hst_eq, hres_eq2⟩ := (Prod.mk.injEq _ _ _ _).mp h1
                  subst hst_eq
                  subst hres_eq2
                  have hadjs : ∀ y : EF, check_adj_price_nb
                      (resolve_order_price order.price price_area *
                        (1 - order.slippage))
                      price_area (order.price.isInf && EF.ltb 0 order.price)
                      order.price_area_vio_mode = .ok y →
                      ∃ q : ℚ, y = EF.fin q := by
                    intro y hy
                    have hx : resolve_order_price order.price price_area *
                        (1 - order.slippage) = EF.fin (opq * (1 + -slq)) := by
                      rw [hop, hsl]
                      rfl
                    obtain ⟨yq, hyq, -, -⟩ := check_adj_price_fin _ price_area _ _ y
                      (opq * (1 + -slq)) hpa hx hcl hy
                    exact ⟨yq, hyq⟩
                  obtain ⟨c1, sq, pq, fq, h1', h2', h3', h4', h5', h6'⟩ :=
                    sell_nb_filled_cash _ _ _ _ _ _ _ _ _ _ _ _ _ _ _ _ _ _ _ _ _
                      hsell hf hexec hs hfe hfx hadjs
                  refine ⟨c0, c1, sq, pq, fq, hc0, h1', h2', h3', h4',
                    Or.inr ⟨h5', ?_⟩⟩
                  have hdev := snapQ_dev c0
                  have habs : |c1 - (c0 + sq * pq - fq)| ≤
                      |c1 - (snapQ c0 + sq * pq - fq)| + |snapQ c0 - c0| := by
                    have he : c1 - (c0 + sq * pq - fq) =
                        (c1 - (snapQ c0 + sq * pq - fq)) + (snapQ c0 - c0) := by
                      ring
                    rw [he]
                    exact abs_add _ _
                  linarith

/-- Witness for C1 at a concrete input: buying 1 unit at price 10 with no
fees from 100 cash fills and leaves 90, matching `100 - (1·10 + 0)`. -/
theorem C1_cash_identity_witness :
    ∃ c0 c1 sq pq fq : ℚ,
      (100 : EF) = EF.fin c0 ∧ (90 : EF) = EF.fin c1 ∧ (1 : EF) = EF.fin sq ∧
      (10 : EF) = EF.fin pq ∧ (0 : EF) = EF.fin fq ∧
      ((OrderSide.Buy = OrderSide.Buy ∧ |c1 - (c0 - (sq * pq + fq))| ≤ 2 * absTolQ) ∨
       (OrderSide.Buy = OrderSide.Sell ∧ |c1 - (c0 + sq * pq - fq)| ≤ 2 * absTolQ)) :=
  C1_cash_identity ⟨100, 0, 0, 100, 1, 100⟩
    ⟨1, 10, SizeType.Amount, Direction.Both, 0, 0, 0, 0, EF.fin 1000, EF.nan, 0,
     PriceAreaVioMode.Ignore, false, true, false, false⟩ NoPriceArea 0
    ⟨90, 1, 0, 90⟩ ⟨1, 10, 0, OrderSide.Buy, OrderStatus.Filled, -1⟩
    (by decide) rfl rfl rfl

theorem snapQ_lt_zero {x : ℚ} (h : snapQ x < 0) : x < 0 := by
  by_cases hx : |x| ≤ absTolQ
  · rw [snapQ, if_pos hx] at h
    exact absurd h (lt_irrefl 0)
  · rwa [snapQ, if_neg hx] at h

theorem snapQ_zero : snapQ 0 = 0 := by
  rw [snapQ, if_pos]
  rw [abs_zero]
  norm_num [absTolQ]

theorem EF.two_def : (2 : EF) = EF.fin 2 := rfl

theorem EF.abs_fin (a : ℚ) : (EF.fin a).abs = EF.fin |a| := rfl

theorem sell_size_limit_nonneg (sl ms : ℚ) (hms : 0 ≤ ms)
    (hc : is_close_nb (EF.fin sl) 0 = false)
    (hl : is_less_nb (EF.fin sl) (EF.fin ms) = false) : 0 ≤ sl := by
  by_contra hneg
  push_neg at hneg
  rw [is_close_fin_zero] at hc
  have habs : absTolQ < |sl| := lt_of_not_le (by simpa using hc)
  unfold is_less_nb at hl
  rw [Bool.and_eq_false_iff] at hl
  rcases hl with hl | hl
  · rw [Bool.not_eq_false'] at hl
    unfold is_close_nb at hl
    have hclose := of_decide_eq_true hl
    rw [abs_of_neg hneg] at habs
    rw [abs_of_neg hneg, abs_of_nonneg hms,
      abs_of_neg (show sl - ms < 0 by linarith)] at hclose
    have ht : (0 : ℚ) < absTolQ := by norm_num [absTolQ]
    rcases max_cases (relTolQ * max (-sl) ms) absTolQ with ⟨hm, -⟩ | ⟨hm, -⟩ <;>
      rw [hm] at hclose
    · rcases max_cases (-sl) ms with ⟨hm2, hge⟩ | ⟨hm2, hge⟩ <;>
        rw [hm2] at hclose <;>
        norm_num [relTolQ] at hclose <;>
        linarith
    · linarith
  · rw [EF.ltb_fin] at hl
    have := of_decide_eq_false hl
    exact this (lt_of_lt_of_le hneg hms)

theorem buy_nb_fill_invariants (adj fp : EF) (sq rqq c p d f : ℚ)
    (st : ExecuteOrderState) (res : OrderResult)
    (hpair : (st, res) = buy_nb_fill ⟨EF.fin c, EF.fin p, EF.fin d, EF.fin f⟩ adj
      (EF.fin sq) fp (EF.fin rqq))
    (hpre1 : 0 ≤ d) (hpre2 : 0 < d → p < 0) (hpre3 : c - f = 2 * d) :
    ∃ c2 p2 d2 f2 : ℚ,
      st = ⟨EF.fin c2, EF.fin p2, EF.fin d2, EF.fin f2⟩ ∧
      0 ≤ d2 ∧ (0 < d2 → p2 < 0) ∧ |c2 - f2 - 2 * d2| ≤ 4 * absTolQ := by
  unfold buy_nb_fill at hpair
  dsimp only at hpair
  injection hpair with h1 h2
  by_cases hpneg : p < 0
  · rw [if_pos (by
      simp only [EF.zero_def, EF.ltb_fin, decide_eq_true_eq]
      exact hpneg)] at h1
    have hpne : |p| ≠ 0 := ne_of_gt (abs_pos.mpr (ne_of_lt hpneg))
    rw [show (EF.fin p).abs = EF.fin |p| from rfl, EF.div_fin d |p| hpne] at h1
    simp only [EF.neg_fin, add_nb_fin, EF.zero_def, EF.ltb_fin,
      decide_eq_true_eq] at h1
    by_cases hnp : snapQ (p + sq) < 0
    · rw [if_pos hnp] at h1
      simp only [EF.mul_fin, EF.add_fin, EF.neg_fin, add_nb_fin, EF.two_def] at h1
      have hsqlt : sq < |p| := by
        have h0 := snapQ_lt_zero hnp
        rw [abs_of_neg hpneg]
        linarith
      have hdnn : 0 ≤ d + -(sq * (d / |p|)) := by
        have hpa : 0 < |p| := abs_pos.mpr (ne_of_lt hpneg)
        have key : 0 ≤ d * (|p| - sq) / |p| :=
          div_nonneg (mul_nonneg hpre1 (by linarith)) (le_of_lt hpa)
        have he : d + -(sq * (d / |p|)) = d * (|p| - sq) / |p| := by
          field_simp
          ring
        rw [he]
        exact key
      refine ⟨snapQ (c + -rqq), snapQ (p + sq), snapQ (d + -(sq * (d / |p|))),
        snapQ (f + 2 * (sq * (d / |p|)) + -rqq), h1, snapQ_nonneg hdnn,
        fun _ => hnp, ?_⟩
      have e1 := snapQ_dev (c + -rqq)
      have e2 := snapQ_dev (f + 2 * (sq * (d / |p|)) + -rqq)
      have e3 := snapQ_dev (d + -(sq * (d / |p|)))
      rw [abs_le] at e1 e2 e3 ⊢
      constructor <;> linarith
    · rw [if_neg hnp] at h1
      simp only [EF.mul_fin, EF.add_fin, EF.neg_fin, add_nb_fin, EF.two_def] at h1
      have hdd : |p| * (d / |p|) = d := by
        field_simp
      rw [hdd] at h1
      rw [show d + -d = (0 : ℚ) from by ring, snapQ_zero] at h1
      refine ⟨snapQ (c + -rqq), snapQ (p + sq), 0, snapQ (f + 2 * d + -rqq), h1,
        le_refl 0, fun h0 => absurd h0 (lt_irrefl 0), ?_⟩
      have e1 := snapQ_dev (c + -rqq)
      have e2 := snapQ_dev (f + 2 * d + -rqq)
      rw [abs_le] at e1 e2 ⊢
      constructor <;> linarith
  · rw [if_neg (by
      simp only [EF.zero_def, EF.ltb_fin, decide_eq_true_eq]
      exact hpneg)] at h1
    simp only [EF.neg_fin, add_nb_fin] at h1
    refine ⟨snapQ (c + -rqq), snapQ (p + sq), d, snapQ (f + -rqq), h1, hpre1,
      fun hd => absurd (hpre2 hd) hpneg, ?_⟩
    have e1 := snapQ_dev (c + -rqq)
    have e2 := snapQ_dev (f + -rqq)
    rw [abs_le] at e1 e2 ⊢
    constructor <;> linarith

theorem snapQ_neg_of (q : ℚ) (h : q < -absTolQ) : snapQ q = q := by
  have hq0 : q < 0 := lt_trans h (by norm_num [absTolQ])
  rw [snapQ, if_neg (not_le.mpr (by rw [abs_of_neg hq0]; linarith))]

theorem snapQ_fix_neg {p : ℚ} (hs : snapQ p = p) (hp : p < 0) : p < -absTolQ := by
  by_cases h : |p| ≤ absTolQ
  · rw [snapQ, if_pos h] at hs
    exact absurd hs.symm (ne_of_lt hp)
  · push_neg at h
    rw [abs_of_neg hp] at h
    linarith

theorem sell_nb_fill_invariants (fp : EF) (pq lq aq c p d f : ℚ)
    (st : ExecuteOrderState) (res : OrderResult)
    (hpair : (st, res) = sell_nb_fill ⟨EF.fin c, EF.fin p, EF.fin d, EF.fin f⟩
      (EF.fin pq) (EF.fin lq) fp (EF.fin aq))
    (hpq : 0 ≤ pq) (hlq : 0 ≤ lq)
    (hpre1 : 0 ≤ d) (hpre2 : 0 < d → p < 0) (hpre3 : c - f = 2 * d)
    (hpsnap : snapQ p = p) :
    ∃ c2 p2 d2 f2 : ℚ,
      st = ⟨EF.fin c2, EF.fin p2, EF.fin d2, EF.fin f2⟩ ∧
      0 ≤ d2 ∧ (0 < d2 → p2 < 0) ∧ |c2 - f2 - 2 * d2| ≤ 4 * absTolQ := by
  unfold sell_nb_fill at hpair
  dsimp only at hpair
  injection hpair with h1 h2
  simp only [EF.neg_fin, add_nb_fin, EF.add_fin, EF.zero_def, EF.ltb_fin,
    decide_eq_true_eq] at h1
  by_cases hnp : snapQ (p + -lq) < 0
  · rw [if_pos hnp] at h1
    by_cases hp2 : p < 0
    · rw [if_pos hp2] at h1
      simp only [EF.mul_fin, EF.add_fin, EF.neg_fin, add_nb_fin, EF.two_def] at h1
      refine ⟨c + aq, snapQ (p + -lq), d + lq * pq,
        snapQ (f + snapQ (aq + -(2 * (lq * pq)))), h1,
        by positivity, fun _ => hnp, ?_⟩
      have e1 := snapQ_dev (aq + -(2 * (lq * pq)))
      have e2 := snapQ_dev (f + snapQ (aq + -(2 * (lq * pq))))
      rw [abs_le] at e1 e2 ⊢
      have ht : (0 : ℚ) < absTolQ := by norm_num [absTolQ]
      constructor <;> linarith
    · rw [if_neg hp2] at h1
      rw [show (EF.fin (snapQ (p + -lq))).abs = EF.fin |snapQ (p + -lq)| from rfl]
        at h1
      simp only [EF.mul_fin, EF.add_fin, EF.neg_fin, add_nb_fin, EF.two_def] at h1
      refine ⟨c + aq, snapQ (p + -lq), d + |snapQ (p + -lq)| * pq,
        snapQ (f + snapQ (aq + -(2 * (|snapQ (p + -lq)| * pq)))), h1,
        by positivity, fun _ => hnp, ?_⟩
      have e1 := snapQ_dev (aq + -(2 * (|snapQ (p + -lq)| * pq)))
      have e2 := snapQ_dev (f + snapQ (aq + -(2 * (|snapQ (p + -lq)| * pq))))
      rw [abs_le] at e1 e2 ⊢
      have ht : (0 : ℚ) < absTolQ := by norm_num [absTolQ]
      constructor <;> linarith
  · rw [if_neg hnp] at h1
    refine ⟨c + aq, snapQ (p + -lq), d, f + aq, h1, hpre1, ?_, ?_⟩
    · intro hd
      exfalso
      have hp3 := hpre2 hd
      have hp4 := snapQ_fix_neg hpsnap hp3
      have hlt : p + -lq < -absTolQ := by linarith
      rw [snapQ_neg_of _ hlt] at hnp
      exact hnp (by linarith)
    · have he : c + aq - (f + aq) - 2 * d = 0 := by linarith
      rw [he, abs_zero]
      norm_num [absTolQ]

theorem buy_nb_finish_filled_invariants (exec_state : ExecuteOrderState)
    (size adj_price min_size : EF) (allowPartial : Bool) (adj_size fs fp rq : EF)
    (c p d f : ℚ) (st : ExecuteOrderState) (res : OrderResult)
    (h : buy_nb_finish exec_state size adj_price min_size allowPartial adj_size
      fs fp rq = .ok (st, res))
    (hf : res.status = OrderStatus.Filled)
    (hexec : exec_state = ⟨EF.fin c, EF.fin p, EF.fin d, EF.fin f⟩)
    (hs : res.size.isFinite = true)
    (hrqfin : fs.isFinite = true → ∃ rqq : ℚ, rq = EF.fin rqq)
    (hpre1 : 0 ≤ d) (hpre2 : 0 < d → p < 0) (hpre3 : c - f = 2 * d) :
    ∃ c2 p2 d2 f2 : ℚ,
      st = ⟨EF.fin c2, EF.fin p2, EF.fin d2, EF.fin f2⟩ ∧
      0 ≤ d2 ∧ (0 < d2 → p2 < 0) ∧ |c2 - f2 - 2 * d2| ≤ 4 * absTolQ := by
  subst hexec
  obtain ⟨hpair, -, -⟩ := buy_nb_finish_filled _ _ _ _ _ _ _ _ _ _ _ h hf
  obtain ⟨hstc, hres⟩ := pair_eq_fill_buy _ _ _ _ _ _ _ hpair
  rw [hres] at hs
  obtain ⟨sq, hfs⟩ := EF.fin_of_isFinite fs (by simpa using hs)
  obtain ⟨rqq, hrq⟩ := hrqfin (by rw [hfs]; rfl)
  rw [hfs, hrq] at hpair
  exact buy_nb_fill_invariants _ _ _ _ _ _ _ _ _ _ hpair hpre1 hpre2 hpre3

theorem buy_nb_filled_invariants (exec_state : ExecuteOrderState) (size price : EF)
    (direction : Int) (fees fixed_fees slippage min_size max_size size_granularity : EF)
    (mode : Int) (lock_cash allowPartial : Bool) (percent : EF)
    (price_area : PriceArea) (is_closing_price : Bool)
    (st : ExecuteOrderState) (res : OrderResult) (c p d f feq fxq : ℚ)
    (h : buy_nb exec_state size price direction fees fixed_fees slippage min_size
      max_size size_granularity mode lock_cash allowPartial percent price_area
      is_closing_price = .ok (st, res))
    (hf : res.status = OrderStatus.Filled)
    (hexec : exec_state = ⟨EF.fin c, EF.fin p, EF.fin d, EF.fin f⟩)
    (hs : res.size.isFinite = true)
    (hfe : fees = EF.fin feq) (hfx : fixed_fees = EF.fin fxq)
    (hadj : ∀ y : EF, check_adj_price_nb (price * (1 + slippage)) price_area
      is_closing_price mode = .ok y → ∃ q : ℚ, y = EF.fin q)
    (hpre1 : 0 ≤ d) (hpre2 : 0 < d → p < 0) (hpre3 : c - f = 2 * d) :
    ∃ c2 p2 d2 f2 : ℚ,
      st = ⟨EF.fin c2, EF.fin p2, EF.fin d2, EF.fin f2⟩ ∧
      0 ≤ d2 ∧ (0 < d2 → p2 < 0) ∧ |c2 - f2 - 2 * d2| ≤ 4 * absTolQ := by
  subst hfe
  subst hfx
  unfold buy_nb at h
  split at h
  · cases h
  · rename_i adj_price heq
    obtain ⟨pq, hpq⟩ := hadj adj_price heq
    subst hpq
    dsimp only at h
    split at h
    · exact absurd hf (res_not_filled_of_ok _ _ _ _ _ h (by decide))
    · split at h
      · cases h
      · split at h
        · exact absurd hf (res_not_filled_of_ok _ _ _ _ _ h (by decide))
        · split at h
          · exact absurd hf (res_not_filled_of_ok _ _ _ _ _ h (by decide))
          · split at h
            · exact buy_nb_finish_filled_invariants _ _ _ _ _ _ _ _ _ _ _ _ _ _ _
                h hf hexec hs
                (fun hfin => by
                  obtain ⟨sq, hA⟩ := EF.fin_of_isFinite _ hfin
                  rw [hA, buy_nb_total_req_cash_fin]
                  exact ⟨_, rfl⟩)
                hpre1 hpre2 hpre3
            · split at h
              · exact absurd hf (res_not_filled_of_ok _ _ _ _ _ h (by decide))
              · split at h
                · exact buy_nb_finish_filled_invariants _ _ _ _ _ _ _ _ _ _ _ _ _
                    _ _ h hf hexec hs
                    (fun hfin => by
                      obtain ⟨sq, hFS⟩ := EF.fin_of_isFinite _ hfin
                      rw [hFS]
                      exact ⟨sq * pq + (sq * pq * feq + fxq), by simp⟩)
                    hpre1 hpre2 hpre3
                · exact buy_nb_finish_filled_invariants _ _ _ _ _ _ _ _ _ _ _ _ _
                    _ _ h hf hexec hs
                    (fun hfin => by
                      obtain ⟨sq, hMA⟩ := EF.fin_of_isFinite _ hfin
                      rw [show (1 : EF) + EF.fin feq = EF.fin (1 + feq) from rfl]
                        at hMA
                      obtain ⟨mq, hMR, -⟩ := EF.div_eq_fin_inv _ _ _ hMA
                      obtain ⟨xq, hX, hYne⟩ := EF.div_eq_fin_inv _ _ _ hMR
                      rw [EF.neg_fin] at hX
                      obtain ⟨clq, hCL⟩ := add_nb_eq_fin_inv _ _ _ hX
                      exact ⟨clq, hCL⟩)
                    hpre1 hpre2 hpre3

theorem sell_nb_finish_filled_invariants (exec_state : ExecuteOrderState) (size : EF)
    (direction : Int) (fees fixed_fees min_size max_size size_granularity : EF)
    (allowPartial : Bool) (pq : ℚ) (size_limit_0 percent_1 : EF)
    (st : ExecuteOrderState) (res : OrderResult) (c p d f feq fxq msq : ℚ)
    (h : sell_nb_finish exec_state size direction fees fixed_fees min_size max_size
      size_granularity allowPartial (EF.fin pq) size_limit_0 percent_1 = .ok (st, res))
    (hf : res.status = OrderStatus.Filled)
    (hexec : exec_state = ⟨EF.fin c, EF.fin p, EF.fin d, EF.fin f⟩)
    (hs : res.size.isFinite = true)
    (hfe : fees = EF.fin feq) (hfx : fixed_fees = EF.fin fxq)
    (hms : min_size = EF.fin msq) (hms0 : 0 ≤ msq) (hpq : 0 ≤ pq)
    (hpre1 : 0 ≤ d) (hpre2 : 0 < d → p < 0) (hpre3 : c - f = 2 * d)
    (hpsnap : snapQ p = p) :
    ∃ c2 p2 d2 f2 : ℚ,
      st = ⟨EF.fin c2, EF.fin p2, EF.fin d2, EF.fin f2⟩ ∧
      0 ≤ d2 ∧ (0 < d2 → p2 < 0) ∧ |c2 - f2 - 2 * d2| ≤ 4 * absTolQ := by
  subst hfe
  subst hfx
  subst hms
  subst hexec
  obtain ⟨hpair, hcz, hls, -⟩ := sell_nb_finish_filled _ _ _ _ _ _ _ _ _ _ _ _ _ _ h hf
  obtain ⟨hstc, hres⟩ := pair_eq_fill_sell _ _ _ _ _ _ _ hpair
  rw [hres] at hs
  obtain ⟨lq, hL⟩ := EF.fin_of_isFinite
    (sell_nb_size_limit size_limit_0 percent_1 max_size size_granularity)
    (by simpa using hs)
  rw [hL] at hcz hls hpair
  have hlq : 0 ≤ lq := sell_size_limit_nonneg lq msq hms0 hcz hls
  simp only [EF.mul_fin, EF.add_fin, EF.neg_fin, add_nb_fin] at hpair
  exact sell_nb_fill_invariants _ _ _ _ _ _ _ _ _ _ hpair hpq hlq hpre1 hpre2 hpre3
    hpsnap

theorem sell_nb_filled_invariants (exec_state : ExecuteOrderState) (size price : EF)
    (direction : Int) (fees fixed_fees slippage min_size max_size size_granularity : EF)
    (mode : Int) (lock_cash allowPartial : Bool) (percent : EF)
    (price_area : PriceArea) (is_closing_price : Bool)
    (st : ExecuteOrderState) (res : OrderResult) (c p d f feq fxq msq : ℚ)
    (h : sell_nb exec_state size price direction fees fixed_fees slippage min_size
      max_size size_granularity mode lock_cash allowPartial percent price_area
      is_closing_price = .ok (st, res))
    (hf : res.status = OrderStatus.Filled)
    (hexec : exec_state = ⟨EF.fin c, EF.fin p, EF.fin d, EF.fin f⟩)
    (hs : res.size.isFinite = true)
    (hfe : fees = EF.fin feq) (hfx : fixed_fees = EF.fin fxq)
    (hms : min_size = EF.fin msq) (hms0 : 0 ≤ msq)
    (hadj : ∀ y : EF, check_adj_price_nb (price * (1 - slippage)) price_area
      is_closing_price mode = .ok y → ∃ q : ℚ, y = EF.fin q ∧ 0 ≤ q)
    (hpre1 : 0 ≤ d) (hpre2 : 0 < d → p < 0) (hpre3 : c - f = 2 * d)
    (hpsnap : snapQ p = p) :
    ∃ c2 p2 d2 f2 : ℚ,
      st = ⟨EF.fin c2, EF.fin p2, EF.fin d2, EF.fin f2⟩ ∧
      0 ≤ d2 ∧ (0 < d2 → p2 < 0) ∧ |c2 - f2 - 2 * d2| ≤ 4 * absTolQ := by
  unfold sell_nb at h
  split at h
  · cases h
  · rename_i adj_price heq
    obtain ⟨pq, hpq, hpqnn⟩ := hadj adj_price heq
    subst hpq
    dsimp only at h
    split at h
    · exact sell_nb_finish_filled_invariants _ _ _ _ _ _ _ _ _ _ _ _ _ _ _ _ _ _ _
        _ _ h hf hexec hs hfe hfx hms hms0 hpqnn hpre1 hpre2 hpre3 hpsnap
    · split at h
      · split at h
        · split at h
          · exact absurd hf (res_not_filled_of_ok _ _ _ _ _ h (by decide))
          · obtain ⟨l0, p1, hfin⟩ :=
              sell_nb_after_max_filled _ _ _ _ _ _ _ _ _ _ _ _ _ _ _ h hf
            exact sell_nb_finish_filled_invariants _ _ _ _ _ _ _ _ _ _ _ _ _ _ _ _
              _ _ _ _ _ hfin hf hexec hs hfe hfx hms hms0 hpqnn hpre1 hpre2 hpre3
              hpsnap
        · split at h
          · exact absurd hf (res_not_filled_of_ok _ _ _ _ _ h (by decide))
          · obtain ⟨l0, p1, hfin⟩ :=
              sell_nb_after_max_filled _ _ _ _ _ _ _ _ _ _ _ _ _ _ _ h hf
            exact sell_nb_finish_filled_invariants _ _ _ _ _ _ _ _ _ _ _ _ _ _ _ _
              _ _ _ _ _ hfin hf hexec hs hfe hfx hms hms0 hpqnn hpre1 hpre2 hpre3
              hpsnap
      · exact sell_nb_finish_filled_invariants _ _ _ _ _ _ _ _ _ _ _ _ _ _ _ _ _ _
          _ _ _ h hf hexec hs hfe hfx hms hms0 hpqnn hpre1 hpre2 hpre3 hpsnap

/-- C2 counterexample: a raw `sell_nb` with slippage `2` (passes validation,
which only demands slippage ≥ 0) fills at the negative adjusted price `-5`
and drives `debt` to `-5 < 0` from a pre-state satisfying all the invariants
(`debt = 0`, `cash - free_cash = 0`): the invariants are not preserved
unconditionally. -/
theorem C2_counterexample :
    sell_nb ⟨100, 0, 0, 100⟩ 1 5 Direction.Both (EF.fin (6 / 5)) 0 2 0 (EF.fin 1000)
      EF.nan PriceAreaVioMode.Ignore false true EF.nan NoPriceArea false =
      .ok (⟨101, EF.fin (-1), EF.fin (-5), 111⟩,
        ⟨1, EF.fin (-5), EF.fin (-6), OrderSide.Sell, OrderStatus.Filled, -1⟩) ∧
    ((0 : ℚ) ≤ 0 ∧ (100 : ℚ) - 100 = 2 * 0) ∧ (-5 : ℚ) < 0 := by
  refine ⟨by decide, ⟨le_refl 0, by norm_num⟩, by norm_num⟩

/-- C2 amended: a filled `buy_nb` or `sell_nb` call preserves the
execution-state invariants — post-state `debt ≥ 0`, `debt > 0` only with a
negative position, and `cash - free_cash = 2·debt` hence `free_cash ≤ cash`
within `4·abs_tol` — provided the pre-state satisfies them exactly, the
position is zero-snap stable, the result is a Filled order of finite size,
and the order parameters are sane: price finite positive, `0 ≤ slippage ≤ 1`
(the upper bound is the correction: the code never checks it), finite
fees/fixed fees, `min_size ≥ 0`, and a valid price area. -/
theorem C2_invariants (exec_state : ExecuteOrderState) (size price : EF)
    (direction : Int) (fees fixed_fees slippage min_size max_size size_granularity : EF)
    (mode : Int) (lock_cash allowPartial : Bool) (percent : EF)
    (price_area : PriceArea) (is_closing_price : Bool)
    (st : ExecuteOrderState) (res : OrderResult)
    (c p d f prq slq feq fxq msq : ℚ)
    (hexec : exec_state = ⟨EF.fin c, EF.fin p, EF.fin d, EF.fin f⟩)
    (hpre1 : 0 ≤ d) (hpre2 : 0 < d → p < 0) (hpre3 : c - f = 2 * d)
    (hpsnap : snapQ p = p)
    (hprice : price = EF.fin prq) (hprpos : 0 < prq)
    (hslip : slippage = EF.fin slq) (hsl0 : 0 ≤ slq) (hsl1 : slq ≤ 1)
    (hfe : fees = EF.fin feq) (hfx : fixed_fees = EF.fin fxq)
    (hms : min_size = EF.fin msq) (hms0 : 0 ≤ msq)
    (hpa : check_price_area price_area = none)
    (hcl : is_closing_price = true → price_area.close.isNaN = false)
    (hfres : res.status = OrderStatus.Filled) (hsz : res.size.isFinite = true) :
    (buy_nb exec_state size price direction fees fixed_fees slippage min_size
       max_size size_granularity mode lock_cash allowPartial percent price_area
       is_closing_price = .ok (st, res) →
     ∃ c2 p2 d2 f2 : ℚ,
       st = ⟨EF.fin c2, EF.fin p2, EF.fin d2, EF.fin f2⟩ ∧
       0 ≤ d2 ∧ (0 < d2 → p2 < 0) ∧ |c2 - f2 - 2 * d2| ≤ 4 * absTolQ ∧
       f2 ≤ c2 + 4 * absTolQ) ∧
    (sell_nb exec_state size price direction fees fixed_fees slippage min_size
       max_size size_granularity mode lock_cash allowPartial percent price_area
       is_closing_price = .ok (st, res) →
     ∃ c2 p2 d2 f2 : ℚ,
       st = ⟨EF.fin c2, EF.fin p2, EF.fin d2, EF.fin f2⟩ ∧
       0 ≤ d2 ∧ (0 < d2 → p2 < 0) ∧ |c2 - f2 - 2 * d2| ≤ 4 * absTolQ ∧
       f2 ≤ c2 + 4 * absTolQ) := by
  constructor
  · intro hbuy
    have hadjb : ∀ y : EF, check_adj_price_nb (price * (1 + slippage)) price_area
        is_closing_price mode = .ok y → ∃ q : ℚ, y = EF.fin q := by
      intro y hy
      have hx : price * (1 + slippage) = EF.fin (prq * (1 + slq)) := by
        rw [hprice, hslip]
        rfl
      obtain ⟨yq, hyq, -, -⟩ := check_adj_price_fin _ price_area _ _ y
        (prq * (1 + slq)) hpa hx hcl hy
      exact ⟨yq, hyq⟩
    obtain ⟨c2, p2, d2, f2, hst, h1, h2, h3⟩ :=
      buy_nb_filled_invariants _ _ _ _ _ _ _ _ _ _ _ _ _ _ _ _ _ _ _ _ _ _ _ _
        hbuy hfres hexec hsz hfe hfx hadjb hpre1 hpre2 hpre3
    refine ⟨c2, p2, d2, f2, hst, h1, h2, h3, ?_⟩
    have hb := (abs_le.mp h3).1
    linarith
  · intro hsell
    have hadjs : ∀ y : EF, check_adj_price_nb (price * (1 - slippage)) price_area
        is_closing_price mode = .ok y → ∃ q : ℚ, y = EF.fin q ∧ 0 ≤ q := by
      intro y hy
      have hx : price * (1 - slippage) = EF.fin (prq * (1 + -slq)) := by
        rw [hprice, hslip]
        rfl
      obtain ⟨yq, hyq, -, hnn⟩ := check_adj_price_fin _ price_area _ _ y
        (prq * (1 + -slq)) hpa hx hcl hy
      exact ⟨yq, hyq, hnn (by nlinarith)⟩
    obtain ⟨c2, p2, d2, f2, hst, h1, h2, h3⟩ :=
      sell_nb_filled_invariants _ _ _ _ _ _ _ _ _ _ _ _ _ _ _ _ _ _ _ _ _ _ _ _ _
        hsell hfres hexec hsz hfe hfx hms hms0 hadjs hpre1 hpre2 hpre3 hpsnap
    refine ⟨c2, p2, d2, f2, hst, h1, h2, h3, ?_⟩
    have hb := (abs_le.mp h3).1
    linarith

/-- Witness for C2 at a concrete input: buying 1 unit at price 10 from the
invariant-satisfying state `(100, 0, 0, 100)` yields `(90, 1, 0, 90)`, which
again satisfies the invariants. -/
theorem C2_invariants_witness :
    ∃ c2 p2 d2 f2 : ℚ,
      (⟨90, 1, 0, 90⟩ : ExecuteOrderState) =
        ⟨EF.fin c2, EF.fin p2, EF.fin d2, EF.fin f2⟩ ∧
      0 ≤ d2 ∧ (0 < d2 → p2 < 0) ∧ |c2 - f2 - 2 * d2| ≤ 4 * absTolQ ∧
      f2 ≤ c2 + 4 * absTolQ :=
  (C2_invariants ⟨100, 0, 0, 100⟩ 1 10 Direction.Both 0 0 0 0 (EF.fin 1000) EF.nan
    PriceAreaVioMode.Ignore false true EF.nan NoPriceArea false
    ⟨90, 1, 0, 90⟩ ⟨1, 10, 0, OrderSide.Buy, OrderStatus.Filled, -1⟩
    100 0 0 100 10 0 0 0 0
    rfl (le_refl 0) (fun h => absurd h (lt_irrefl 0)) (by norm_num) snapQ_zero
    rfl (by norm_num) rfl (le_refl 0) (by norm_num) rfl rfl rfl (le_refl 0)
    (by decide) (fun h => nomatch h) rfl rfl).1 (by decide)

theorem pair_eq_fill_buy_position (st : ExecuteOrderState) (res : OrderResult)
    (e : ExecuteOrderState) (adj fs fp rq : EF)
    (hpair : (st, res) = buy_nb_fill e adj fs fp rq) :
    st.position = add_nb e.position fs ∧
    res = ⟨fs, adj, fp, OrderSide.Buy, OrderStatus.Filled, -1⟩ := by
  unfold buy_nb_fill at hpair
  dsimp only at hpair
  injection hpair with h1 h2
  exact ⟨by rw [h1], h2⟩

theorem pair_eq_fill_sell_position (st : ExecuteOrderState) (res : OrderResult)
    (e : ExecuteOrderState) (adj l fp a : EF)
    (hpair : (st, res) = sell_nb_fill e adj l fp a) :
    st.position = add_nb e.position (-l) ∧
    res = ⟨l, adj, fp, OrderSide.Sell, OrderStatus.Filled, -1⟩ := by
  unfold sell_nb_fill at hpair
  dsimp only at hpair
  injection hpair with h1 h2
  exact ⟨by rw [h1], h2⟩

/-- An EF value that is NaN, `-inf`, or a finite value at most `p` — the shape
preserved by the sell-side size-limit pipeline. -/
def EFle (x : EF) (p : ℚ) : Prop :=
  x = EF.nan ∨ x = EF.ninf ∨ ∃ q : ℚ, x = EF.fin q ∧ q ≤ p

theorem pymin_fin_le (p : ℚ) (size : EF) : EFle (EF.pymin (EF.fin p) size) p := by
  unfold EF.pymin EFle
  split
  · rename_i hlt
    cases size with
    | nan => simp [EF.ltb] at hlt
    | pinf => simp [EF.ltb] at hlt
    | ninf => exact Or.inr (Or.inl rfl)
    | fin s =>
      rw [EF.ltb_fin] at hlt
      exact Or.inr (Or.inr ⟨s, rfl, le_of_lt (of_decide_eq_true hlt)⟩)
  · exact Or.inr (Or.inr ⟨p, rfl, le_refl p⟩)

theorem apply_percent_le (l0 percent : EF) (p : ℚ) (hp : 0 ≤ p)
    (hl0 : EFle l0 p)
    (hpc : percent = EF.nan ∨ ∃ pc : ℚ, percent = EF.fin pc ∧ 0 ≤ pc ∧ pc ≤ 1) :
    EFle (apply_percent l0 percent) p := by
  unfold apply_percent
  split
  · exact hl0
  · rename_i hnn
    rcases hpc with hpc | ⟨pc, hpc, hpc0, hpc1⟩
    · rw [hpc] at hnn
      simp [EF.isNaN] at hnn
    · rw [hpc]
      rcases hl0 with h | h | ⟨q, hq, hqle⟩
      · rw [h]
        exact Or.inl rfl
      · rw [h]
        by_cases hpcpos : 0 < pc
        · right
          left
          show EF.mul (EF.fin pc) EF.ninf = EF.ninf
          simp only [EF.mul]
          rw [if_pos hpcpos]
        · left
          have hz : pc = 0 := le_antisymm (not_lt.mp hpcpos) hpc0
          subst hz
          show EF.mul (EF.fin 0) EF.ninf = EF.nan
          simp only [EF.mul]
          norm_num
      · rw [hq, EF.mul_fin]
        right
        right
        refine ⟨pc * q, rfl, ?_⟩
        rcases le_or_lt 0 q with hq0 | hq0
        · nlinarith
        · nlinarith

theorem apply_max_size_le (l1 max_size : EF) (p : ℚ) (hl1 : EFle l1 p) :
    EFle (apply_max_size l1 max_size) p := by
  unfold apply_max_size
  split
  · rename_i hlt
    cases max_size with
    | nan =>
      rcases hl1 with h | h | ⟨q, h, hqle⟩ <;> rw [h] at hlt <;> simp [EF.ltb] at hlt
    | pinf =>
      rcases hl1 with h | h | ⟨q, h, hqle⟩ <;> rw [h] at hlt <;> simp [EF.ltb] at hlt
    | ninf => exact Or.inr (Or.inl rfl)
    | fin m =>
      rcases hl1 with h | h | ⟨q, hq, hqle⟩
      · rw [h] at hlt
        simp [EF.ltb] at hlt
      · rw [h] at hlt
        simp [EF.ltb] at hlt
      · rw [hq, EF.ltb_fin] at hlt
        exact Or.inr (Or.inr
          ⟨m, rfl, le_of_lt (lt_of_lt_of_le (of_decide_eq_true hlt) hqle)⟩)
  · exact hl1

theorem apply_granularity_le (l2 g : EF) (p sq : ℚ)
    (h : apply_granularity l2 g = EF.fin sq)
    (hl2 : EFle l2 p)
    (hg : g = EF.nan ∨ ∃ gq : ℚ, g = EF.fin gq ∧ 0 < gq) : sq ≤ p := by
  unfold apply_granularity at h
  split at h
  · rcases hl2 with h2 | h2 | ⟨q, hq, hqle⟩
    · rw [h2] at h
      cases h
    · rw [h2] at h
      cases h
    · rw [hq] at h
      injection h with h3
      rw [← h3]
      exact hqle
  · rename_i hgnn
    rcases hg with hge | ⟨gq, hgq, hgpos⟩
    · rw [hge] at hgnn
      simp [EF.isNaN] at hgnn
    · subst hgq
      rcases hl2 with h2 | h2 | ⟨q, hq, hqle⟩
      · rw [h2, show EF.nan.fdiv (EF.fin gq) * EF.fin gq = EF.nan from rfl] at h
        cases h
      · rw [h2, show EF.ninf.fdiv (EF.fin gq) * EF.fin gq = EF.nan from rfl] at h
        cases h
      · rw [hq, show (EF.fin q).fdiv (EF.fin gq) = EF.fin ((⌊q / gq⌋ : ℤ) : ℚ) from by
          simp only [EF.fdiv]
          rw [if_neg (ne_of_gt hgpos)], EF.mul_fin] at h
        injection h with h3
        rw [← h3]
        calc (⌊q / gq⌋ : ℚ) * gq ≤ q / gq * gq := by
              nlinarith [Int.floor_le (q / gq)]
          _ = q := div_mul_cancel₀ q (ne_of_gt hgpos)
          _ ≤ p := hqle

theorem pymin_neg_fin (p : ℚ) (size : EF) (hsize : size ≠ EF.ninf) :
    ∃ aq : ℚ, EF.pymin (EF.fin (-p)) size = EF.fin aq ∧ aq ≤ -p := by
  unfold EF.pymin
  split
  · rename_i hlt
    cases size with
    | nan => simp [EF.ltb] at hlt
    | pinf => simp [EF.ltb] at hlt
    | ninf => exact absurd rfl hsize
    | fin s =>
      rw [EF.ltb_fin] at hlt
      exact ⟨s, rfl, le_of_lt (of_decide_eq_true hlt)⟩
  · exact ⟨-p, rfl, le_refl _⟩

theorem apply_max_size_fin (a max_size : EF) (aq b : ℚ) (ha : a = EF.fin aq)
    (hab : aq ≤ b) (hmax : max_size ≠ EF.ninf) :
    ∃ cq : ℚ, apply_max_size a max_size = EF.fin cq ∧ cq ≤ b := by
  subst ha
  unfold apply_max_size
  split
  · rename_i hlt
    cases max_size with
    | nan => simp [EF.ltb] at hlt
    | pinf => simp [EF.ltb] at hlt
    | ninf => exact absurd rfl hmax
    | fin m =>
      rw [EF.ltb_fin] at hlt
      exact ⟨m, rfl, le_trans (le_of_lt (of_decide_eq_true hlt)) hab⟩
  · exact ⟨aq, rfl, hab⟩

theorem apply_granularity_fin (a g : EF) (aq b : ℚ) (ha : a = EF.fin aq)
    (hab : aq ≤ b)
    (hg : g = EF.nan ∨ ∃ gq : ℚ, g = EF.fin gq ∧ 0 < gq) :
    ∃ cq : ℚ, apply_granularity a g = EF.fin cq ∧ cq ≤ b := by
  subst ha
  unfold apply_granularity
  split
  · exact ⟨aq, rfl, hab⟩
  · rename_i hgn
    rcases hg with hge | ⟨gq, hgq, hgpos⟩
    · rw [hge] at hgn
      simp [EF.isNaN] at hgn
    · subst hgq
      refine ⟨(⌊aq / gq⌋ : ℚ) * gq, ?_, ?_⟩
      · rw [show (EF.fin aq).fdiv (EF.fin gq) = EF.fin ((⌊aq / gq⌋ : ℤ) : ℚ) from by
          simp only [EF.fdiv]
          rw [if_neg (ne_of_gt hgpos)], EF.mul_fin]
      · calc (⌊aq / gq⌋ : ℚ) * gq ≤ aq / gq * gq := by
              nlinarith [Int.floor_le (aq / gq)]
          _ = aq := div_mul_cancel₀ aq (ne_of_gt hgpos)
          _ ≤ b := hab

theorem buy_nb_adj_size_0_short (position size : EF) :
    buy_nb_adj_size_0 position size Direction.ShortOnly =
      EF.pymin (-position) size := by
  unfold buy_nb_adj_size_0
  rw [if_pos (by decide)]

theorem fdiv_mul_fin_inv (a : EF) (gq sq : ℚ) (hg : 0 < gq)
    (h : a.fdiv (EF.fin gq) * EF.fin gq = EF.fin sq) :
    ∃ maq : ℚ, a = EF.fin maq ∧ sq = (⌊maq / gq⌋ : ℚ) * gq := by
  cases a with
  | nan =>
    rw [show EF.nan.fdiv (EF.fin gq) * EF.fin gq = EF.nan from rfl] at h
    cases h
  | pinf =>
    rw [show EF.pinf.fdiv (EF.fin gq) * EF.fin gq = EF.nan from rfl] at h
    cases h
  | ninf =>
    rw [show EF.ninf.fdiv (EF.fin gq) * EF.fin gq = EF.nan from rfl] at h
    cases h
  | fin a =>
    rw [show (EF.fin a).fdiv (EF.fin gq) = EF.fin ((⌊a / gq⌋ : ℤ) : ℚ) from by
      simp only [EF.fdiv]
      rw [if_neg (ne_of_gt hg)], EF.mul_fin] at h
    injection h with h2
    exact ⟨a, rfl, h2.symm⟩

theorem sell_nb_finish_position (exec_state : ExecuteOrderState) (size : EF)
    (direction : Int) (fees fixed_fees min_size max_size size_granularity : EF)
    (allowPartial : Bool) (adj_price : EF) (size_limit_0 percent_1 : EF)
    (st : ExecuteOrderState) (res : OrderResult) (p : ℚ)
    (h : sell_nb_finish exec_state size direction fees fixed_fees min_size max_size
      size_granularity allowPartial adj_price size_limit_0 percent_1 = .ok (st, res))
    (hf : res.status = OrderStatus.Filled)
    (hs : res.size.isFinite = true)
    (hpos : exec_state.position = EF.fin p) (hp : 0 ≤ p)
    (hl0 : EFle size_limit_0 p)
    (hpc : percent_1 = EF.nan ∨ ∃ pc : ℚ, percent_1 = EF.fin pc ∧ 0 ≤ pc ∧ pc ≤ 1)
    (hg : size_granularity = EF.nan ∨
      ∃ gq : ℚ, size_granularity = EF.fin gq ∧ 0 < gq) :
    ∃ p2 : ℚ, st.position = EF.fin p2 ∧ 0 ≤ p2 := by
  obtain ⟨hpair, -, -, -⟩ := sell_nb_finish_filled _ _ _ _ _ _ _ _ _ _ _ _ _ _ h hf
  obtain ⟨hstp, hres⟩ := pair_eq_fill_sell_position _ _ _ _ _ _ _ hpair
  rw [hres] at hs
  obtain ⟨sq, hL⟩ := EF.fin_of_isFinite
    (sell_nb_size_limit size_limit_0 percent_1 max_size size_granularity)
    (by simpa using hs)
  have hLu : apply_granularity
      (apply_max_size (apply_percent size_limit_0 percent_1) max_size)
      size_granularity = EF.fin sq := hL
  have hsq : sq ≤ p := by
    have h1 := apply_percent_le size_limit_0 percent_1 p hp hl0 hpc
    have h2 := apply_max_size_le _ max_size p h1
    exact apply_granularity_le _ size_granularity p sq hLu h2 hg
  rw [hL, hpos] at hstp
  refine ⟨snapQ (p + -sq), ?_, snapQ_nonneg (by linarith)⟩
  rw [hstp, EF.neg_fin, add_nb_fin]

theorem sell_nb_longonly_position (exec_state : ExecuteOrderState) (size price : EF)
    (fees fixed_fees slippage min_size max_size size_granularity : EF)
    (mode : Int) (lock_cash allowPartial : Bool) (percent : EF)
    (price_area : PriceArea) (is_closing_price : Bool)
    (st : ExecuteOrderState) (res : OrderResult) (p : ℚ)
    (h : sell_nb exec_state size price Direction.LongOnly fees fixed_fees slippage
      min_size max_size size_granularity mode lock_cash allowPartial percent
      price_area is_closing_price = .ok (st, res))
    (hf : res.status = OrderStatus.Filled)
    (hs : res.size.isFinite = true)
    (hpos : exec_state.position = EF.fin p) (hp : 0 ≤ p)
    (hpc : percent = EF.nan ∨ ∃ pc : ℚ, percent = EF.fin pc ∧ 0 ≤ pc ∧ pc ≤ 1)
    (hg : size_granularity = EF.nan ∨
      ∃ gq : ℚ, size_granularity = EF.fin gq ∧ 0 < gq) :
    ∃ p2 : ℚ, st.position = EF.fin p2 ∧ 0 ≤ p2 := by
  unfold sell_nb at h
  split at h
  · cases h
  · rename_i adj heq
    dsimp only at h
    split at h
    · rw [hpos] at h
      exact sell_nb_finish_position _ _ _ _ _ _ _ _ _ _ _ _ _ _ _ h hf hs hpos hp
        (pymin_fin_le p size) hpc hg
    · rename_i hcond
      exact absurd (by decide) hcond

theorem buy_insufficient_bound (CL : EF) (pq feq fxq asq mrq : ℚ)
    (hppos : 0 < pq) (hfe0 : 0 ≤ feq)
    (hMR : add_nb CL (EF.fin (-fxq)) / EF.fin (1 + feq) = EF.fin mrq)
    (hmr : ¬((add_nb CL (EF.fin (-fxq)) / EF.fin (1 + feq)).leb 0 = true))
    (hce : ¬(is_close_or_less_nb
      (EF.fin (asq * pq + (asq * pq * feq + fxq))) CL = true)) :
    mrq / pq ≤ asq := by
  obtain ⟨xq, hX, hYne⟩ := EF.div_eq_fin_inv _ _ _ hMR
  obtain ⟨clq, hCL⟩ := add_nb_eq_fin_inv _ _ _ hX
  have hMR2 := hMR
  rw [hCL, add_nb_fin, EF.div_fin _ _ hYne] at hMR2
  injection hMR2 with hMRval
  rw [hCL, add_nb_fin, EF.div_fin _ _ hYne, EF.zero_def, EF.leb_fin] at hmr
  have hmrpos : 0 < snapQ (clq + -fxq) / (1 + feq) := lt_of_not_le (by simpa using hmr)
  by_cases hsnap : |clq + -fxq| ≤ absTolQ
  · exfalso
    rw [snapQ, if_pos hsnap, zero_div] at hmrpos
    exact lt_irrefl 0 hmrpos
  · have hXid : snapQ (clq + -fxq) = clq + -fxq := by rw [snapQ, if_neg hsnap]
    rw [hCL] at hce
    have hclT : clq ≤ asq * pq + (asq * pq * feq + fxq) := by
      unfold is_close_or_less_nb at hce
      rw [Bool.or_eq_true] at hce
      push_neg at hce
      have h2 := hce.2
      rw [EF.ltb_fin] at h2
      exact le_of_not_lt (by simpa using h2)
    have hfe1 : (0 : ℚ) < 1 + feq := by linarith
    rw [← hMRval, hXid, div_div, div_le_iff (by positivity)]
    nlinarith

theorem buy_nb_shortonly_position (exec_state : ExecuteOrderState) (size price : EF)
    (fees fixed_fees slippage min_size max_size size_granularity : EF)
    (mode : Int) (lock_cash allowPartial : Bool) (percent : EF)
    (price_area : PriceArea) (is_closing_price : Bool)
    (st : ExecuteOrderState) (res : OrderResult) (p feq fxq : ℚ)
    (h : buy_nb exec_state size price Direction.ShortOnly fees fixed_fees slippage
      min_size max_size size_granularity mode lock_cash allowPartial percent
      price_area is_closing_price = .ok (st, res))
    (hf : res.status = OrderStatus.Filled)
    (hs : res.size.isFinite = true)
    (hpos : exec_state.position = EF.fin p) (hp : p ≤ 0)
    (hsize : size ≠ EF.ninf) (hmax : max_size ≠ EF.ninf)
    (hg : size_granularity = EF.nan ∨
      ∃ gq : ℚ, size_granularity = EF.fin gq ∧ 0 < gq)
    (hfe : fees = EF.fin feq) (hfe0 : 0 ≤ feq) (hfx : fixed_fees = EF.fin fxq)
    (hadj : ∀ y : EF, check_adj_price_nb (price * (1 + slippage)) price_area
      is_closing_price mode = .ok y → ∃ q : ℚ, y = EF.fin q ∧ 0 < q) :
    ∃ p2 : ℚ, st.position = EF.fin p2 ∧ p2 ≤ 0 := by
  subst hfe
  subst hfx
  unfold buy_nb at h
  split at h
  · cases h
  · rename_i adj_price heq
    obtain ⟨pq, hpq, hppos⟩ := hadj adj_price heq
    subst hpq
    dsimp only at h
    rw [hpos, buy_nb_adj_size_0_short] at h
    simp only [EF.neg_fin] at h
    obtain ⟨aq0, ha0, hle0⟩ := pymin_neg_fin p size hsize
    obtain ⟨aq1, ha1, hle1⟩ := apply_max_size_fin _ max_size aq0 (-p) ha0 hle0 hmax
    obtain ⟨asq, hasz, hlesz⟩ :=
      apply_granularity_fin _ size_granularity aq1 (-p) ha1 hle1 hg
    split at h
    · exact absurd hf (res_not_filled_of_ok _ _ _ _ _ h (by decide))
    · split at h
      · cases h
      · split at h
        · exact absurd hf (res_not_filled_of_ok _ _ _ _ _ h (by decide))
        · split at h
          · exact absurd hf (res_not_filled_of_ok _ _ _ _ _ h (by decide))
          · split at h
            · obtain ⟨hpair, -, -⟩ :=
                buy_nb_finish_filled _ _ _ _ _ _ _ _ _ _ _ h hf
              obtain ⟨hstp, hres⟩ := pair_eq_fill_buy_position _ _ _ _ _ _ _ hpair
              rw [hasz, hpos, add_nb_fin] at hstp
              exact ⟨snapQ (p + asq), hstp, snapQ_nonpos (by linarith)⟩
            · rename_i hce
              split at h
              · exact absurd hf (res_not_filled_of_ok _ _ _ _ _ h (by decide))
              · rename_i hmr
                split at h
                · rename_i hgb
                  rcases hg with hgnan | ⟨gq, hgq, hgpos⟩
                  · rw [hgnan] at hgb
                    simp [EF.isNaN] at hgb
                  · subst hgq
                    obtain ⟨hpair, -, -⟩ :=
                      buy_nb_finish_filled _ _ _ _ _ _ _ _ _ _ _ h hf
                    obtain ⟨hstp, hres⟩ :=
                      pair_eq_fill_buy_position _ _ _ _ _ _ _ hpair
                    rw [hres] at hs
                    obtain ⟨sq, hfs⟩ := EF.fin_of_isFinite _ (by simpa using hs)
                    rw [show (1 : EF) + EF.fin feq = EF.fin (1 + feq) from rfl]
                      at hfs hmr hstp
                    obtain ⟨maq, hMA, hsqval⟩ := fdiv_mul_fin_inv _ gq sq hgpos hfs
                    obtain ⟨mrq, hMR, -⟩ := EF.div_eq_fin_inv _ _ _ hMA
                    rw [hasz, buy_nb_total_req_cash_fin] at hce
                    have hb := buy_insufficient_bound _ pq feq fxq asq mrq hppos
                      hfe0 hMR hmr hce
                    have hMA2 := hMA
                    rw [hMR, EF.div_fin _ _ (ne_of_gt hppos)] at hMA2
                    injection hMA2 with hmaval
                    rw [hfs, hpos, add_nb_fin] at hstp
                    refine ⟨snapQ (p + sq), hstp, snapQ_nonpos ?_⟩
                    have hfloor : sq ≤ maq := by
                      rw [hsqval]
                      calc (⌊maq / gq⌋ : ℚ) * gq ≤ maq / gq * gq := by
                            nlinarith [Int.floor_le (maq / gq)]
                        _ = maq := div_mul_cancel₀ maq (ne_of_gt hgpos)
                    linarith [hb, hmaval.symm ▸ hfloor]
                · obtain ⟨hpair, -, -⟩ :=
                    buy_nb_finish_filled _ _ _ _ _ _ _ _ _ _ _ h hf
                  obtain ⟨hstp, hres⟩ :=
                    pair_eq_fill_buy_position _ _ _ _ _ _ _ hpair
                  rw [hres] at hs
                  obtain ⟨sq, hfs⟩ := EF.fin_of_isFinite _ (by simpa using hs)
                  rw [show (1 : EF) + EF.fin feq = EF.fin (1 + feq) from rfl]
                    at hfs hmr hstp
                  obtain ⟨mrq, hMR, -⟩ := EF.div_eq_fin_inv _ _ _ hfs
                  rw [hasz, buy_nb_total_req_cash_fin] at hce
                  have hb := buy_insufficient_bound _ pq feq fxq asq mrq hppos
                    hfe0 hMR hmr hce
                  have hfs2 := hfs
                  rw [hMR, EF.div_fin _ _ (ne_of_gt hppos)] at hfs2
                  injection hfs2 with hsqval
                  rw [hfs, hpos, add_nb_fin] at hstp
                  refine ⟨snapQ (p + sq), hstp, snapQ_nonpos ?_⟩
                  linarith [hb, hsqval ▸ hb]

/-- C10 counterexample: a raw ShortOnly `buy_nb` with `size = -inf` and a
finite granularity makes the requested size NaN, so the "min(-position, size)"
cap is bypassed and the final size is recomputed from cash alone: from
position `-1` the fill buys 100 units, leaving position `+99 > 0` — the
direction cap does not hold unconditionally. -/
theorem C10_counterexample :
    buy_nb ⟨100, EF.fin (-1), 1, 98⟩ EF.ninf 1 Direction.ShortOnly 0 0 0 0 EF.pinf
      (EF.fin 1) PriceAreaVioMode.Ignore false true EF.nan NoPriceArea false =
      .ok (⟨0, 99, 0, 0⟩, ⟨100, 1, 0, OrderSide.Buy, OrderStatus.Filled, -1⟩) ∧
    (-1 : ℚ) ≤ 0 ∧ (0 : ℚ) < 99 := by
  refine ⟨by decide, by norm_num, by norm_num⟩

/-- C10 amended: direction-constrained fills never flip the position sign,
under side conditions the claim omits. A LongOnly sell from `position ≥ 0`
keeps it `≥ 0` when `percent` is NaN or in `[0, 1]` (a negative percent can
label a negative requested size into a positive oversized one) and the
granularity is NaN or positive. A ShortOnly buy from `position ≤ 0` keeps it
`≤ 0` when additionally `size ≠ -inf` and `max_size ≠ -inf` (else the size
cap degenerates to NaN and the fill is sized by cash alone — see the
counterexample), fees are finite with `fees ≥ 0`, fixed fees finite, and the
adjusted price is finite positive. -/
theorem C10_direction_caps (exec_state : ExecuteOrderState) (size price : EF)
    (fees fixed_fees slippage min_size max_size size_granularity : EF)
    (mode : Int) (lock_cash allowPartial : Bool) (percent : EF)
    (price_area : PriceArea) (is_closing_price : Bool)
    (st : ExecuteOrderState) (res : OrderResult) (p feq fxq : ℚ)
    (hf : res.status = OrderStatus.Filled) (hs : res.size.isFinite = true)
    (hpos : exec_state.position = EF.fin p)
    (hg : size_granularity = EF.nan ∨
      ∃ gq : ℚ, size_granularity = EF.fin gq ∧ 0 < gq) :
    (sell_nb exec_state size price Direction.LongOnly fees fixed_fees slippage
       min_size max_size size_granularity mode lock_cash allowPartial percent
       price_area is_closing_price = .ok (st, res) → 0 ≤ p →
     (percent = EF.nan ∨ ∃ pc : ℚ, percent = EF.fin pc ∧ 0 ≤ pc ∧ pc ≤ 1) →
     ∃ p2 : ℚ, st.position = EF.fin p2 ∧ 0 ≤ p2) ∧
    (buy_nb exec_state size price Direction.ShortOnly fees fixed_fees slippage
       min_size max_size size_granularity mode lock_cash allowPartial percent
       price_area is_closing_price = .ok (st, res) → p ≤ 0 →
     size ≠ EF.ninf → max_size ≠ EF.ninf →
     fees = EF.fin feq → 0 ≤ feq → fixed_fees = EF.fin fxq →
     (∀ y : EF, check_adj_price_nb (price * (1 + slippage)) price_area
       is_closing_price mode = .ok y → ∃ q : ℚ, y = EF.fin q ∧ 0 < q) →
     ∃ p2 : ℚ, st.position = EF.fin p2 ∧ p2 ≤ 0) := by
  constructor
  · intro hsell hp hpc
    exact sell_nb_longonly_position _ _ _ _ _ _ _ _ _ _ _ _ _ _ _ _ _ _ hsell hf
      hs hpos hp hpc hg
  · intro hbuy hp hsz hmx hfe hfe0 hfx hadj
    exact buy_nb_shortonly_position _ _ _ _ _ _ _ _ _ _ _ _ _ _ _ _ _ _ _ _ hbuy
      hf hs hpos hp hsz hmx hg hfe hfe0 hfx hadj

/-- Witness for C10 at a concrete input: a LongOnly sell of 2 units from
position 5 leaves position 3, still nonnegative. -/
theorem C10_direction_caps_witness :
    ∃ p2 : ℚ, (⟨102, 3, 0, 102⟩ : ExecuteOrderState).position = EF.fin p2 ∧
      0 ≤ p2 :=
  (C10_direction_caps ⟨100, 5, 0, 100⟩ 2 1 0 0 0 0 (EF.fin 1000) EF.nan
    PriceAreaVioMode.Ignore false true EF.nan NoPriceArea false
    ⟨102, 3, 0, 102⟩ ⟨2, 1, 0, OrderSide.Sell, OrderStatus.Filled, -1⟩
    5 0 0 rfl rfl rfl (Or.inl rfl)).1 (by decide) (by norm_num) (Or.inl rfl)

/-- One order record of a column's stream (`vectorbt.portfolio.enums.order_dt`
restricted to the fields the profit functions read). -/
structure OrderRec where
  id : Int
  idx : Nat
  size : EF
  price : EF
  fees : EF
  side : Int
  deriving DecidableEq, Repr

/-- The per-record loop of `asset_flow_nb` (lines 6919-6940) at the default
`direction = Direction.Both` (the `else` branch `asset_flow = size`), for a
single column; `out` is updated in place at the record's row
(indices are assumed in range, as numpy indexing would demand). -/
def asset_flow_go : List OrderRec → Int → EF → List EF → Except String (List EF)
  | [], _, _, out => .ok out
  | r :: rest, last_id, position_now, out =>
    if decide (r.id < last_id) then
      .error "Ids must come in ascending order per column"
    else
      let size := if r.side == OrderSide.Sell then -r.size else r.size
      asset_flow_go rest r.id (add_nb position_now size)
        (out.set r.idx (add_nb (out.getD r.idx 0) size))

/-- `asset_flow_nb` for a single column with `n` rows
(default `direction = Direction.Both`). -/
def asset_flow_col_nb (n : ℕ) (recs : List OrderRec) : Except String (List EF) :=
  asset_flow_go recs (-1) 0 (List.replicate n 0)

/-- The per-record loop of `cash_flow_nb` (lines 7062-7090) at `free = false`
(the `else` branch `cash_flow = -size * price - fees`), for a single column. -/
def cash_flow_go : List OrderRec → Int → EF → List EF → Except String (List EF)
  | [], _, _, out => .ok out
  | r :: rest, last_id, position_now, out =>
    if decide (r.id < last_id) then
      .error "Ids must come in ascending order per column"
    else
      let size := if r.side == OrderSide.Sell then -r.size else r.size
      cash_flow_go rest r.id (add_nb position_now size)
        (out.set r.idx (add_nb (out.getD r.idx 0) (-size * r.price - r.fees)))

/-- `cash_flow_nb` for a single column with `n` rows (`free = false`). -/
def cash_flow_col_nb (n : ℕ) (recs : List OrderRec) : Except String (List EF) :=
  cash_flow_go recs (-1) 0 (List.replicate n 0)

/-- The per-record loop of `total_profit_nb` (lines 7385-7406): incremental
asset and cash balances over the fills of one column. -/
def total_profit_go : List OrderRec → Int → EF → EF → Except String (EF × EF)
  | [], _, assets, cash => .ok (assets, cash)
  | r :: rest, last_id, assets, cash =>
    if decide (r.id < last_id) then
      .error "Ids must come in ascending order per column"
    else
      let assets2 := if r.side == OrderSide.Buy then add_nb assets r.size
        else add_nb assets (-r.size)
      let cash2 := if r.side == OrderSide.Buy then
          add_nb cash (-(r.size * r.price + r.fees))
        else add_nb cash (r.size * r.price - r.fees)
      total_profit_go rest r.id assets2 cash2

/-- `total_profit_nb` for a single column: seed from `init_position` (bought
at the first close), accumulate over the records, return
`cash + assets * close[-1]`, with the zero mask forcing exactly `0` for a
column with no orders and zero ending balances. -/
def total_profit_col_nb (close : List EF) (recs : List OrderRec)
    (init_position : EF) : Except String EF :=
  let assets0 := if init_position.neb 0 then init_position else 0
  let cash0 := if init_position.neb 0 then -(close.getD 0 EF.nan) * init_position
    else 0
  match total_profit_go recs (-1) assets0 cash0 with
  | .error e => .error e
  | .ok (assets, cash) =>
    if decide (recs.length = 0) && assets.eqb 0 && cash.eqb 0 then .ok 0
    else .ok (cash + assets * close.getD (close.length - 1) EF.nan)

/-- Modelled from the spec: the reference total profit per column — cumulate
the signed cash flows of `cash_flow_nb` (`free = false`) and the asset flows
of `asset_flow_nb`, then evaluate final cash plus final assets times the last
close minus the initial investment (the initial position being acquired at
the first close). -/
def ref_total_profit (n : ℕ) (close : List EF) (recs : List OrderRec)
    (init_position init_cash : EF) : Except String EF :=
  match asset_flow_col_nb n recs, cash_flow_col_nb n recs with
  | .error e, _ => .error e
  | .ok _, .error e => .error e
  | .ok af, .ok cf =>
    let assets_end := init_position + af.foldl (· + ·) 0
    let cash_end := init_cash + -(close.getD 0 EF.nan) * init_position +
      cf.foldl (· + ·) 0
    .ok (cash_end + assets_end * close.getD (close.length - 1) EF.nan - init_cash)

/-- A rational-valued order record, embedded into `OrderRec` via `EF.fin`. -/
structure QOrderRec where
  id : Int
  idx : Nat
  size : ℚ
  price : ℚ
  fees : ℚ
  side : Int
  deriving DecidableEq, Repr

def QOrderRec.toEF (r : QOrderRec) : OrderRec :=
  ⟨r.id, r.idx, EF.fin r.size, EF.fin r.price, EF.fin r.fees, r.side⟩

/-- The signed size of a record (sells count negatively). -/
def qsize (r : QOrderRec) : ℚ := if r.side == OrderSide.Sell then -r.size else r.size

/-- The signed cash flow of a record (`free = false`). -/
def qcashflow (r : QOrderRec) : ℚ := -qsize r * r.price - r.fees

def sumSizes (recs : List QOrderRec) : ℚ := (recs.map qsize).sum

def sumFlows (recs : List QOrderRec) : ℚ := (recs.map qcashflow).sum

/-- `snapQ` is the identity on `x`. -/
def snapOK (x : ℚ) : Bool := x == 0 || decide (absTolQ < |x|)

theorem snapOK_id {x : ℚ} (h : snapOK x = true) : snapQ x = x := by
  unfold snapOK at h
  rw [Bool.or_eq_true] at h
  rcases h with h | h
  · rw [eq_of_beq h]
    exact snapQ_zero
  · rw [snapQ, if_neg (not_le.mpr (of_decide_eq_true h))]

/-- Ascending-id check shared by the three record loops. -/
def ids_ok : List QOrderRec → Int → Bool
  | [], _ => true
  | r :: rest, last_id => !decide (r.id < last_id) && ids_ok rest r.id

/-- Exact (unsnapped) counterpart of `asset_flow_go`. -/
def asset_flow_goQ : List QOrderRec → List ℚ → List ℚ
  | [], out => out
  | r :: rest, out =>
    asset_flow_goQ rest (out.set r.idx (out.getD r.idx 0 + qsize r))

/-- All row-accumulation snaps of `asset_flow_go` are identities. -/
def asset_flow_okQ : List QOrderRec → List ℚ → Bool
  | [], _ => true
  | r :: rest, out =>
    snapOK (out.getD r.idx 0 + qsize r) &&
      asset_flow_okQ rest (out.set r.idx (out.getD r.idx 0 + qsize r))

/-- Exact (unsnapped) counterpart of `cash_flow_go`. -/
def cash_flow_goQ : List QOrderRec → List ℚ → List ℚ
  | [], out => out
  | r :: rest, out =>
    cash_flow_goQ rest (out.set r.idx (out.getD r.idx 0 + qcashflow r))

/-- All row-accumulation snaps of `cash_flow_go` are identities. -/
def cash_flow_okQ : List QOrderRec → List ℚ → Bool
  | [], _ => true
  | r :: rest, out =>
    snapOK (out.getD r.idx 0 + qcashflow r) &&
      cash_flow_okQ rest (out.set r.idx (out.getD r.idx 0 + qcashflow r))

/-- Exact (unsnapped) counterpart of `total_profit_go`. -/
def total_profit_goQ : List QOrderRec → ℚ → ℚ → ℚ × ℚ
  | [], assets, cash => (assets, cash)
  | r :: rest, assets, cash =>
    total_profit_goQ rest
      (if r.side == OrderSide.Buy then assets + r.size else assets + -r.size)
      (if r.side == OrderSide.Buy then cash + -(r.size * r.price + r.fees)
       else cash + (r.size * r.price - r.fees))

/-- All balance snaps of `total_profit_go` are identities. -/
def total_profit_okQ : List QOrderRec → ℚ → ℚ → Bool
  | [], _, _ => true
  | r :: rest, assets, cash =>
    snapOK (if r.side == OrderSide.Buy then assets + r.size else assets + -r.size) &&
    snapOK (if r.side == OrderSide.Buy then cash + -(r.size * r.price + r.fees)
      else cash + (r.size * r.price - r.fees)) &&
    total_profit_okQ rest
      (if r.side == OrderSide.Buy then assets + r.size else assets + -r.size)
      (if r.side == OrderSide.Buy then cash + -(r.size * r.price + r.fees)
       else cash + (r.size * r.price - r.fees))

theorem list_getD_map (l : List ℚ) (i : ℕ) (d : ℚ) :
    (l.map EF.fin).getD i (EF.fin d) = EF.fin (l.getD i d) := by
  induction l generalizing i with
  | nil => rfl
  | cons a t ih =>
    cases i with
    | zero => rfl
    | succ j => exact ih j

theorem list_getD_map_lt (l : List ℚ) (i : ℕ) (d : EF) (h : i < l.length) :
    (l.map EF.fin).getD i d = EF.fin (l.getD i 0) := by
  induction l generalizing i with
  | nil => exact absurd h (by simp)
  | cons a t ih =>
    cases i with
    | zero => rfl
    | succ j => exact ih j (by simpa using h)

theorem list_set_map (l : List ℚ) (i : ℕ) (x : ℚ) :
    (l.map EF.fin).set i (EF.fin x) = (l.set i x).map EF.fin := by
  induction l generalizing i with
  | nil => rfl
  | cons a t ih =>
    cases i with
    | zero => rfl
    | succ j =>
      show EF.fin a :: (t.map EF.fin).set j (EF.fin x) = EF.fin a :: (t.set j x).map EF.fin
      rw [ih j]

theorem list_sum_set (l : List ℚ) (i : ℕ) (x : ℚ) (h : i < l.length) :
    (l.set i (l.getD i 0 + x)).sum = l.sum + x := by
  induction l generalizing i with
  | nil => exact absurd h (by simp)
  | cons a t ih =>
    cases i with
    | zero =>
      show ((a + x) :: t).sum = (a :: t).sum + x
      rw [List.sum_cons, List.sum_cons]
      ring
    | succ j =>
      show (a :: t.set j (t.getD j 0 + x)).sum = (a :: t).sum + x
      rw [List.sum_cons, List.sum_cons, ih j (by simpa using h)]
      ring

theorem list_foldl_add_fin (l : List ℚ) (a : ℚ) :
    (l.map EF.fin).foldl (· + ·) (EF.fin a) = EF.fin (l.foldl (· + ·) a) := by
  induction l generalizing a with
  | nil => rfl
  | cons b t ih => exact ih (a + b)

theorem list_foldl_eq_sum (l : List ℚ) (a : ℚ) : l.foldl (· + ·) a = a + l.sum := by
  induction l generalizing a with
  | nil => simp
  | cons b t ih =>
    show t.foldl (· + ·) (a + b) = a + (b :: t).sum
    rw [ih, List.sum_cons]
    ring

theorem asset_flow_go_sim (recs : List QOrderRec) (lid : Int) (pos : ℚ)
    (out : List ℚ)
    (hids : ids_ok recs lid = true) (hok : asset_flow_okQ recs out = true) :
    asset_flow_go (recs.map QOrderRec.toEF) lid (EF.fin pos) (out.map EF.fin) =
      .ok ((asset_flow_goQ recs out).map EF.fin) := by
  induction recs generalizing lid pos out with
  | nil => rfl
  | cons r rest ih =>
    unfold ids_ok at hids
    rw [Bool.and_eq_true] at hids
    unfold asset_flow_okQ at hok
    rw [Bool.and_eq_true] at hok
    unfold asset_flow_go
    simp only [List.map_cons, QOrderRec.toEF]
    dsimp only
    rw [if_neg (by simpa using hids.1)]
    have hsz : (if (r.side == OrderSide.Sell) = true then -EF.fin r.size
        else EF.fin r.size) = EF.fin (qsize r) := by
      unfold qsize
      by_cases h : (r.side == OrderSide.Sell) = true
      · rw [if_pos h, if_pos h, EF.neg_fin]
      · rw [if_neg h, if_neg h]
    rw [hsz, EF.zero_def, list_getD_map, add_nb_fin, add_nb_fin,
      snapOK_id hok.1, list_set_map]
    show asset_flow_go (rest.map QOrderRec.toEF) r.id
        (EF.fin (snapQ (pos + qsize r)))
        ((out.set r.idx (out.getD r.idx 0 + qsize r)).map EF.fin) =
      .ok ((asset_flow_goQ rest
        (out.set r.idx (out.getD r.idx 0 + qsize r))).map EF.fin)
    exact ih r.id _ _ hids.2 hok.2

theorem cash_flow_go_sim (recs : List QOrderRec) (lid : Int) (pos : ℚ)
    (out : List ℚ)
    (hids : ids_ok recs lid = true) (hok : cash_flow_okQ recs out = true) :
    cash_flow_go (recs.map QOrderRec.toEF) lid (EF.fin pos) (out.map EF.fin) =
      .ok ((cash_flow_goQ recs out).map EF.fin) := by
  induction recs generalizing lid pos out with
  | nil => rfl
  | cons r rest ih =>
    unfold ids_ok at hids
    rw [Bool.and_eq_true] at hids
    unfold cash_flow_okQ at hok
    rw [Bool.and_eq_true] at hok
    unfold cash_flow_go
    simp only [List.map_cons, QOrderRec.toEF]
    dsimp only
    rw [if_neg (by simpa using hids.1)]
    have hsz : (if (r.side == OrderSide.Sell) = true then -EF.fin r.size
        else EF.fin r.size) = EF.fin (qsize r) := by
      unfold qsize
      by_cases h : (r.side == OrderSide.Sell) = true
      · rw [if_pos h, if_pos h, EF.neg_fin]
      · rw [if_neg h, if_neg h]
    rw [hsz]
    rw [show -EF.fin (qsize r) * EF.fin r.price - EF.fin r.fees =
      EF.fin (qcashflow r) from by
        unfold qcashflow
        rw [EF.neg_fin, EF.mul_fin, EF.sub_fin]]
    rw [EF.zero_def, list_getD_map, add_nb_fin, add_nb_fin,
      snapOK_id hok.1, list_set_map]
    show cash_flow_go (rest.map QOrderRec.toEF) r.id
        (EF.fin (snapQ (pos + qsize r)))
        ((out.set r.idx (out.getD r.idx 0 + qcashflow r)).map EF.fin) =
      .ok ((cash_flow_goQ rest
        (out.set r.idx (out.getD r.idx 0 + qcashflow r))).map EF.fin)
    exact ih r.id _ _ hids.2 hok.2

theorem total_profit_go_sim (recs : List QOrderRec) (lid : Int) (a c : ℚ)
    (hids : ids_ok recs lid = true) (hok : total_profit_okQ recs a c = true) :
    total_profit_go (recs.map QOrderRec.toEF) lid (EF.fin a) (EF.fin c) =
      .ok (EF.fin (total_profit_goQ recs a c).1,
        EF.fin (total_profit_goQ recs a c).2) := by
  induction recs generalizing lid a c with
  | nil => rfl
  | cons r rest ih =>
    unfold ids_ok at hids
    rw [Bool.and_eq_true] at hids
    unfold total_profit_okQ at hok
    simp only [Bool.and_eq_true] at hok
    obtain ⟨⟨hk1, hk2⟩, hk3⟩ := hok
    unfold total_profit_go
    simp only [List.map_cons, QOrderRec.toEF]
    dsimp only
    rw [if_neg (by simpa using hids.1)]
    simp only [total_profit_goQ]
    by_cases hbuy : (r.side == OrderSide.Buy) = true
    · simp only [if_pos hbuy] at hk1 hk2 hk3 ⊢
      rw [show -(EF.fin r.size * EF.fin r.price + EF.fin r.fees) =
        EF.fin (-(r.size * r.price + r.fees)) from by
          rw [EF.mul_fin, EF.add_fin, EF.neg_fin]]
      rw [add_nb_fin, add_nb_fin, snapOK_id hk1]
      rw [show snapQ (c + -(r.size * r.price + r.fees)) =
        c + -(r.size * r.price + r.fees) from snapOK_id hk2]
      exact ih r.id _ _ hids.2 hk3
    · simp only [if_neg hbuy] at hk1 hk2 hk3 ⊢
      rw [show (EF.fin r.size * EF.fin r.price - EF.fin r.fees) =
        EF.fin (r.size * r.price - r.fees) from by
          rw [EF.mul_fin, EF.sub_fin]]
      rw [EF.neg_fin, add_nb_fin, add_nb_fin]
      rw [show snapQ (a + -r.size) = a + -r.size from snapOK_id hk1]
      rw [show snapQ (c + (r.size * r.price - r.fees)) =
        c + (r.size * r.price - r.fees) from snapOK_id hk2]
      exact ih r.id _ _ hids.2 hk3

theorem asset_flow_goQ_sum (recs : List QOrderRec) (out : List ℚ)
    (hidx : ∀ r ∈ recs, r.idx < out.length) :
    (asset_flow_goQ recs out).sum = out.sum + sumSizes recs := by
  induction recs generalizing out with
  | nil =>
    show out.sum = out.sum + sumSizes []
    simp [sumSizes]
  | cons r rest ih =>
    show (asset_flow_goQ rest (out.set r.idx (out.getD r.idx 0 + qsize r))).sum =
      out.sum + sumSizes (r :: rest)
    rw [ih _ (fun s hs => by
      rw [List.length_set]
      exact hidx s (List.mem_cons_of_mem r hs))]
    rw [list_sum_set out r.idx (qsize r) (hidx r (List.mem_cons_self r rest))]
    unfold sumSizes
    rw [List.map_cons, List.sum_cons]
    ring

theorem cash_flow_goQ_sum (recs : List QOrderRec) (out : List ℚ)
    (hidx : ∀ r ∈ recs, r.idx < out.length) :
    (cash_flow_goQ recs out).sum = out.sum + sumFlows recs := by
  induction recs generalizing out with
  | nil =>
    show out.sum = out.sum + sumFlows []
    simp [sumFlows]
  | cons r rest ih =>
    show (cash_flow_goQ rest (out.set r.idx (out.getD r.idx 0 + qcashflow r))).sum =
      out.sum + sumFlows (r :: rest)
    rw [ih _ (fun s hs => by
      rw [List.length_set]
      exact hidx s (List.mem_cons_of_mem r hs))]
    rw [list_sum_set out r.idx (qcashflow r) (hidx r (List.mem_cons_self r rest))]
    unfold sumFlows
    rw [List.map_cons, List.sum_cons]
    ring

theorem total_profit_goQ_eval (recs : List QOrderRec) (a c : ℚ)
    (hside : ∀ r ∈ recs, r.side = OrderSide.Buy ∨ r.side = OrderSide.Sell) :
    total_profit_goQ recs a c = (a + sumSizes recs, c + sumFlows recs) := by
  induction recs generalizing a c with
  | nil =>
    show (a, c) = (a + sumSizes [], c + sumFlows [])
    simp [sumSizes, sumFlows]
  | cons r rest ih =>
    rcases hside r (List.mem_cons_self r rest) with hb | hsl
    · have hbuy : (r.side == OrderSide.Buy) = true := by
        rw [hb]
        rfl
      have hsell : (r.side == OrderSide.Sell) = false := by
        rw [hb]
        rfl
      show total_profit_goQ rest _ _ = _
      simp only [if_pos hbuy]
      rw [ih _ _ (fun s hs' => hside s (List.mem_cons_of_mem _ hs'))]
      unfold sumSizes sumFlows
      simp only [List.map_cons, List.sum_cons]
      rw [Prod.mk.injEq]
      constructor <;> simp only [qsize, qcashflow, hsell, Bool.false_eq_true, if_false] <;> ring
    · have hbuy : (r.side == OrderSide.Buy) = false := by
        rw [hsl]
        rfl
      have hsell : (r.side == OrderSide.Sell) = true := by
        rw [hsl]
        rfl
      show total_profit_goQ rest _ _ = _
      simp only [hbuy, Bool.false_eq_true, if_false]
      rw [ih _ _ (fun s hs' => hside s (List.mem_cons_of_mem _ hs'))]
      unfold sumSizes sumFlows
      simp only [List.map_cons, List.sum_cons]
      rw [Prod.mk.injEq]
      constructor <;> simp only [qsize, qcashflow, hsell, if_true] <;> ring

theorem ref_total_profit_eval (n : ℕ) (closeq : List ℚ) (qrecs : List QOrderRec)
    (ipq icq : ℚ) (hn : closeq.length = n) (hn0 : 0 < n)
    (hidx : ∀ r ∈ qrecs, r.idx < n)
    (hids : ids_ok qrecs (-1) = true)
    (hok1 : asset_flow_okQ qrecs (List.replicate n 0) = true)
    (hok2 : cash_flow_okQ qrecs (List.replicate n 0) = true) :
    ref_total_profit n (closeq.map EF.fin) (qrecs.map QOrderRec.toEF)
      (EF.fin ipq) (EF.fin icq) =
    .ok (EF.fin (icq + -closeq.getD 0 0 * ipq + sumFlows qrecs +
      (ipq + sumSizes qrecs) * closeq.getD (closeq.length - 1) 0 - icq)) := by
  have hlen0 : 0 < closeq.length := by
    rw [hn]
    exact hn0
  have hrep : (List.replicate n (0 : EF)) = (List.replicate n (0 : ℚ)).map EF.fin := by
    rw [List.map_replicate, EF.zero_def]
  have hidx2 : ∀ r ∈ qrecs, r.idx < (List.replicate n (0 : ℚ)).length := by
    simpa using hidx
  unfold ref_total_profit asset_flow_col_nb cash_flow_col_nb
  dsimp only
  rw [hrep, EF.zero_def]
  rw [asset_flow_go_sim qrecs (-1) 0 (List.replicate n 0) hids hok1,
    cash_flow_go_sim qrecs (-1) 0 (List.replicate n 0) hids hok2]
  dsimp only
  simp only [list_foldl_add_fin, list_foldl_eq_sum]
  rw [asset_flow_goQ_sum qrecs (List.replicate n 0) hidx2,
    cash_flow_goQ_sum qrecs (List.replicate n 0) hidx2]
  simp only [List.sum_replicate, smul_zero, zero_add]
  rw [List.length_map,
    list_getD_map_lt closeq (closeq.length - 1) EF.nan (by omega),
    list_getD_map_lt closeq 0 EF.nan hlen0]
  simp only [EF.neg_fin, EF.mul_fin, EF.add_fin, EF.sub_fin]

/-- C8: total_profit_nb is consistent with cumulating the per-row cash flows of
cash_flow_nb (free = false) and the asset flows of asset_flow_nb and evaluating
final cash plus final assets at the last close, minus the initial cash — proved
as an exact refinement under snap-free side conditions: ascending record ids,
in-range row indices, Buy/Sell sides, finite rational inputs, a non-empty close
column, and every add_nb zero-snap along both computations being the identity.
Both pipelines then return the same exact total profit. -/
theorem C8_total_profit (n : ℕ) (closeq : List ℚ) (qrecs : List QOrderRec)
    (ipq icq : ℚ) (hn : closeq.length = n) (hn0 : 0 < n)
    (hidx : ∀ r ∈ qrecs, r.idx < n)
    (hside : ∀ r ∈ qrecs, r.side = OrderSide.Buy ∨ r.side = OrderSide.Sell)
    (hids : ids_ok qrecs (-1) = true)
    (hok1 : asset_flow_okQ qrecs (List.replicate n 0) = true)
    (hok2 : cash_flow_okQ qrecs (List.replicate n 0) = true)
    (hok3 : total_profit_okQ qrecs ipq (-closeq.getD 0 0 * ipq) = true) :
    ∃ tpq : ℚ,
      total_profit_col_nb (closeq.map EF.fin) (qrecs.map QOrderRec.toEF)
        (EF.fin ipq) = .ok (EF.fin tpq) ∧
      ref_total_profit n (closeq.map EF.fin) (qrecs.map QOrderRec.toEF)
        (EF.fin ipq) (EF.fin icq) = .ok (EF.fin tpq) := by
  have hlen0 : 0 < closeq.length := by
    rw [hn]
    exact hn0
  have href := ref_total_profit_eval n closeq qrecs ipq icq hn hn0 hidx hids hok1 hok2
  have hg0 : (closeq.map EF.fin).getD 0 EF.nan = EF.fin (closeq.getD 0 0) :=
    list_getD_map_lt closeq 0 EF.nan hlen0
  have hassets0 : (if (EF.fin ipq).neb 0 = true then EF.fin ipq else 0) = EF.fin ipq := by
    by_cases hip : ipq = 0
    · subst hip
      rfl
    · exact if_pos (by simp [EF.neb, EF.zero_def, hip])
  have hcash0 : (if (EF.fin ipq).neb 0 = true then
      -((closeq.map EF.fin).getD 0 EF.nan) * EF.fin ipq else 0) =
      EF.fin (-closeq.getD 0 0 * ipq) := by
    rw [hg0]
    by_cases hip : ipq = 0
    · subst hip
      rw [show -closeq.getD 0 0 * (0 : ℚ) = 0 from mul_zero _]
      rfl
    · have hc : (EF.fin ipq).neb 0 = true := by simp [EF.neb, EF.zero_def, hip]
      rw [if_pos hc, EF.neg_fin, EF.mul_fin]
  unfold total_profit_col_nb
  dsimp only
  rw [hassets0, hcash0,
    total_profit_go_sim qrecs (-1) ipq (-closeq.getD 0 0 * ipq) hids hok3,
    total_profit_goQ_eval qrecs ipq (-closeq.getD 0 0 * ipq) hside]
  dsimp only
  have hgl : (List.map EF.fin closeq).getD ((List.map EF.fin closeq).length - 1) EF.nan
      = EF.fin (closeq.getD (closeq.length - 1) 0) := by
    rw [List.length_map]
    exact list_getD_map_lt closeq (closeq.length - 1) EF.nan (by omega)
  rw [hgl]
  by_cases hq : qrecs = []
  · subst hq
    by_cases hip : ipq = 0
    · subst hip
      refine ⟨0, ?_, ?_⟩
      · rw [show -closeq.getD 0 0 * (0 : ℚ) = 0 from mul_zero _]
        rfl
      · rw [href]
        exact congrArg (fun q : ℚ => Except.ok (EF.fin q)) (by
          rw [show sumFlows ([] : List QOrderRec) = 0 from rfl,
            show sumSizes ([] : List QOrderRec) = 0 from rfl]
          ring)
    · refine ⟨-closeq.getD 0 0 * ipq + sumFlows ([] : List QOrderRec) +
        (ipq + sumSizes ([] : List QOrderRec)) *
          closeq.getD (closeq.length - 1) 0, ?_, ?_⟩
      · have h2 : EF.eqb (EF.fin (ipq + sumSizes ([] : List QOrderRec))) 0 = false := by
          rw [EF.zero_def, EF.eqb_fin, decide_eq_false_iff_not]
          rw [show sumSizes ([] : List QOrderRec) = 0 from rfl, add_zero]
          exact hip
        rw [h2, Bool.and_false, Bool.false_and, if_neg Bool.false_ne_true]
        simp only [EF.mul_fin, EF.add_fin]
      · rw [href]
        exact congrArg (fun q : ℚ => Except.ok (EF.fin q)) (by ring)
  · have h1 : decide ((qrecs.map QOrderRec.toEF).length = 0) = false := by
      rw [decide_eq_false_iff_not, List.length_map]
      intro h
      exact hq (List.length_eq_zero.mp h)
    refine ⟨-closeq.getD 0 0 * ipq + sumFlows qrecs +
      (ipq + sumSizes qrecs) * closeq.getD (closeq.length - 1) 0, ?_, ?_⟩
    · rw [h1, Bool.false_and, Bool.false_and, if_neg Bool.false_ne_true]
      simp only [EF.mul_fin, EF.add_fin]
    · rw [href]
      exact congrArg (fun q : ℚ => Except.ok (EF.fin q)) (by ring)

/-- C8 counterexample: two buys of sizes 1 and 1/(2e12) at price 1 with
close = [1, 2] and no initial position. The incremental total_profit_nb
keeps the sub-tolerance second fill (result 1 + 1/(2e12)), while the
flow-based reference zero-snaps that row's asset and cash flows in
asset_flow_nb/cash_flow_nb (result exactly 1): the two pipelines disagree. -/
theorem C8_counterexample :
    total_profit_col_nb [EF.fin 1, EF.fin 2]
      [⟨0, 0, EF.fin 1, EF.fin 1, EF.fin 0, OrderSide.Buy⟩,
       ⟨1, 1, EF.fin (1/(2 * 10^12)), EF.fin 1, EF.fin 0, OrderSide.Buy⟩]
      (EF.fin 0) = .ok (EF.fin (1 + 1/(2 * 10^12))) ∧
    ref_total_profit 2 [EF.fin 1, EF.fin 2]
      [⟨0, 0, EF.fin 1, EF.fin 1, EF.fin 0, OrderSide.Buy⟩,
       ⟨1, 1, EF.fin (1/(2 * 10^12)), EF.fin 1, EF.fin 0, OrderSide.Buy⟩]
      (EF.fin 0) (EF.fin 100) = .ok (EF.fin 1) := by
  constructor
  · decide
  · decide

/-- Witness for C8_total_profit: one buy of 1 unit at price 10 over
close = [10, 12] with zero initial position and cash 100 — both pipelines
return exactly 2. -/
theorem C8_total_profit_witness :
    ∃ tpq : ℚ,
      total_profit_col_nb ([10, 12].map EF.fin)
        ([⟨0, 0, 1, 10, 0, OrderSide.Buy⟩].map QOrderRec.toEF)
        (EF.fin 0) = .ok (EF.fin tpq) ∧
      ref_total_profit 2 ([10, 12].map EF.fin)
        ([⟨0, 0, 1, 10, 0, OrderSide.Buy⟩].map QOrderRec.toEF)
        (EF.fin 0) (EF.fin 100) = .ok (EF.fin tpq) :=
  C8_total_profit 2 [10, 12] [⟨0, 0, 1, 10, 0, OrderSide.Buy⟩] 0 100
    (by decide) (by decide) (by decide) (by decide) (by decide)
    (by decide) (by decide) (by decide)
